import Mathlib

/-!
# criticalT: vulnerability-tracking engine of `critical.c`

A shallow embedding of the vulnerability engine of `src/critical.c` and the
properties its specification states about it.

Modelling conventions.

* A C string is a `List Char` (the bytes before the terminating NUL).
* `double` values are rationals: arithmetic is exact, `sprintf("%f")` rounds to
  six decimals (ties to even), `atof` reads decimal notation.  Infinities, NaN
  and hexadecimal floats have no counterpart.
* `int`, `long` and `long long` are `Int` without wrap-around (signed overflow
  is undefined in C); `unsigned long` in `hash` wraps modulo `2 ^ 64`.
* Memory allocation always succeeds and no pointer argument is `NULL`.
* Undefined behaviour (an array index out of range, `atoi(NULL)` after a
  failed `strtok`, the dereference of a wild pointer) is the result `none`.
* The local `temp2` of `text_trace_data` is declared without an initialiser and
  read outside the redundant region: the value it holds on entry is an input of
  the call, kept in the entry consumed (`trace_entry.temp2`).  The local of the
  same name in `text_trace_instruction` is used only to update `bt->rr_thread`;
  those updates are followed inside the redundant region.
* The source is embedded in the configuration it selects: `REGION` is defined;
  `THREAD_LEVEL`, `FAN`, `REDUNDANCY` and `FAULT_INJECTION` are not.
-/

namespace CriticalT

/-! ## Constants -/

/-- Thread capacity, `#define MAX_THREADS 8`. -/
abbrev MAX_THREADS : Nat := 8

/-- Decay factor, `#define PWEIGHT 0.8`. -/
def PWEIGHT : ℚ := 8 / 10

/-- Propagation threshold, `#define REMOTE_THRESHOLD 100`. -/
def REMOTE_THRESHOLD : ℚ := 100

/-! ## C strings and the libc conversions the engine uses -/

/-- A C string: its characters up to the terminating NUL. -/
abbrev CStr := List Char

/-- The function `isspace` in the C locale. -/
def isspace (c : Char) : Bool :=
  c == ' ' || c == '\t' || c == '\n' || c == '\x0b' || c == '\x0c' || c == '\r'

/-- The function `isdigit`. -/
def isdigit (c : Char) : Bool := decide ('0'.toNat ≤ c.toNat) && decide (c.toNat ≤ '9'.toNat)

/-- Value of a decimal digit character. -/
def digitVal (c : Char) : Nat := c.toNat - '0'.toNat

/-- Decimal digit character of `d % 10`. -/
def digitChar (d : Nat) : Char := Char.ofNat ('0'.toNat + d % 10)

/-- Skip leading white space, as `strtol` and `strtod` do. -/
def skipSpace : CStr → CStr
  | [] => []
  | c :: cs => if isspace c then skipSpace cs else c :: cs

/-- Read a maximal run of decimal digits, accumulating the value and the
number of digits read. -/
def readDigits : CStr → Nat → Nat → Nat × Nat × CStr
  | [], acc, k => (acc, k, [])
  | c :: cs, acc, k =>
    if isdigit c then readDigits cs (acc * 10 + digitVal c) (k + 1) else (acc, k, c :: cs)

/-- Read an optional sign; the boolean is true for `-`. -/
def readSign : CStr → Bool × CStr
  | '-' :: cs => (true, cs)
  | '+' :: cs => (false, cs)
  | cs => (false, cs)

/-- The function `atoll` (also used for `atoi`): white space, optional sign, digits. -/
def atoll (s : CStr) : Int :=
  let (neg, r) := readSign (skipSpace s)
  let (v, _, _) := readDigits r 0 0
  if neg then -(v : Int) else (v : Int)

/-- The function `atoi`. -/
def atoi (s : CStr) : Int := atoll s

/-- Decimal exponent suffix of a floating literal: `e` or `E`, optional sign,
at least one digit; otherwise the exponent is 0. -/
def readExponent : CStr → Int
  | c :: cs =>
    if c == 'e' || c == 'E' then
      let (neg, r) := readSign cs
      let (v, k, _) := readDigits r 0 0
      if k = 0 then 0 else if neg then -(v : Int) else (v : Int)
    else 0
  | [] => 0

/-- The function `atof` on decimal notation: white space, optional sign, digits, optional
fraction, optional exponent. A string with no digits yields 0. -/
def atof (s : CStr) : ℚ :=
  let (neg, r) := readSign (skipSpace s)
  let (ip, ki, r1) := readDigits r 0 0
  let (fp, kf, r2) :=
    match r1 with
    | '.' :: cs => readDigits cs 0 0
    | cs => (0, 0, cs)
  let e : Int := if ki + kf = 0 then 0 else readExponent r2
  let m : ℚ := ((ip : ℚ) + (fp : ℚ) / (10 : ℚ) ^ kf) * (10 : ℚ) ^ e
  if neg then -m else m

/-- Decimal digits of a natural number, most significant first, prepended to
`acc`; `fuel` bounds the number of digits. -/
def natDigitsAux : Nat → Nat → CStr → CStr
  | 0, _, acc => acc
  | fuel + 1, n, acc =>
    if n / 10 = 0 then digitChar n :: acc
    else natDigitsAux fuel (n / 10) (digitChar n :: acc)

/-- Decimal notation of a natural number. -/
def natDigits (n : Nat) : CStr := natDigitsAux (n + 1) n []

/-- Output of `sprintf("%lld")`. -/
def fmt_lld (i : Int) : CStr :=
  if i < 0 then '-' :: natDigits i.natAbs else natDigits i.natAbs

/-- Output of `sprintf("%d")`. -/
def fmt_d (i : Int) : CStr := fmt_lld i

/-- Round to the nearest integer, ties to even. -/
def roundHalfEven (q : ℚ) : Int :=
  let f := ⌊q⌋
  let d := q - f
  if d < 1 / 2 then f
  else if 1 / 2 < d then f + 1
  else if f % 2 = 0 then f else f + 1

/-- The value `sprintf("%f")` prints for `q`: `q` rounded to six decimals. -/
def round6 (q : ℚ) : ℚ := (roundHalfEven (q * 1000000) : ℚ) / 1000000

/-- Exactly `k` decimal digits of `n` (its low `k` digits), zero padded. -/
def padDigits : Nat → Nat → CStr → CStr
  | 0, _, acc => acc
  | k + 1, n, acc => padDigits k (n / 10) (digitChar n :: acc)

/-- Output of `sprintf("%f")`: sign, integer part, point, six decimals. -/
def fmt_f (q : ℚ) : CStr :=
  let r := (roundHalfEven (q * 1000000)).natAbs
  let body := natDigits (r / 1000000) ++ '.' :: padDigits 6 (r % 1000000) []
  if q < 0 then '-' :: body else body

/-! ## strmap: the string-keyed map with a running sum -/

/-- The record `struct Pair`. -/
structure Pair where
  key : CStr
  value : CStr
deriving DecidableEq, Repr

/-- The record `struct Bucket`: the array `pairs` together with its length `count`. -/
abbrev Bucket := List Pair

/-- The record `struct StrMap`: `count` buckets, the number of stored keys and the
running sum of the stored values. -/
structure StrMap where
  count : Nat
  buckets : Nat → Bucket
  size : Int
  total_value : ℚ

/-- The function `hash`: djb2 on `unsigned long`. -/
def hash (str : CStr) : Nat :=
  str.foldl (fun h c => (((h * 32) % 2 ^ 64 + h) % 2 ^ 64 + c.toNat) % 2 ^ 64) 5381

/-- The function `get_pair`: first pair of the bucket whose key equals `key`. -/
def get_pair : Bucket → CStr → Option Pair
  | [], _ => none
  | p :: ps, key => if p.key = key then some p else get_pair ps key

/-- Assignment through the pointer `get_pair` returns: the value of the first
pair whose key equals `key` is overwritten. -/
def set_pair_value : Bucket → CStr → CStr → Bucket
  | [], _, _ => []
  | p :: ps, key, value =>
    if p.key = key then { p with value := value } :: ps
    else p :: set_pair_value ps key value

/-- The function `strmap_new`. -/
def strmap_new (capacity : Nat) : StrMap :=
  { count := capacity, buckets := fun _ => [], size := 0, total_value := 0 }

/-- The function `strmap_get`: `some v` when the call returns 1 having copied `v` to the
output buffer of `n_out_buf` bytes, `none` when it returns 0. -/
def strmap_get (map : StrMap) (key : CStr) (n_out_buf : Nat) : Option CStr :=
  let index := hash key % map.count
  match get_pair (map.buckets index) key with
  | none => none
  | some pair => if pair.value.length ≥ n_out_buf then none else some pair.value

/-- The function `strmap_put` (its return value is always 1). -/
def strmap_put (map : StrMap) (key value : CStr) : StrMap :=
  let index := hash key % map.count
  let bucket := map.buckets index
  match get_pair bucket key with
  | some pair =>
    let old_value := atof pair.value
    let new_value := atof value
    { map with
      buckets := Function.update map.buckets index (set_pair_value bucket key value)
      total_value := map.total_value - old_value + new_value }
  | none =>
    { map with
      buckets := Function.update map.buckets index (bucket ++ [{ key := key, value := value }])
      size := map.size + 1
      total_value := map.total_value + atof value }

/-- The function `strmap_get_count`. -/
def strmap_get_count (map : StrMap) : Int := map.size

/-- The function `sum_strmap`. -/
def sum_strmap (map : StrMap) : ℚ := map.total_value

/-- All pairs of the map, bucket by bucket (the traversal of `strmap_enum`). -/
def strmap_pairs (map : StrMap) : List Pair :=
  (List.range map.count).flatMap map.buckets

/-- The keys currently stored. -/
def strmap_keys (map : StrMap) : List CStr := (strmap_pairs map).map Pair.key

/-- The value currently stored for `key`, if any. -/
def strmap_value (map : StrMap) (key : CStr) : Option CStr :=
  (get_pair (map.buckets (hash key % map.count)) key).map Pair.value

/-- A sequence of `strmap_put` calls. -/
def strmap_puts (map : StrMap) (ops : List (CStr × CStr)) : StrMap :=
  ops.foldl (fun m kv => strmap_put m kv.1 kv.2) map

/-- Sum of `g` over the values of all stored pairs (a full scan of the map). -/
def strmap_scan (g : CStr → ℚ) (map : StrMap) : ℚ :=
  ((strmap_pairs map).map (fun p => g p.value)).sum

/-- Well-formedness of a map: a positive bucket count, every pair stored in the
bucket its key hashes to, no key twice in a bucket, `size` the number of pairs
and `total_value` the sum of the numeric values of all pairs. -/
structure StrMapInv (map : StrMap) : Prop where
  count_pos : 0 < map.count
  hashed : ∀ i, ∀ p ∈ map.buckets i, hash p.key % map.count = i
  nodup : ∀ i, ((map.buckets i).map Pair.key).Nodup
  size_eq : map.size = ((strmap_pairs map).length : Int)
  total_eq : map.total_value = strmap_scan atof map

/-! ## Formatting into fixed buffers and tokenising -/

/-- Hexadecimal digit character of `d % 16`, lower case. -/
def hexChar (d : Nat) : Char :=
  if d % 16 < 10 then Char.ofNat ('0'.toNat + d % 16) else Char.ofNat ('a'.toNat + (d % 16 - 10))

/-- Hexadecimal digits of a natural number, most significant first. -/
def hexDigitsAux : Nat → Nat → CStr → CStr
  | 0, _, acc => acc
  | fuel + 1, n, acc =>
    if n / 16 = 0 then hexChar n :: acc
    else hexDigitsAux fuel (n / 16) (hexChar n :: acc)

/-- Output of `sprintf("%llx")` for a 64-bit unsigned value. -/
def fmt_llx (n : Nat) : CStr := hexDigitsAux (n % 2 ^ 64 + 1) (n % 2 ^ 64) []

/-- Writing `text` with `sprintf` into a buffer of `n` bytes: defined only when
the text and its terminating NUL fit. -/
def sprintf_buf (n : Nat) (text : CStr) : Option CStr :=
  if text.length < n then some text else none

/-- The function `strtok_r` on the remaining input `s` with delimiter set
`delims`: the next token and the input after it, or `none` for `NULL`. -/
def strtok_r (delims : CStr) (s : CStr) : Option (CStr × CStr) :=
  let s1 := s.dropWhile (fun c => decide (c ∈ delims))
  if s1 = [] then none
  else
    some (s1.takeWhile (fun c => !decide (c ∈ delims)),
      (s1.dropWhile (fun c => !decide (c ∈ delims))).drop 1)

/-- The three `type` codes of the typed map wrappers. -/
inductive ValType where
  | INT_TYPE
  | DOUBLE_TYPE
  | LONG_LONG_TYPE
deriving DecidableEq, Repr

/-- The C type a `type` code stands for. -/
@[reducible] def ValType.carrier : ValType → Type
  | .INT_TYPE => Int
  | .DOUBLE_TYPE => ℚ
  | .LONG_LONG_TYPE => Int

/-- The conversion `get_from_char_map` applies for a `type` code. -/
def ValType.parse : (type : ValType) → CStr → type.carrier
  | .INT_TYPE => atoi
  | .DOUBLE_TYPE => atof
  | .LONG_LONG_TYPE => atoll

/-- The text `put_to_char_map` formats for a `type` code. -/
def ValType.format : (type : ValType) → type.carrier → CStr
  | .INT_TYPE => fmt_d
  | .DOUBLE_TYPE => fmt_f
  | .LONG_LONG_TYPE => fmt_lld

/-- The function `get_from_char_map`: the outer `none` is undefined behaviour
(`strtok` yields `NULL` on an empty value), the inner option is `none` when the
call returns 0 and leaves `*value` untouched. -/
def get_from_char_map (map : StrMap) (key : CStr) (type : ValType) :
    Option (Option type.carrier) :=
  match strmap_get map key 50 with
  | none => some none
  | some buf =>
    match strtok_r [] buf with
    | none => none
    | some (tok, _) => some (some (type.parse tok))

/-- The function `get_from_int_map`. -/
def get_from_int_map (map : StrMap) (key : Int) (type : ValType) :
    Option (Option type.carrier) :=
  get_from_char_map map (fmt_d key) type

/-- The function `put_to_char_map`: `none` when the formatted number overflows
`char num[50]`. -/
def put_to_char_map (map : StrMap) (key : CStr) (type : ValType) (value : type.carrier) :
    Option StrMap :=
  match sprintf_buf 50 (type.format value) with
  | none => none
  | some num => some (strmap_put map key num)

/-- The function `put_to_int_map`. -/
def put_to_int_map (map : StrMap) (key : Int) (type : ValType) (value : type.carrier) :
    Option StrMap :=
  put_to_char_map map (fmt_d key) type value

/-! ## Engine state -/

/-- A `double [MAX_THREADS][MAX_THREADS]` array. -/
abbrev FanArray := Fin MAX_THREADS → Fin MAX_THREADS → ℚ

/-- Assignment `a[i][j] = v`. -/
def FanArray.set (a : FanArray) (i j : Fin MAX_THREADS) (v : ℚ) : FanArray :=
  Function.update a i (Function.update (a i) j v)

/-- The record `Fan_info`. -/
structure Fan_info where
  direct_alu_array : FanArray
  direct_reg_array : FanArray
  direct_mem_array : FanArray
  direct_count : FanArray
  indirect_alu_array : FanArray
  indirect_reg_array : FanArray
  indirect_mem_array : FanArray
  indirect_count : FanArray

/-- The record `Store_info`; `fan_info` is the matrix block the pointer refers to. -/
structure Store_info where
  thread_no : Int
  alu_tvf : ℚ
  reg_tvf : ℚ
  mem_tvf : ℚ
  alu_local_interval : ℚ
  reg_local_interval : ℚ
  mem_local_interval : ℚ
  alu_lvf : ℚ
  reg_lvf : ℚ
  mem_lvf : ℚ
  instr_num : Fin MAX_THREADS → Int
  fan_info : Fan_info

/-- The record `thread_t`; the map pointers are the maps they own. -/
structure thread_t where
  thread_num : Int
  thread_index : Int
  core_map : Int
  instr_num : Int
  instr_count : Int
  reg_live_area : Int
  mem_live_area : Int
  remote_count : Int
  register_vul : StrMap
  memory_vul : StrMap
  reg_self_vul : ℚ
  mem_self_vul : ℚ
  alu_self_vul : ℚ
  reg_vul : ℚ
  mem_vul : ℚ
  alu_vul : ℚ
  reg_last_remote : ℚ
  mem_last_remote : ℚ
  alu_last_remote : ℚ
  remote_reg_vul : StrMap
  remote_mem_vul : StrMap
  remote_alu_vul : StrMap
  remote_count_vul : StrMap
  rem_reg_vul : ℚ
  rem_mem_vul : ℚ
  rem_alu_vul : ℚ
  memory_load : StrMap

/-- The record `core_t`. -/
structure core_t where
  active : Int

/-- The fields of `base_trace_t` the engine reads and writes. -/
structure base_trace where
  cores : Fin 32 → core_t
  threads : Fin MAX_THREADS → thread_t
  rr_thread : thread_t
  partial_result : Int
  region : Int
  redundant : Int
  redundant_thread : Int
  redundant_region : Int
  exec_count : Nat
  data_count : Nat
  read_value : CStr
  write_value : CStr
  memory_store : StrMap
  thread_no_map : StrMap
  fan : Fan_info

/-- The values of `trace_type` that `text_tracer` tells apart. -/
inductive trace_type_t where
  | TR_Reserved
  | TR_Data
  | TR_Exception
  | TR_Instruction
deriving DecidableEq, Repr

/-- The value a pointer to a thread holds when the source never initialised
it: `NULL`, the address of `bt->rr_thread` (the only address the program ever
stores in such a pointer), or any other address, which the program cannot
dereference without undefined behaviour. -/
inductive stack_ptr where
  | null
  | rr_thread
  | other
deriving DecidableEq, Repr

/-- The fields of `trace_entry_t` the engine reads, together with what the
call that consumes the entry finds in its environment: `text` is the
disassembly the processor interface returns for an instruction entry, and
`temp2` is the value the local `thread_t *temp2` of `text_trace_data` holds on
entry, which the source declares without an initialiser. -/
structure trace_entry where
  trace_type : trace_type_t
  cpu_no : Int
  read_or_write : Int
  pa : Nat
  L1_hit_or_miss : Int
  text : Option CStr
  temp2 : stack_ptr

/-- Index into an array of `n` elements: `none` when out of range. -/
def index? (n : Nat) (i : Int) : Option (Fin n) :=
  if h : 0 ≤ i ∧ i.toNat < n then some ⟨i.toNat, h.2⟩ else none

/-- The function `initialize_thread_data`: a zeroed `thread_t` with fresh maps. -/
def initialize_thread_data (thread_id : Int) : thread_t :=
  { thread_num := thread_id, thread_index := 0, core_map := 0,
    instr_num := 0, instr_count := 0, reg_live_area := 0, mem_live_area := 0,
    remote_count := 0,
    register_vul := strmap_new 500, memory_vul := strmap_new 10000,
    reg_self_vul := 0, mem_self_vul := 0, alu_self_vul := 0,
    reg_vul := 0, mem_vul := 0, alu_vul := 0,
    reg_last_remote := 0, mem_last_remote := 0, alu_last_remote := 0,
    remote_reg_vul := strmap_new 500, remote_mem_vul := strmap_new 500,
    remote_alu_vul := strmap_new 500, remote_count_vul := strmap_new 500,
    rem_reg_vul := 0, rem_mem_vul := 0, rem_alu_vul := 0,
    memory_load := strmap_new 10000 }

/-- A zero matrix. -/
def FanArray.zero : FanArray := fun _ _ => 0

/-- The matrices as `base_trace_new_instance` initialises them. -/
def Fan_info.zero : Fan_info :=
  { direct_alu_array := FanArray.zero, direct_reg_array := FanArray.zero,
    direct_mem_array := FanArray.zero, direct_count := FanArray.zero,
    indirect_alu_array := FanArray.zero, indirect_reg_array := FanArray.zero,
    indirect_mem_array := FanArray.zero, indirect_count := FanArray.zero }

/-- The engine state `base_trace_new_instance` builds. -/
def base_trace_new_instance : base_trace :=
  { cores := fun _ => { active := 0 },
    threads := fun i => initialize_thread_data (i.val : Int),
    rr_thread := initialize_thread_data (-1),
    partial_result := 0, region := 0, redundant := 0,
    redundant_thread := -1, redundant_region := 0,
    exec_count := 0, data_count := 0, read_value := [], write_value := [],
    memory_store := strmap_new 10000, thread_no_map := strmap_new MAX_THREADS,
    fan := Fan_info.zero }

/-! ## The store record and its text form -/

/-- The function `storeToString` (with `FAN` off) writing into `char info[n]`:
the owner, the nine floating fields and the `MAX_THREADS` instruction numbers,
joined by `+`. -/
def storeToString (store : Store_info) (n : Nat) : Option CStr :=
  let head : CStr :=
    fmt_d store.thread_no ++ '+' :: fmt_f store.alu_tvf ++ '+' :: fmt_f store.reg_tvf
      ++ '+' :: fmt_f store.mem_tvf
      ++ '+' :: fmt_f store.alu_lvf ++ '+' :: fmt_f store.reg_lvf ++ '+' :: fmt_f store.mem_lvf
      ++ '+' :: fmt_f store.alu_local_interval ++ '+' :: fmt_f store.reg_local_interval
      ++ '+' :: fmt_f store.mem_local_interval
  (List.finRange MAX_THREADS).foldl
    (fun info i =>
      match info with
      | none => none
      | some info => sprintf_buf n (info ++ '+' :: fmt_lld (store.instr_num i)))
    (sprintf_buf n head)

/-- Read `k` tokens separated by `+`, converting each with `conv`; `none` when
a token is missing (`strtok_r` returns `NULL`). -/
def readTokens {α : Type} (conv : CStr → α) : Nat → CStr → Option (List α × CStr)
  | 0, s => some ([], s)
  | k + 1, s =>
    match strtok_r ['+'] s with
    | none => none
    | some (tok, rest) =>
      match readTokens conv k rest with
      | none => none
      | some (vs, rest') => some (conv tok :: vs, rest')

/-- The function `stringToStore` (with `FAN` off): the fields of `si` are
overwritten from the text, `fan_info` is left as it was. -/
def stringToStore (str : CStr) (si : Store_info) : Option Store_info :=
  match strtok_r ['+'] str with
  | none => none
  | some (t0, r0) =>
    match readTokens atof 9 r0 with
    | some ([a1, a2, a3, a4, a5, a6, a7, a8, a9], r1) =>
      match readTokens atoll MAX_THREADS r1 with
      | none => none
      | some (nums, _) =>
        some { si with
          thread_no := atoi t0
          alu_tvf := a1, reg_tvf := a2, mem_tvf := a3
          alu_lvf := a4, reg_lvf := a5, mem_lvf := a6
          alu_local_interval := a7, reg_local_interval := a8, mem_local_interval := a9
          instr_num := fun i => nums.getD i.val 0 }
    | _ => none

/-! ## Fan-in and fan-out -/

/-- The statement `if (new_value > a[j][in]) a[j][in] = new_value;`. -/
def FanArray.raise (a : FanArray) (j in_ : Fin MAX_THREADS) (new_value : ℚ) : FanArray :=
  if new_value > a j in_ then a.set j in_ new_value else a

/-- One iteration of the loop over `j` in `handle_fan_info`. -/
def fan_indirect_step (sinfo : Store_info) (out in_ : Fin MAX_THREADS) (finfo : Fan_info)
    (j : Fin MAX_THREADS) : Fan_info :=
  if sinfo.fan_info.direct_count j out > REMOTE_THRESHOLD
      ∨ sinfo.fan_info.indirect_count j out > REMOTE_THRESHOLD then
    { finfo with
      indirect_alu_array := finfo.indirect_alu_array.raise j in_
        ((sinfo.fan_info.direct_alu_array j out + sinfo.fan_info.indirect_alu_array j out)
          * PWEIGHT)
      indirect_reg_array := finfo.indirect_reg_array.raise j in_
        ((sinfo.fan_info.direct_reg_array j out + sinfo.fan_info.indirect_reg_array j out)
          * PWEIGHT)
      indirect_mem_array := finfo.indirect_mem_array.raise j in_
        ((sinfo.fan_info.direct_mem_array j out + sinfo.fan_info.indirect_mem_array j out)
          * PWEIGHT)
      indirect_count := finfo.indirect_count.raise j in_
        ((sinfo.fan_info.direct_count j out + sinfo.fan_info.indirect_count j out)
          * PWEIGHT) }
  else finfo

/-- The function `handle_fan_info`; `none` when `sinfo->thread_no` or `in` is
not an index of the matrices. -/
def handle_fan_info (sinfo : Store_info) (finfo : Fan_info) (in_ : Int) : Option Fan_info :=
  match index? MAX_THREADS sinfo.thread_no, index? MAX_THREADS in_ with
  | some out, some in_ =>
    let finfo := { finfo with
      direct_alu_array :=
        finfo.direct_alu_array.set out in_ (finfo.direct_alu_array out in_ + sinfo.alu_lvf) }
    let finfo := { finfo with
      direct_reg_array :=
        finfo.direct_reg_array.set out in_ (finfo.direct_reg_array out in_ + sinfo.reg_lvf) }
    let finfo := { finfo with
      direct_mem_array :=
        finfo.direct_mem_array.set out in_ (finfo.direct_mem_array out in_ + sinfo.mem_lvf) }
    let finfo := { finfo with
      direct_count := finfo.direct_count.set out in_ (finfo.direct_count out in_ + 1) }
    if finfo.direct_count out in_ > REMOTE_THRESHOLD then
      some ((List.finRange MAX_THREADS).foldl (fan_indirect_step sinfo out in_) finfo)
    else some finfo
  | _, _ => none

/-! ## Vulnerability factors -/

/-- The function `calculate_lvf`. -/
def calculate_lvf (lvf : ℚ) (instr_num : Int) (size : Int) : ℚ :=
  lvf / ((instr_num : ℚ) * (size : ℚ))

/-- The function `calculate_rvf`. -/
def calculate_rvf (rvf : ℚ) (remote_count : Int) : ℚ :=
  rvf / (remote_count : ℚ)

/-- The function `calculate_tvf`. -/
def calculate_tvf (lvf rvf lweight rweight : ℚ) : ℚ :=
  lweight * lvf + rweight * rvf

/-! ## Register and remote ledgers -/

/-- The function `reg_vulnerability`: the contribution returned and the ledger
after the call; `none` when a stored record lacks one of its two fields or the
new record overflows `char vul[1000]`. -/
def reg_vulnerability (vulnerability : StrMap) (current_inst_num : Int) (source : CStr)
    (read : Int) : Option (ℚ × StrMap) :=
  let found : Option (ℚ × ℚ) :=
    match strmap_get vulnerability source 1000 with
    | none => some (0, 0)
    | some buf =>
      match strtok_r ['+'] buf with
      | none => none
      | some (t1, r1) =>
        match strtok_r ['+'] r1 with
        | none => none
        | some (t2, _) =>
          let instr_num := atoll t1
          let old_value := atof t2
          if read = 1 then
            let new_vul : ℚ := ((current_inst_num - instr_num : Int) : ℚ)
            some (old_value + new_vul, new_vul)
          else some (old_value, 0)
  match found with
  | none => none
  | some (vul_value, ret_value) =>
    match sprintf_buf 1000 (fmt_lld current_inst_num ++ '+' :: fmt_f vul_value) with
    | none => none
    | some vul => some (ret_value, strmap_put vulnerability source vul)

/-- The four `put_to_int_map` calls that end `remote_vulnerability`. -/
def remote_vulnerability_put (bt : thread_t) (store_thread : Int)
    (remote_alu remote_reg remote_mem : ℚ) (r_count : Int) : Option thread_t :=
  match put_to_int_map bt.remote_reg_vul store_thread .DOUBLE_TYPE remote_reg,
    put_to_int_map bt.remote_alu_vul store_thread .DOUBLE_TYPE remote_alu,
    put_to_int_map bt.remote_mem_vul store_thread .DOUBLE_TYPE remote_mem,
    put_to_int_map bt.remote_count_vul store_thread .LONG_LONG_TYPE r_count with
  | some reg_map, some alu_map, some mem_map, some count_map =>
    some { bt with
      remote_reg_vul := reg_map, remote_alu_vul := alu_map,
      remote_mem_vul := mem_map, remote_count_vul := count_map }
  | _, _, _, _ => none

/-- The function `remote_vulnerability`: the per-source breakdown maps of the
reading thread after the call. -/
def remote_vulnerability (bt : thread_t) (store_thread : Int) (alu_value reg_value mem_value : ℚ) :
    Option thread_t :=
  match get_from_int_map bt.remote_alu_vul store_thread .DOUBLE_TYPE with
  | none => none
  | some none => remote_vulnerability_put bt store_thread alu_value reg_value mem_value 1
  | some (some found_alu) =>
    match get_from_int_map bt.remote_reg_vul store_thread .DOUBLE_TYPE,
      get_from_int_map bt.remote_mem_vul store_thread .DOUBLE_TYPE,
      get_from_int_map bt.remote_count_vul store_thread .LONG_LONG_TYPE with
    | some r, some m, some c =>
      remote_vulnerability_put bt store_thread (found_alu + alu_value)
        (r.getD reg_value + reg_value) (m.getD mem_value + mem_value) (c.getD 1 + 1)
    | _, _, _ => none

/-! ## Memory events -/

/-- The last statement of the block below: the instruction number of the load
is recorded in `memory_load`. -/
def load_hit_record (temp : thread_t) (mem_a : CStr) (store_inst : Int) :
    Option (thread_t × Int) :=
  match put_to_char_map temp.memory_load mem_a .LONG_LONG_TYPE temp.instr_num with
  | none => none
  | some load => some ({ temp with memory_load := load }, store_inst)

/-- The block of `text_trace_data` that closes the liveness window of a load
which hit in the cache, run for `temp` and again for `temp2`: the thread after
the block and the value `store_inst` has after it. -/
def load_hit (temp : thread_t) (mem_a : CStr) (store_inst : Int) : Option (thread_t × Int) :=
  match get_from_char_map temp.memory_load mem_a .LONG_LONG_TYPE with
  | none => none
  | some result =>
    let store_inst : Int :=
      match result with
      | some last_load => if last_load > store_inst then last_load else store_inst
      | none => store_inst
    let mem_value : ℚ := ((temp.instr_num - store_inst : Int) : ℚ)
    match get_from_char_map temp.memory_vul mem_a .DOUBLE_TYPE with
    | none => none
    | some old =>
      let old_value : ℚ := old.getD 0
      if mem_value ≠ 0 then
        match put_to_char_map temp.memory_vul mem_a .DOUBLE_TYPE (mem_value + old_value) with
        | none => none
        | some vul =>
          load_hit_record
            { temp with
              mem_live_area := temp.mem_live_area + 1
              mem_vul := temp.mem_vul + mem_value
              memory_vul := vul }
            mem_a store_inst
      else load_hit_record temp mem_a store_inst

/-- The bookkeeping on the storing thread `rt` after a remote read. -/
def self_snapshot (rt : thread_t) (si : Store_info) : thread_t :=
  let rt := if rt.alu_self_vul ≠ 0 then { rt with alu_last_remote := rt.alu_self_vul } else rt
  let rt := if rt.mem_self_vul ≠ 0 then { rt with mem_last_remote := rt.mem_self_vul } else rt
  let rt := if rt.reg_self_vul ≠ 0 then { rt with reg_last_remote := rt.reg_self_vul } else rt
  { rt with
    alu_self_vul := si.alu_local_interval
    mem_self_vul := si.mem_local_interval
    reg_self_vul := si.reg_local_interval }

/-- The ALU, register and memory total vulnerability factors `alu`, `reg` and
`mem` that the store branch of `text_trace_data` computes for the writing
thread `temp`; `temp2` is the thread the pointer `temp2` designates, none when
the pointer is `NULL`. -/
def write_tvf (temp : thread_t) (temp2 : Option thread_t) : ℚ × ℚ × ℚ :=
  let remote_count : Int := if temp.remote_count ≠ 0 then temp.remote_count else 1
  let localweight : ℚ := 1 / 2
  let remoteweight : ℚ := 1 / 2
  if temp.instr_num ≠ 0 then
    let (remote_count, localweight) : Int × ℚ :=
      if remote_count = 0 then (1, 1) else (remote_count, localweight)
    let src : thread_t := match temp2 with
      | some t2 => t2
      | none => temp
    let reg_size : Int :=
      if strmap_get_count src.register_vul = 0 then 1 else strmap_get_count src.register_vul
    let mem_size : Int :=
      if strmap_get_count src.memory_vul = 0 then 1 else strmap_get_count src.memory_vul
    let local_reg := calculate_lvf src.reg_vul src.instr_num reg_size
    let local_mem := calculate_lvf src.mem_vul src.instr_num mem_size
    let local_alu := calculate_lvf src.alu_vul src.instr_num 1
    let remote_reg := calculate_rvf temp.rem_reg_vul remote_count
    let remote_mem := calculate_rvf temp.rem_mem_vul remote_count
    let remote_alu := calculate_rvf temp.rem_alu_vul remote_count
    let (local_reg, local_mem, local_alu) : ℚ × ℚ × ℚ :=
      if temp2.isSome then (local_reg * local_reg, local_mem * local_mem, local_alu * local_alu)
      else (local_reg, local_mem, local_alu)
    (calculate_tvf local_alu remote_alu localweight remoteweight,
      calculate_tvf local_reg remote_reg localweight remoteweight,
      calculate_tvf local_mem remote_mem localweight remoteweight)
  else (0, 0, 0)

/-- The `Store_info` the store branch of `text_trace_data` fills in. `heap` is
the content of the block `malloc` returned: with `FAN` off the three `lvf`
fields keep it. -/
def write_store_info (bt : base_trace) (thread_no : Fin MAX_THREADS) (temp2 : Option thread_t)
    (heap : Store_info) : Store_info :=
  let temp := bt.threads thread_no
  let tvf := write_tvf temp temp2
  { heap with
    fan_info := bt.fan
    thread_no := (thread_no.val : Int)
    alu_tvf := tvf.1
    mem_tvf := tvf.2.2
    reg_tvf := tvf.2.1
    alu_local_interval := temp.alu_vul
    mem_local_interval := temp.mem_vul
    reg_local_interval := temp.reg_vul
    instr_num := fun i => (bt.threads i).instr_num }

/-- The part of the load branch of `text_trace_data` that follows the cache-hit
block: remote attribution when the record `si` is owned by another thread.
`temp` and `rr` are the reading thread and the redundant-region thread as the
cache-hit block left them. -/
def text_trace_data_remote (bt : base_trace) (thread_no : Fin MAX_THREADS) (cpu_no : Int)
    (si : Store_info) (temp rr : thread_t) : Option base_trace :=
  let store_thread := si.thread_no
  if store_thread ≠ cpu_no then
    let temp : thread_t := { temp with
      rem_alu_vul := temp.rem_alu_vul + si.alu_tvf
      rem_reg_vul := temp.rem_reg_vul + si.reg_tvf
      rem_mem_vul := temp.rem_mem_vul + si.mem_tvf
      remote_count := temp.remote_count + 1 }
    match remote_vulnerability temp store_thread si.alu_tvf si.reg_tvf si.mem_tvf,
      index? MAX_THREADS store_thread with
    | some temp, some rt =>
      let threads := Function.update bt.threads thread_no temp
      some { bt with
        threads := Function.update threads rt (self_snapshot (threads rt) si)
        rr_thread := rr }
    | _, _ => none
  else
    some { bt with threads := Function.update bt.threads thread_no temp, rr_thread := rr }

/-- The load branch of `text_trace_data` (`mem_type == 0`) for the thread
`thread_no` of core `cpu_no`; `temp2` is the value of the local `temp2` when
the branch is entered. The test `if(temp2)` of the cache-hit block repeats the
block on `bt->rr_thread` when `temp2` points there, skips it when `temp2` is
`NULL`, and dereferences a wild pointer otherwise. -/
def text_trace_data_load (bt : base_trace) (thread_no : Fin MAX_THREADS) (cpu_no : Int)
    (temp2 : stack_ptr) (mem_a : CStr) (hit1 : Int) (heap : Store_info) : Option base_trace :=
  let temp := bt.threads thread_no
  match strmap_get bt.memory_store mem_a 50000 with
  | none => some bt
  | some buf =>
    match stringToStore buf heap with
    | none => none
    | some si =>
      let store_inst := si.instr_num thread_no
      if hit1 = 1 then
        match load_hit temp mem_a store_inst with
        | none => none
        | some (temp, store_inst) =>
          match temp2 with
          | .rr_thread =>
            match load_hit bt.rr_thread mem_a store_inst with
            | none => none
            | some (rr, _) => text_trace_data_remote bt thread_no cpu_no si temp rr
          | .null => text_trace_data_remote bt thread_no cpu_no si temp bt.rr_thread
          | .other => none
      else text_trace_data_remote bt thread_no cpu_no si temp bt.rr_thread

/-- The thread the tests `if(temp2)` of the store branch read from: the
redundant-region thread when `temp2` points there, none when it is `NULL`. -/
def temp2_thread (bt : base_trace) : stack_ptr → Option thread_t
  | .rr_thread => some bt.rr_thread
  | _ => none

/-- The store branch of `text_trace_data` (`mem_type == 1`); `temp2` is the
value of the local `temp2` when the branch is entered. The branch reads
`temp2` only when `temp->instr_num != 0`; it is undefined when `temp2` is then
a wild pointer. -/
def text_trace_data_store (bt : base_trace) (thread_no : Fin MAX_THREADS) (temp2 : stack_ptr)
    (mem_a : CStr) (heap : Store_info) : Option base_trace :=
  if temp2 = .other ∧ (bt.threads thread_no).instr_num ≠ 0 then none
  else
    let si := write_store_info bt thread_no (temp2_thread bt temp2) heap
    match storeToString si 50000 with
    | none => none
    | some info => some { bt with memory_store := strmap_put bt.memory_store mem_a info }

/-- The state after the part of `text_trace_data` that precedes the dispatch on
`mem_type`: the redundant-region thread is re-initialised when it belongs to
another core, and `data_count` is incremented. -/
def text_trace_data_enter (bt : base_trace) (cpu_no : Int) : base_trace :=
  let bt : base_trace :=
    if (bt.redundant_region = 1 ∧ cpu_no = bt.redundant_thread)
        ∧ bt.rr_thread.thread_num ≠ cpu_no then
      { bt with rr_thread := initialize_thread_data cpu_no }
    else bt
  { bt with data_count := (bt.data_count + 1) % 2 ^ 64 }

/-- The function `text_trace_data`. `heap` is the content of the block a
`malloc(sizeof(Store_info))` returns. The local `temp2` is assigned the address
of `bt->rr_thread` when the redundant-region guard fires; otherwise it keeps
the value `ent.temp2` it held on entry, which the source leaves
indeterminate. -/
def text_trace_data (bt : base_trace) (ent : trace_entry) (heap : Store_info) :
    Option base_trace :=
  let cpu_no := ent.cpu_no
  match index? 32 cpu_no with
  | none => none
  | some core =>
    if (bt.cores core).active = 0 then some bt
    else
      match index? MAX_THREADS cpu_no with
      | none => none
      | some thread_no =>
        let temp2 : stack_ptr :=
          if bt.redundant_region = 1 ∧ cpu_no = bt.redundant_thread then .rr_thread
          else ent.temp2
        let bt := text_trace_data_enter bt cpu_no
        let mem_a := fmt_llx ent.pa
        if ent.read_or_write = 0 then
          text_trace_data_load bt thread_no cpu_no temp2 mem_a ent.L1_hit_or_miss heap
        else if ent.read_or_write = 1 then
          text_trace_data_store bt thread_no temp2 mem_a heap
        else some bt

/-! ## Auxiliary notions for the text forms -/

/-- Value of a digit string read most significant digit first, starting from `acc`. -/
def decVal (ds : CStr) (acc : Nat) : Nat := ds.foldl (fun a c => a * 10 + digitVal c) acc

/-- A digit string: non-empty and made of decimal digits only. -/
def IsDigits (ds : CStr) : Prop := ds ≠ [] ∧ ∀ c ∈ ds, isdigit c = true

/-- The digits `sprintf("%f")` prints after the sign for a number whose
rounded count of millionths has absolute value `r`. -/
def fmt_f_body (r : Nat) : CStr :=
  natDigits (r / 1000000) ++ '.' :: padDigits 6 (r % 1000000) []

/-- A token of the store text: non-empty and free of the separator `+`. -/
def NoPlus (tok : CStr) : Prop := tok ≠ [] ∧ '+' ∉ tok

/-- Tokens joined by `+`. -/
def plusJoin : List CStr → CStr
  | [] => []
  | [t] => t
  | t :: t' :: ts => t ++ '+' :: plusJoin (t' :: ts)

/-- Tokens each preceded by `+`. -/
def plusTail : List CStr → CStr
  | [] => []
  | t :: ts => '+' :: t ++ plusTail ts

/-- The tokens of the text form of a store record. -/
def store_tokens (si : Store_info) : List CStr :=
  [fmt_d si.thread_no, fmt_f si.alu_tvf, fmt_f si.reg_tvf, fmt_f si.mem_tvf,
    fmt_f si.alu_lvf, fmt_f si.reg_lvf, fmt_f si.mem_lvf,
    fmt_f si.alu_local_interval, fmt_f si.reg_local_interval, fmt_f si.mem_local_interval]
  ++ (List.finRange MAX_THREADS).map (fun i => fmt_lld (si.instr_num i))

/-- The text `storeToString` produces when the buffer is large enough. -/
def store_text (si : Store_info) : CStr := plusJoin (store_tokens si)

/-- What `stringToStore` reads back from the text of `si` into the record
`heap`: every floating field rounded to six decimals. -/
def store_reread (si heap : Store_info) : Store_info :=
  { heap with
    thread_no := si.thread_no
    alu_tvf := round6 si.alu_tvf, reg_tvf := round6 si.reg_tvf, mem_tvf := round6 si.mem_tvf
    alu_lvf := round6 si.alu_lvf, reg_lvf := round6 si.reg_lvf, mem_lvf := round6 si.mem_lvf
    alu_local_interval := round6 si.alu_local_interval
    reg_local_interval := round6 si.reg_local_interval
    mem_local_interval := round6 si.mem_local_interval
    instr_num := si.instr_num }

/-! ## Register ledger histories -/

/-- A history of `reg_vulnerability` calls on one ledger, oldest first: the
instruction number, the resource name and the `read` flag of each call. The
result is the ledger after the last call. -/
def reg_run : StrMap → List (Int × CStr × Int) → Option StrMap
  | m, [] => some m
  | m, a :: rest =>
    match reg_vulnerability m a.1 a.2.1 a.2.2 with
    | none => none
    | some r => reg_run r.2 rest

/-- Instruction number of the most recent call on `name` in a history. -/
def last_access : List (Int × CStr × Int) → CStr → Option Int
  | [], _ => none
  | a :: rest, name =>
    match last_access rest name with
    | some k => some k
    | none => if a.2.1 = name then some a.1 else none

/-- Instruction number of the most recent write (`read ≠ 1`) to `name`. -/
def last_write : List (Int × CStr × Int) → CStr → Option Int
  | [], _ => none
  | a :: rest, name =>
    match last_write rest name with
    | some k => some k
    | none => if a.2.1 = name ∧ a.2.2 ≠ 1 then some a.1 else none

/-- The instruction number recorded in the ledger for `name`. -/
def ledger_instr (m : StrMap) (name : CStr) : Option Int :=
  match strmap_value m name with
  | none => none
  | some v => (strtok_r ['+'] v).map (fun t => atoll t.1)

/-- Every record of a register ledger has the form `%lld+%f` with an
instruction number in the range of `long long` and a value bounded by `B`. -/
def LedgerOK (B : Nat) (m : StrMap) : Prop :=
  ∀ name v, strmap_value m name = some v →
    ∃ (k : Int) (q : ℚ), v = fmt_lld k ++ '+' :: fmt_f q
      ∧ (-2 ^ 63 ≤ k ∧ k < 2 ^ 63) ∧ |q| ≤ (B : ℚ)

/-! ## Notions used to state the memory-event properties -/

/-- The remote-attribution state of a thread: the three remote accumulators,
`remote_count` and the four per-source breakdown maps. -/
def remote_state (t : thread_t) : ℚ × ℚ × ℚ × Int × StrMap × StrMap × StrMap × StrMap :=
  (t.rem_alu_vul, t.rem_reg_vul, t.rem_mem_vul, t.remote_count,
    t.remote_alu_vul, t.remote_reg_vul, t.remote_mem_vul, t.remote_count_vul)

/-- Whether `text_trace_data` assigns `temp2` for an access by core `cpu_no`. -/
def in_region (bt : base_trace) (cpu_no : Int) : Bool :=
  decide (bt.redundant_region = 1 ∧ cpu_no = bt.redundant_thread)

/-- The value of the local `temp2` of `text_trace_data` after the
redundant-region guard: the address of `bt->rr_thread` when the guard fired,
the value held on entry otherwise. -/
def data_temp2 (bt : base_trace) (ent : trace_entry) : stack_ptr :=
  if in_region bt ent.cpu_no then .rr_thread else ent.temp2

/-- The `Store_info` a write event `ent` of thread `w` builds in state `bt`. -/
def written_store_info (bt : base_trace) (ent : trace_entry) (w : Fin MAX_THREADS)
    (heap : Store_info) : Store_info :=
  write_store_info (text_trace_data_enter bt ent.cpu_no) w
    (temp2_thread (text_trace_data_enter bt ent.cpu_no) (data_temp2 bt ent))
    heap

/-! ## Notions used to state the fan-matrix properties -/

/-- The gate of the indirect propagation for thread `j`: its direct or its
indirect count towards the owner `out`, in the snapshot of the store record,
exceeds the threshold. -/
def fan_gate (sinfo : Store_info) (out j : Fin MAX_THREADS) : Prop :=
  sinfo.fan_info.direct_count j out > REMOTE_THRESHOLD
    ∨ sinfo.fan_info.indirect_count j out > REMOTE_THRESHOLD

instance (sinfo : Store_info) (out j : Fin MAX_THREADS) : Decidable (fan_gate sinfo out j) := by
  unfold fan_gate; infer_instance

/-- The four indirect matrices of a `Fan_info` at one cell. -/
def Fan_info.indirect_cell (f : Fan_info) (a b : Fin MAX_THREADS) : ℚ × ℚ × ℚ × ℚ :=
  (f.indirect_alu_array a b, f.indirect_reg_array a b, f.indirect_mem_array a b,
    f.indirect_count a b)

/-- The four direct matrices of a `Fan_info` at one cell. -/
def Fan_info.direct_cell (f : Fan_info) (a b : Fin MAX_THREADS) : ℚ × ℚ × ℚ × ℚ :=
  (f.direct_alu_array a b, f.direct_reg_array a b, f.direct_mem_array a b,
    f.direct_count a b)

/-- The value indirect propagation raises the cells `[j][in]` to: per matrix,
the maximum of the old cell and the decayed sum of the direct and indirect
entries `[j][out]` of the snapshot. -/
def fan_raised (sinfo : Store_info) (out : Fin MAX_THREADS) (old : ℚ × ℚ × ℚ × ℚ)
    (j : Fin MAX_THREADS) : ℚ × ℚ × ℚ × ℚ :=
  (max old.1 (PWEIGHT * (sinfo.fan_info.direct_alu_array j out
      + sinfo.fan_info.indirect_alu_array j out)),
    max old.2.1 (PWEIGHT * (sinfo.fan_info.direct_reg_array j out
      + sinfo.fan_info.indirect_reg_array j out)),
    max old.2.2.1 (PWEIGHT * (sinfo.fan_info.direct_mem_array j out
      + sinfo.fan_info.indirect_mem_array j out)),
    max old.2.2.2 (PWEIGHT * (sinfo.fan_info.direct_count j out
      + sinfo.fan_info.indirect_count j out)))

/-- The direct cell `[out][in]` after a remote read: the three local
vulnerability factors of the store record are added, the count grows by one. -/
def fan_direct_added (sinfo : Store_info) (old : ℚ × ℚ × ℚ × ℚ) : ℚ × ℚ × ℚ × ℚ :=
  (old.1 + sinfo.alu_lvf, old.2.1 + sinfo.reg_lvf, old.2.2.1 + sinfo.mem_lvf, old.2.2.2 + 1)

/-- A sequence of remote reads as seen by `handle_fan_info`: the store record
resolved by each read and the reading thread. -/
def fan_run : Fan_info → List (Store_info × Int) → Option Fan_info
  | f, [] => some f
  | f, c :: rest =>
    match handle_fan_info c.1 f c.2 with
    | none => none
    | some f' => fan_run f' rest

/-- Number of reads of the sequence on the edge from owner `out` to reader `i`. -/
def edge_reads (calls : List (Store_info × Int)) (out i : Fin MAX_THREADS) : Nat :=
  calls.countP (fun c =>
    decide (index? MAX_THREADS c.1.thread_no = some out ∧ index? MAX_THREADS c.2 = some i))

/-! ## Example states -/

/-- A `Store_info` block whose content is all zero. -/
def heap_zero : Store_info :=
  { thread_no := 0, alu_tvf := 0, reg_tvf := 0, mem_tvf := 0,
    alu_local_interval := 0, reg_local_interval := 0, mem_local_interval := 0,
    alu_lvf := 0, reg_lvf := 0, mem_lvf := 0, instr_num := fun _ => 0,
    fan_info := Fan_info.zero }

/-- A memory access entry. -/
def mem_event (cpu_no read_or_write : Int) (pa : Nat) (hit : Int) : trace_entry :=
  { trace_type := .TR_Data, cpu_no := cpu_no, read_or_write := read_or_write, pa := pa,
    L1_hit_or_miss := hit, text := none, temp2 := .null }

/-- The fresh engine with every core switched on. -/
def engine_active : base_trace :=
  { base_trace_new_instance with cores := fun _ => { active := 1 } }

/-- The engine after thread 0 executed two ALU instructions without tracked
operands (such as `add 1, 2`): two instructions counted, `alu_vul = 2`, empty
ledgers, no remote sample. -/
def engine_two_alu : base_trace :=
  { engine_active with
    threads := fun i =>
      if i.val = 0 then
        { initialize_thread_data 0 with instr_num := 2, instr_count := 2, alu_vul := 2 }
      else initialize_thread_data (i.val : Int)
    exec_count := 2 }

/-- The engine of the first end-to-end scenario: thread 0 is at instruction 10
and its total vulnerability factors are 1, 2 and 3 (one remote sample with
remote sums 2, 4, 6 and no local vulnerability); thread 1 is at instruction 5. -/
def engine_scenario1 : base_trace :=
  { engine_active with
    threads := fun i =>
      if i.val = 0 then
        { initialize_thread_data 0 with
          instr_num := 10, instr_count := 10, remote_count := 1,
          rem_alu_vul := 2, rem_reg_vul := 4, rem_mem_vul := 6 }
      else if i.val = 1 then
        { initialize_thread_data 1 with instr_num := 5, instr_count := 5 }
      else initialize_thread_data (i.val : Int) }

/-- The state an event leads to, or the state itself when the event is
undefined. -/
def after_event (bt : base_trace) (ent : trace_entry) (heap : Store_info) : base_trace :=
  (text_trace_data bt ent heap).getD bt

/-- A `Fan_info` whose eight matrices hold `v` in every cell. -/
def Fan_info.const (v : ℚ) : Fan_info :=
  { direct_alu_array := fun _ _ => v, direct_reg_array := fun _ _ => v,
    direct_mem_array := fun _ _ => v, direct_count := fun _ _ => v,
    indirect_alu_array := fun _ _ => v, indirect_reg_array := fun _ _ => v,
    indirect_mem_array := fun _ _ => v, indirect_count := fun _ _ => v }

/-! ## Instruction events, reports and event sequences -/

/-- The first loop of `get_operand`: `found` tells whether a `[` was passed and
`acc` holds the characters copied to the front of the buffer so far. The
result is the characters copied and the value of `found` at the end of the
loop, or `none` in its place when the loop returns 1 on a digit after the `[`. -/
def get_operand_scan : CStr → Bool → CStr → CStr × Option Bool
  | [], found, acc => (acc, some found)
  | c :: cs, found, acc =>
    if found then
      if isdigit c then (acc, none)
      else if c = '*' ∨ c = ']' then (acc, some found)
      else if c = ' ' then get_operand_scan cs found acc
      else get_operand_scan cs found (acc ++ [c])
    else get_operand_scan cs (c == '[') acc

/-- The function `get_operand`: the value returned and the content of the
buffer `operand` after the call. -/
def get_operand (operand : CStr) (write : Int) : Int × CStr :=
  if (operand.head?.map isdigit).getD false then (1, operand)
  else
    match get_operand_scan operand false [] with
    | (acc, none) => (1, acc ++ operand.drop acc.length)
    | (acc, some found) =>
      let operand : CStr := if acc.length ≠ 0 then acc else operand
      if found ∧ (acc.length > 4 ∨ acc.length < 2) then (1, operand)
      else
        let operand : CStr := if found then operand else operand.filter (fun c => c != ' ')
        if ¬ found ∧ (operand.length > 4 ∨ operand.length < 2) then (1, operand)
        else if found ∧ write = 1 then (2, operand)
        else if operand.head? = some '0' then (1, operand)
        else (0, operand)

/-- The conversion of a `double` to `long`: truncation towards zero. -/
def double_to_long (q : ℚ) : Int := if 0 ≤ q then ⌊q⌋ else ⌈q⌉

/-- Double division as `print_cpu` uses it: `none` stands for the infinity or
NaN a division by zero produces. -/
def fdiv (a b : ℚ) : Option ℚ := if b = 0 then none else some (a / b)

/-- The numbers `print_cpu` writes besides the fields of the thread. -/
structure cpu_report where
  reg_area : Int
  mem_area : Int
  alu : Option ℚ
  regg : Option ℚ
  memm : Option ℚ
  alu_self : Option ℚ
  regg_self : Option ℚ
  memm_self : Option ℚ
  ralu : Option ℚ
  rmemm : Option ℚ
  rregg : Option ℚ

/-- The divisor `xr` of `print_cpu`: `instr_num` times the key count of the
register ledger. -/
def print_cpu_xr (cpu : thread_t) : ℚ :=
  (cpu.instr_num : ℚ) * ((strmap_get_count cpu.register_vul : Int) : ℚ)

/-- The divisor `xm` of `print_cpu`: `instr_num` times the key count of the
memory ledger. -/
def print_cpu_xm (cpu : thread_t) : ℚ :=
  (cpu.instr_num : ℚ) * ((strmap_get_count cpu.memory_vul : Int) : ℚ)

/-- The thread after `print_cpu`: the three self values are overwritten. -/
def print_cpu_thread (cpu : thread_t) : thread_t :=
  let alu_self := cpu.alu_vul - cpu.alu_self_vul
  let alu_self := if alu_self = 0 then cpu.alu_vul - cpu.alu_last_remote else alu_self
  let reg_self := cpu.reg_vul - cpu.reg_self_vul
  let reg_self := if reg_self = 0 then cpu.reg_vul - cpu.reg_last_remote else reg_self
  let mem_self := cpu.mem_vul - cpu.mem_self_vul
  let mem_self := if mem_self = 0 then cpu.mem_vul - cpu.mem_last_remote else mem_self
  { cpu with
    alu_self_vul := alu_self
    reg_self_vul := reg_self
    mem_self_vul := mem_self }

/-- The function `print_cpu`: the thread after the call and the numbers
written; a quotient that is not computed keeps its initial value 0. -/
def print_cpu (cpu : thread_t) : thread_t × cpu_report :=
  let reg_area : Int := if cpu.reg_live_area ≠ 0 then cpu.reg_live_area else 1
  let mem_area : Int := if cpu.mem_live_area ≠ 0 then cpu.mem_live_area else 1
  let xr := print_cpu_xr cpu
  let xm := print_cpu_xm cpu
  let cpu' := print_cpu_thread cpu
  let normalized : Bool := decide (cpu'.instr_num ≠ 0)
  let remote : Bool := decide (cpu'.remote_count ≠ 0)
  (cpu',
    { reg_area := reg_area
      mem_area := mem_area
      alu := if normalized then fdiv cpu'.alu_vul (cpu'.instr_num : ℚ) else some 0
      regg := if normalized then fdiv cpu'.reg_vul xr else some 0
      memm := if normalized then fdiv cpu'.mem_vul xm else some 0
      alu_self := if normalized then fdiv cpu'.alu_self_vul (cpu'.instr_num : ℚ) else some 0
      regg_self := if normalized then fdiv cpu'.reg_self_vul xr else some 0
      memm_self := if normalized then fdiv cpu'.mem_self_vul xm else some 0
      ralu := if remote then fdiv cpu'.rem_alu_vul (cpu'.remote_count : ℚ) else some 0
      rmemm := if remote then fdiv cpu'.rem_mem_vul (cpu'.remote_count : ℚ) else some 0
      rregg := if remote then fdiv cpu'.rem_reg_vul (cpu'.remote_count : ℚ) else some 0 })

/-- The state after `print_temp_results`: `print_cpu` ran on every primary
thread. -/
def print_temp_results (bt : base_trace) : base_trace :=
  { bt with threads := fun i => (print_cpu (bt.threads i)).1 }

/-- The state after `print_results`: `print_cpu` ran on every primary thread
and on the redundant-region thread. -/
def print_results (bt : base_trace) : base_trace :=
  { bt with
    threads := fun i => (print_cpu (bt.threads i)).1
    rr_thread := (print_cpu bt.rr_thread).1 }

/-- The test `strncmp(instr, pat, strlen(pat)) == 0`. -/
def strncmp_eq (instr pat : CStr) : Bool := decide (instr.take pat.length = pat)

/-- The first branch of `text_trace_instruction`: arithmetic and logic. -/
def is_alu_mnemonic (instr : CStr) : Bool :=
  strncmp_eq instr "add".toList || strncmp_eq instr "fadd".toList
    || strncmp_eq instr "sub".toList || strncmp_eq instr "fsub".toList
    || strncmp_eq instr "mul".toList || strncmp_eq instr "fmul".toList
    || strncmp_eq instr "imul".toList || strncmp_eq instr "lea".toList
    || strncmp_eq instr "cmp".toList || strncmp_eq instr "and".toList
    || strncmp_eq instr "or".toList || strncmp_eq instr "xor".toList
    || strncmp_eq instr "shl".toList || strncmp_eq instr "shr".toList
    || strncmp_eq instr "test".toList

/-- The second branch of `text_trace_instruction`: moves. -/
def is_mov_mnemonic (instr : CStr) : Bool :=
  strncmp_eq instr "mov".toList || strncmp_eq instr "movzx".toList

/-- The third branch of `text_trace_instruction`: `inc` and `neg`. -/
def is_unary_mnemonic (instr : CStr) : Bool :=
  strncmp_eq instr "inc".toList || strncmp_eq instr "neg".toList

/-- The locals of `text_trace_instruction` once the operands are classified;
`alu` tells whether the branch taken increments `alu_vul`. -/
structure decoded_instr where
  isRead : Int
  isWrite : Int
  read1 : CStr
  write1 : CStr
  alu : Bool
deriving DecidableEq, Repr

/-- The call `strtok_r(NULL, ",", &saveptr1)`: the operand text, if any, and
the input left. -/
def operand_token (rest : CStr) : Option CStr × CStr :=
  match strtok_r [','] rest with
  | none => (none, [])
  | some (tok, rest') => (some tok, rest')

/-- Classification of an operand token: `get_operand` on a copy when the token
is present and shorter than 100 characters, otherwise the initial value 1. -/
def classify_operand (tok : Option CStr) (write : Int) : Int × CStr :=
  match tok with
  | none => (1, [])
  | some w => if w.length < 100 then get_operand w write else (1, [])

/-- The mnemonic dispatch of `text_trace_instruction` on the mnemonic `instr`
and the text `rest` after it; `none` is the final `else` that returns. -/
def decode_instruction (instr rest : CStr) : Option decoded_instr :=
  if is_alu_mnemonic instr ∨ is_mov_mnemonic instr then
    let w := operand_token rest
    let cw := classify_operand w.1 1
    let r := operand_token w.2
    let cr := classify_operand r.1 0
    some { isRead := cr.1, isWrite := cw.1, read1 := cr.2, write1 := cw.2,
           alu := is_alu_mnemonic instr }
  else if is_unary_mnemonic instr then
    let w := operand_token rest
    match w.1 with
    | none => some { isRead := 1, isWrite := 1, read1 := [], write1 := [], alu := true }
    | some _ =>
      let cw := classify_operand w.1 1
      if cw.1 = 0 then
        some { isRead := 0, isWrite := cw.1, read1 := cw.2, write1 := cw.2, alu := true }
      else some { isRead := 1, isWrite := cw.1, read1 := [], write1 := cw.2, alu := true }
  else none

/-- One `reg_vulnerability` call of `text_trace_instruction` on a thread and
the statements after it: `reg_live_area` is incremented for a read and the
contribution, converted to `long`, is added to `reg_vul`. -/
def track_register (t : thread_t) (name : CStr) (read : Int) : Option thread_t :=
  match reg_vulnerability t.register_vul t.instr_num name read with
  | none => none
  | some (v, ledger) =>
    some { t with
      register_vul := ledger
      reg_live_area := if read = 1 then t.reg_live_area + 1 else t.reg_live_area
      reg_vul := t.reg_vul + ((double_to_long v : Int) : ℚ) }

/-- The three tracking blocks of `text_trace_instruction` for one thread: the
read operand, the write operand, and the bracketed write operand counted as a
read. -/
def track_registers (t : thread_t) (d : decoded_instr) : Option thread_t :=
  match (if d.isRead = 0 then track_register t d.read1 1 else some t) with
  | none => none
  | some t =>
    match (if d.isWrite = 0 then track_register t d.write1 0 else some t) with
    | none => none
    | some t => if d.isWrite = 2 then track_register t d.write1 1 else some t

/-- The state after the counting part of `text_trace_instruction`: the
redundant-region thread (when the guard fires) and the thread `thread_no` count
the instruction, `exec_count` grows, and a pending partial report is written. -/
def text_trace_instruction_enter (bt : base_trace) (thread_no : Fin MAX_THREADS)
    (cpu_no : Int) : base_trace :=
  let rr : thread_t :=
    if bt.redundant_region = 1 ∧ cpu_no = bt.redundant_thread then
      let rr := if bt.rr_thread.thread_num ≠ cpu_no then initialize_thread_data cpu_no
        else bt.rr_thread
      { rr with instr_count := rr.instr_count + 1, instr_num := rr.instr_num + 1 }
    else bt.rr_thread
  let temp := bt.threads thread_no
  let temp : thread_t :=
    { temp with instr_count := temp.instr_count + 1, instr_num := temp.instr_num + 1 }
  let bt : base_trace :=
    { bt with
      rr_thread := rr
      threads := Function.update bt.threads thread_no temp
      exec_count := (bt.exec_count + 1) % 2 ^ 64 }
  if bt.partial_result = 1 then
    { print_temp_results { bt with region := bt.region + 1 } with partial_result := 0 }
  else bt

/-- The part of `text_trace_instruction` that follows the mnemonic dispatch. -/
def text_trace_instruction_track (bt : base_trace) (thread_no : Fin MAX_THREADS)
    (region : Bool) (d : decoded_instr) : Option base_trace :=
  let temp := bt.threads thread_no
  let temp : thread_t := if d.alu then { temp with alu_vul := temp.alu_vul + 1 } else temp
  let rr : thread_t :=
    if region ∧ d.alu then { bt.rr_thread with alu_vul := bt.rr_thread.alu_vul + 1 }
    else bt.rr_thread
  match track_registers temp d,
    (if region then track_registers rr d else some rr) with
  | some temp, some rr =>
    some { bt with
      threads := Function.update bt.threads thread_no temp
      rr_thread := rr
      read_value := if d.isRead = 0 then d.read1 else bt.read_value
      write_value := if d.isWrite = 0 then d.write1 else bt.write_value }
  | _, _ => none

/-- The function `text_trace_instruction`; `ent.text` is the string the
disassembler returns. `none` when the core or thread index is out of range,
when the disassembly holds no mnemonic, or when a ledger call is undefined. -/
def text_trace_instruction (bt : base_trace) (ent : trace_entry) : Option base_trace :=
  let cpu_no := ent.cpu_no
  match index? 32 cpu_no with
  | none => none
  | some core =>
    if (bt.cores core).active = 0 then some bt
    else
      match index? MAX_THREADS cpu_no with
      | none => none
      | some thread_no =>
        let region := in_region bt cpu_no
        let bt := text_trace_instruction_enter bt thread_no cpu_no
        match ent.text with
        | none => some bt
        | some str =>
          match strtok_r [' '] str with
          | none => none
          | some (instr, rest) =>
            match decode_instruction instr rest with
            | none => some bt
            | some d => text_trace_instruction_track bt thread_no region d

/-- The function `text_trace_exception`: it returns at once. -/
def text_trace_exception (bt : base_trace) (_ent : trace_entry) : Option base_trace := some bt

/-- The function `text_tracer`, without the output it writes. -/
def text_tracer (bt : base_trace) (ent : trace_entry) (heap : Store_info) : Option base_trace :=
  match ent.trace_type with
  | .TR_Data => text_trace_data bt ent heap
  | .TR_Exception => text_trace_exception bt ent
  | .TR_Instruction => text_trace_instruction bt ent
  | .TR_Reserved => some bt

/-- What happens to the engine: a trace entry is consumed, an attribute is
set, or the final report is written. -/
inductive engine_event where
  | trace (ent : trace_entry) (heap : Store_info)
  | set_cpu_active (core : Fin 32) (value : Int)
  | set_partial_result (value : Int)
  | set_redundant_region (value : Int)
  | set_redundant_thread (value : Int)
  | set_redundant (value : Int)
  | report

/-- The engine after one event. -/
def engine_step (bt : base_trace) : engine_event → Option base_trace
  | .trace ent heap => text_tracer bt ent heap
  | .set_cpu_active core value =>
    some { bt with cores := Function.update bt.cores core { active := value } }
  | .set_partial_result value => some { bt with partial_result := value }
  | .set_redundant_region value => some { bt with redundant_region := value }
  | .set_redundant_thread value => some { bt with redundant_thread := value }
  | .set_redundant value => some { bt with redundant := value }
  | .report => some (print_results bt)

/-- The engine after a sequence of events. -/
def engine_run : base_trace → List engine_event → Option base_trace
  | bt, [] => some bt
  | bt, ev :: rest =>
    match engine_step bt ev with
    | none => none
    | some bt' => engine_run bt' rest

/-- An instruction entry with its disassembly. -/
def instr_event (cpu_no : Int) (text : String) : trace_entry :=
  { trace_type := .TR_Instruction, cpu_no := cpu_no, read_or_write := 0, pa := 0,
    L1_hit_or_miss := 0, text := some text.toList, temp2 := .null }

/-! ## Sequences of puts -/

/-- The value of the most recent put for `key` in a sequence of puts. -/
def last_put : List (CStr × CStr) → CStr → Option CStr
  | [], _ => none
  | kv :: rest, key =>
    match last_put rest key with
    | some v => some v
    | none => if kv.1 = key then some kv.2 else none

/-! ## Notions used to state the load properties -/

/-- The baseline of a load that hit: the later of the reader's instruction
number recorded in the store record and its last recorded load of the
address. -/
def load_baseline (temp : thread_t) (mem_a : CStr) (store_inst : Int) : Int :=
  match get_from_char_map temp.memory_load mem_a .LONG_LONG_TYPE with
  | some (some last_load) => if last_load > store_inst then last_load else store_inst
  | _ => store_inst

/-- The vulnerability already recorded for an address in the memory ledger. -/
def load_old_value (temp : thread_t) (mem_a : CStr) : ℚ :=
  match get_from_char_map temp.memory_vul mem_a .DOUBLE_TYPE with
  | some (some old) => old
  | _ => 0

/-- The reading thread after the cache-hit block of a load with store-time
instruction number `store_inst`. -/
def load_hit_thread (t : thread_t) (mem_a : CStr) (store_inst : Int) : thread_t :=
  { t with
    mem_live_area :=
      if t.instr_num - load_baseline t mem_a store_inst ≠ 0 then t.mem_live_area + 1
      else t.mem_live_area
    mem_vul := t.mem_vul + ((t.instr_num - load_baseline t mem_a store_inst : Int) : ℚ)
    memory_vul :=
      if t.instr_num - load_baseline t mem_a store_inst ≠ 0 then
        strmap_put t.memory_vul mem_a
          (fmt_f (((t.instr_num - load_baseline t mem_a store_inst : Int) : ℚ)
            + load_old_value t mem_a))
      else t.memory_vul
    memory_load := strmap_put t.memory_load mem_a (fmt_lld t.instr_num) }

/-- The reading thread after the remote accumulators took the factors of the
store record `si`. -/
def remote_added (temp : thread_t) (si : Store_info) : thread_t :=
  { temp with
    rem_alu_vul := temp.rem_alu_vul + si.alu_tvf
    rem_reg_vul := temp.rem_reg_vul + si.reg_tvf
    rem_mem_vul := temp.rem_mem_vul + si.mem_tvf
    remote_count := temp.remote_count + 1 }

/-- The state a sequence of events leads to, or the state itself when the
sequence is undefined. -/
def after_events (bt : base_trace) (events : List engine_event) : base_trace :=
  (engine_run bt events).getD bt

/-! ## Notions used to state the invariants -/

/-- The five counters of a thread do not decrease from `a` to `b`. -/
def counters_le (a b : thread_t) : Prop :=
  a.instr_num ≤ b.instr_num ∧ a.instr_count ≤ b.instr_count
    ∧ a.reg_live_area ≤ b.reg_live_area ∧ a.mem_live_area ≤ b.mem_live_area
    ∧ a.remote_count ≤ b.remote_count

/-- The part of a thread the ledger invariants and the counters speak of. -/
def core_state (t : thread_t) :
    Int × Int × Int × Int × Int × StrMap × StrMap × ℚ × ℚ × StrMap :=
  (t.instr_num, t.instr_count, t.reg_live_area, t.mem_live_area, t.remote_count,
    t.register_vul, t.memory_load, t.reg_vul, t.mem_vul, t.memory_vul)

/-- The thread after the counting statements of `text_trace_instruction`. -/
def instr_counted (t : thread_t) : thread_t :=
  { t with instr_count := t.instr_count + 1, instr_num := t.instr_num + 1 }

/-- The reading thread after the cache-hit block of a load, which runs only
when the hit flag of the event is 1. -/
def load_thread (t : thread_t) (mem_a : CStr) (hit : Int) (store_inst : Int) : thread_t :=
  if hit = 1 then load_hit_thread t mem_a store_inst else t

/-- The contributions a history of `reg_vulnerability` calls returns, oldest
first. -/
def reg_contribs : StrMap → List (Int × CStr × Int) → Option (List ℚ)
  | _, [] => some []
  | m, a :: rest =>
    match reg_vulnerability m a.1 a.2.1 a.2.2 with
    | none => none
    | some r =>
      match reg_contribs r.2 rest with
      | none => none
      | some cs => some (r.1 :: cs)

/-- Every record of the load ledger of a thread is an instruction number the
thread has reached. -/
def LoadLedgerInv (t : thread_t) : Prop :=
  ∀ key v, strmap_value t.memory_load key = some v →
    ∃ k : Int, v = fmt_lld k ∧ k ≤ t.instr_num

/-- Every record of the store ledger is the text of a store record whose
instruction-number vector lies below the instruction numbers of the threads. -/
def StoreLedgerInv (bt : base_trace) : Prop :=
  ∀ key v, strmap_value bt.memory_store key = some v →
    ∃ si : Store_info, v = store_text si ∧ ∀ i, si.instr_num i ≤ (bt.threads i).instr_num

/-- The invariant of the engine behind the sign of the memory contribution. -/
def EngineInv (bt : base_trace) : Prop :=
  (∀ i, LoadLedgerInv (bt.threads i)) ∧ StoreLedgerInv bt

/-- What a thread must satisfy after a step for the invariant to carry over
and its memory accumulator not to decrease. -/
def thread_step_ok (a b : thread_t) : Prop :=
  a.instr_num ≤ b.instr_num ∧ LoadLedgerInv b ∧ a.mem_vul ≤ b.mem_vul

/-! ## The fan report, thread lookup and the memory ledger invariant -/

/-- The inner loop of `print_fan_info` for the row `i` of one resource class:
the values of `locald`, `localid` and `local` when the loop over `j` ends. -/
def fan_row (direct indirect : FanArray) (i : Fin MAX_THREADS) : ℚ × ℚ × ℚ :=
  (List.finRange MAX_THREADS).foldl
    (fun acc j =>
      (acc.1 + direct i j, acc.2.1 + indirect i j,
        (acc.1 + direct i j) + (acc.2.1 + indirect i j)))
    (0, 0, 0)

/-- The six locals `print_fan_info` keeps across the rows of one resource
class. -/
structure fan_critical where
  critical : Fin MAX_THREADS
  critical_direct : Fin MAX_THREADS
  critical_indirect : Fin MAX_THREADS
  max : ℚ
  max_direct : ℚ
  max_indirect : ℚ

/-- The body of the loop over `i` in `print_fan_info`, after the inner loop. -/
def print_fan_info_step (direct indirect : FanArray) (st : fan_critical)
    (i : Fin MAX_THREADS) : fan_critical :=
  let row := fan_row direct indirect i
  let st : fan_critical :=
    if row.2.2 > st.max then { st with max := row.2.2, critical := i } else st
  let st : fan_critical :=
    if row.1 > st.max_direct then { st with max_direct := row.1, critical_direct := i } else st
  if row.2.1 > st.max_indirect then { st with max_indirect := row.2.1, critical_indirect := i }
  else st

/-- One of the four blocks of `print_fan_info`: the locals after the loop over
the rows of a resource class. -/
def print_fan_info_class (direct indirect : FanArray) : fan_critical :=
  (List.finRange MAX_THREADS).foldl (print_fan_info_step direct indirect)
    { critical := 0, critical_direct := 0, critical_indirect := 0,
      max := 0, max_direct := 0, max_indirect := 0 }

/-- The function `print_fan_info`: the locals behind the `most critical` lines
it writes for register, memory, ALU and count, in this order. -/
def print_fan_info (fan : Fan_info) : fan_critical × fan_critical × fan_critical × fan_critical :=
  (print_fan_info_class fan.direct_reg_array fan.indirect_reg_array,
    print_fan_info_class fan.direct_mem_array fan.indirect_mem_array,
    print_fan_info_class fan.direct_alu_array fan.indirect_alu_array,
    print_fan_info_class fan.direct_count fan.indirect_count)

/-- The index `c` is the lowest index at which `rows` is maximal. -/
def first_max (rows : Fin MAX_THREADS → ℚ) (c : Fin MAX_THREADS) : Prop :=
  (∀ i, rows i ≤ rows c) ∧ ∀ i, rows i = rows c → c ≤ i

/-- Every entry of the matrix is at least 0. -/
def fan_nonneg (a : FanArray) : Prop := ∀ i j, 0 ≤ a i j

/-- The index of the element of `bt->threads` whose address
`get_current_thread` returns for `pid`. -/
def get_current_thread_slot (bt : base_trace) (pid : Int) : Option Int :=
  match get_from_int_map bt.thread_no_map pid .INT_TYPE with
  | none => none
  | some (some mapid) => some mapid
  | some none => some (strmap_get_count bt.thread_no_map)

/-- The function `get_current_thread`: the index of the thread returned and
the state after the call; `none` when the element lies outside the array
`threads[MAX_THREADS]`. -/
def get_current_thread (bt : base_trace) (pid cpu_no : Int) :
    Option (Fin MAX_THREADS × base_trace) :=
  match get_from_int_map bt.thread_no_map pid .INT_TYPE with
  | none => none
  | some (some mapid) =>
    match index? MAX_THREADS mapid with
    | none => none
    | some i => some (i, bt)
  | some none =>
    let size := strmap_get_count bt.thread_no_map
    match put_to_int_map bt.thread_no_map pid .INT_TYPE size with
    | none => none
    | some map =>
      match index? MAX_THREADS size with
      | none => none
      | some i =>
        some (i,
          { bt with
            thread_no_map := map
            threads := Function.update bt.threads i
              { bt.threads i with thread_num := pid, thread_index := size, core_map := cpu_no } })

/-- A sequence of `get_current_thread` calls, each with its `pid` and
`cpu_no`: the indices returned, oldest first, and the state after the last. -/
def get_current_thread_run : base_trace → List (Int × Int) →
    Option (List (Fin MAX_THREADS) × base_trace)
  | bt, [] => some ([], bt)
  | bt, c :: rest =>
    match get_current_thread bt c.1 c.2 with
    | none => none
    | some r =>
      match get_current_thread_run r.2 rest with
      | none => none
      | some rs => some (r.1 :: rs.1, rs.2)

/-- The state of one maximum search of `print_fan_info` after the rows `P`:
`m` bounds the rows seen, and either `c` is the first row seen that attains
`m`, or nothing exceeded the initial maximum 0 and `c` is still 0. -/
def track_inv (rows : Fin MAX_THREADS → ℚ) (P : List (Fin MAX_THREADS))
    (c : Fin MAX_THREADS) (m : ℚ) : Prop :=
  (∀ i ∈ P, rows i ≤ m)
    ∧ ((c ∈ P ∧ m = rows c ∧ ∀ i ∈ P, rows i = m → c ≤ i) ∨ (c = 0 ∧ m = 0))

/-- The three maximum searches of one block of `print_fan_info` all satisfy
their invariant after the rows `P`. -/
def class_inv (direct indirect : FanArray) (P : List (Fin MAX_THREADS)) (st : fan_critical) :
    Prop :=
  track_inv (fun i => (fan_row direct indirect i).2.2) P st.critical st.max
    ∧ track_inv (fun i => (fan_row direct indirect i).1) P st.critical_direct st.max_direct
    ∧ track_inv (fun i => (fan_row direct indirect i).2.1) P st.critical_indirect st.max_indirect

/-- The memory ledger of a thread agrees with its accumulator: the running sum
of the ledger is `mem_vul`, and every record is the text of an integer that
fits the 50-byte buffer of the typed map wrappers. -/
def MemVulInv (t : thread_t) : Prop :=
  sum_strmap t.memory_vul = t.mem_vul
    ∧ ∀ key v, strmap_value t.memory_vul key = some v →
        ∃ n : Int, v = fmt_f ((n : Int) : ℚ) ∧ v.length < 50

/-! ## Lemmas on buckets -/

theorem get_pair_eq_none_iff (b : Bucket) (k : CStr) :
    get_pair b k = none ↔ k ∉ b.map Pair.key := by
  induction b with
  | nil => simp [get_pair]
  | cons p ps ih =>
    by_cases h : p.key = k
    · simp [get_pair, h]
    · simp only [get_pair, h, if_false, ih, List.map_cons, List.mem_cons, not_or]
      constructor
      · intro hk; exact ⟨fun e => h e.symm, hk⟩
      · intro hk; exact hk.2

theorem get_pair_some_mem (b : Bucket) (k : CStr) (p : Pair) (h : get_pair b k = some p) :
    p ∈ b ∧ p.key = k := by
  induction b with
  | nil => simp [get_pair] at h
  | cons q qs ih =>
    by_cases hq : q.key = k
    · simp only [get_pair, hq, if_true, Option.some.injEq] at h
      subst h; exact ⟨List.mem_cons_self _ _, hq⟩
    · simp only [get_pair, hq, if_false] at h
      exact ⟨List.mem_cons_of_mem _ (ih h).1, (ih h).2⟩

theorem get_pair_of_mem_nodup (b : Bucket) (p : Pair) (hp : p ∈ b)
    (hnd : (b.map Pair.key).Nodup) : get_pair b p.key = some p := by
  induction b with
  | nil => simp at hp
  | cons q qs ih =>
    simp only [List.map_cons, List.nodup_cons] at hnd
    rcases List.mem_cons.1 hp with rfl | hmem
    · simp [get_pair]
    · have hne : q.key ≠ p.key := fun e => hnd.1 (e ▸ List.mem_map_of_mem Pair.key hmem)
      simp only [get_pair, hne, if_false]
      exact ih hmem hnd.2

theorem set_pair_value_keys (b : Bucket) (k v : CStr) :
    (set_pair_value b k v).map Pair.key = b.map Pair.key := by
  induction b with
  | nil => rfl
  | cons p ps ih =>
    by_cases h : p.key = k
    · simp [set_pair_value, h]
    · simp [set_pair_value, h, ih]

theorem set_pair_value_length (b : Bucket) (k v : CStr) :
    (set_pair_value b k v).length = b.length := by
  have h := congrArg List.length (set_pair_value_keys b k v)
  simpa using h

theorem set_pair_value_sum (g : CStr → ℚ) (b : Bucket) (k v : CStr) (p : Pair)
    (h : get_pair b k = some p) :
    ((set_pair_value b k v).map (fun q => g q.value)).sum
      = (b.map (fun q => g q.value)).sum - g p.value + g v := by
  induction b with
  | nil => simp [get_pair] at h
  | cons q qs ih =>
    by_cases hq : q.key = k
    · simp only [get_pair, hq, if_true, Option.some.injEq] at h
      subst h
      simp only [set_pair_value, hq, if_true, List.map_cons, List.sum_cons]
      ring
    · simp only [get_pair, hq, if_false] at h
      simp only [set_pair_value, hq, if_false, List.map_cons, List.sum_cons, ih h]
      ring

theorem get_pair_set_pair_value (b : Bucket) (k v k' : CStr) :
    get_pair (set_pair_value b k v) k'
      = if k' = k then (get_pair b k).map (fun p => { p with value := v })
        else get_pair b k' := by
  induction b with
  | nil => simp [get_pair, set_pair_value]
  | cons q qs ih =>
    by_cases hq : q.key = k
    · by_cases hk : k' = k
      · subst hk; simp [get_pair, set_pair_value, hq]
      · have : ¬ q.key = k' := fun e => hk (e ▸ hq)
        have hk2 : ¬ k = k' := fun e => hk e.symm
        simp [get_pair, set_pair_value, hq, hk, hk2]
    · by_cases hk : k' = k
      · subst hk
        simp only [set_pair_value, hq, if_false, get_pair, ih, if_true]
      · by_cases hq' : q.key = k'
        · simp [get_pair, set_pair_value, hq, hk, hq']
        · simp only [set_pair_value, hq, if_false, get_pair, hq', ih, hk]

theorem get_pair_append_new (b : Bucket) (k v k' : CStr) :
    get_pair (b ++ [{ key := k, value := v }]) k'
      = match get_pair b k' with
        | some p => some p
        | none => if k = k' then some { key := k, value := v } else none := by
  induction b with
  | nil => simp [get_pair]
  | cons q qs ih =>
    by_cases hq : q.key = k'
    · simp [get_pair, hq]
    · simp only [List.cons_append, get_pair, hq, if_false]
      exact ih

/-! ## The map invariant -/

theorem flatMap_range_sum {α : Type} (f : Nat → List α) (g : α → ℚ) (n : Nat) :
    (((List.range n).flatMap f).map g).sum = ∑ i ∈ Finset.range n, ((f i).map g).sum := by
  induction n with
  | zero => simp
  | succ n ih =>
    rw [List.range_succ, List.flatMap_append, List.map_append, List.sum_append, ih,
      Finset.sum_range_succ]
    simp

theorem flatMap_range_length {α : Type} (f : Nat → List α) (n : Nat) :
    (((List.range n).flatMap f).length : Int) = ∑ i ∈ Finset.range n, ((f i).length : Int) := by
  induction n with
  | zero => simp
  | succ n ih =>
    rw [List.range_succ, List.flatMap_append, List.length_append, Finset.sum_range_succ]
    push_cast
    rw [ih]
    simp

theorem sum_range_update {β : Type} [AddCommGroup β] (F : Nat → β) (n i : Nat) (hi : i < n)
    (b : β) :
    ∑ x ∈ Finset.range n, Function.update F i b x = ∑ x ∈ Finset.range n, F x - F i + b := by
  have hmem : i ∈ Finset.range n := Finset.mem_range.2 hi
  rw [Finset.sum_update_of_mem hmem, ← Finset.add_sum_erase _ F hmem,
    Finset.sdiff_singleton_eq_erase]
  abel

theorem strmap_new_inv (capacity : Nat) (h : 0 < capacity) : StrMapInv (strmap_new capacity) where
  count_pos := h
  hashed := by intro i p hp; simp [strmap_new] at hp
  nodup := by intro i; simp [strmap_new]
  size_eq := by
    unfold strmap_pairs
    rw [flatMap_range_length]
    simp [strmap_new]
  total_eq := by
    unfold strmap_scan strmap_pairs
    rw [flatMap_range_sum]
    simp [strmap_new]

theorem strmap_put_count (map : StrMap) (key value : CStr) :
    (strmap_put map key value).count = map.count := by
  cases h : get_pair (map.buckets (hash key % map.count)) key <;> simp [strmap_put, h]

theorem strmap_put_inv (map : StrMap) (key value : CStr) (h : StrMapInv map) :
    StrMapInv (strmap_put map key value) := by
  have hidx : hash key % map.count < map.count := Nat.mod_lt _ h.count_pos
  have hcount := strmap_put_count map key value
  cases hg : get_pair (map.buckets (hash key % map.count)) key with
  | some pair =>
    have hb : (strmap_put map key value).buckets
        = Function.update map.buckets (hash key % map.count)
            (set_pair_value (map.buckets (hash key % map.count)) key value) := by
      simp [strmap_put, hg]
    refine ⟨by rw [hcount]; exact h.count_pos, ?_, ?_, ?_, ?_⟩
    · intro i p hp
      rw [hcount]
      rw [hb] at hp
      by_cases hi : i = hash key % map.count
      · subst hi
        rw [Function.update_same] at hp
        have hk : p.key ∈ (map.buckets (hash key % map.count)).map Pair.key := by
          rw [← set_pair_value_keys _ key value]; exact List.mem_map_of_mem _ hp
        obtain ⟨q, hq, hqk⟩ := List.mem_map.1 hk
        rw [← hqk]; exact h.hashed _ q hq
      · rw [Function.update_noteq hi] at hp
        exact h.hashed i p hp
    · intro i
      rw [hb]
      by_cases hi : i = hash key % map.count
      · subst hi
        rw [Function.update_same, set_pair_value_keys]; exact h.nodup _
      · rw [Function.update_noteq hi]; exact h.nodup i
    · have hs : (strmap_put map key value).size = map.size := by simp [strmap_put, hg]
      rw [hs, h.size_eq]
      unfold strmap_pairs
      rw [hcount, hb, flatMap_range_length, flatMap_range_length]
      have := sum_range_update (fun x => ((map.buckets x).length : Int)) map.count _ hidx
        ((set_pair_value (map.buckets (hash key % map.count)) key value).length : Int)
      have hfun : (fun x => ((Function.update map.buckets (hash key % map.count)
          (set_pair_value (map.buckets (hash key % map.count)) key value) x).length : Int))
          = Function.update (fun x => ((map.buckets x).length : Int)) (hash key % map.count)
            ((set_pair_value (map.buckets (hash key % map.count)) key value).length : Int) := by
        funext x
        by_cases hx : x = hash key % map.count
        · subst hx; simp
        · simp [Function.update_noteq hx]
      rw [hfun, this, set_pair_value_length]
      ring
    · have ht : (strmap_put map key value).total_value
          = map.total_value - atof pair.value + atof value := by simp [strmap_put, hg]
      rw [ht, h.total_eq]
      unfold strmap_scan strmap_pairs
      rw [hcount, hb, flatMap_range_sum, flatMap_range_sum]
      have hfun : (fun x => ((Function.update map.buckets (hash key % map.count)
          (set_pair_value (map.buckets (hash key % map.count)) key value) x).map
            (fun p => atof p.value)).sum)
          = Function.update (fun x => ((map.buckets x).map (fun p => atof p.value)).sum)
            (hash key % map.count)
            (((set_pair_value (map.buckets (hash key % map.count)) key value).map
              (fun p => atof p.value)).sum) := by
        funext x
        by_cases hx : x = hash key % map.count
        · subst hx; simp
        · simp [Function.update_noteq hx]
      rw [hfun, sum_range_update _ _ _ hidx, set_pair_value_sum atof _ _ _ _ hg]
      ring
  | none =>
    have hb : (strmap_put map key value).buckets
        = Function.update map.buckets (hash key % map.count)
            (map.buckets (hash key % map.count) ++ [{ key := key, value := value }]) := by
      simp [strmap_put, hg]
    refine ⟨by rw [hcount]; exact h.count_pos, ?_, ?_, ?_, ?_⟩
    · intro i p hp
      rw [hcount]
      rw [hb] at hp
      by_cases hi : i = hash key % map.count
      · subst hi
        rw [Function.update_same] at hp
        rcases List.mem_append.1 hp with hp | hp
        · exact h.hashed _ p hp
        · simp only [List.mem_singleton] at hp
          subst hp; rfl
      · rw [Function.update_noteq hi] at hp
        exact h.hashed i p hp
    · intro i
      rw [hb]
      by_cases hi : i = hash key % map.count
      · subst hi
        rw [Function.update_same, List.map_append, List.nodup_append]
        refine ⟨h.nodup _, by simp, ?_⟩
        intro a ha hb'
        simp only [List.map_cons, List.map_nil, List.mem_singleton] at hb'
        subst hb'
        exact (get_pair_eq_none_iff _ _).1 hg ha
      · rw [Function.update_noteq hi]; exact h.nodup i
    · have hs : (strmap_put map key value).size = map.size + 1 := by simp [strmap_put, hg]
      rw [hs, h.size_eq]
      unfold strmap_pairs
      rw [hcount, hb, flatMap_range_length, flatMap_range_length]
      have hfun : (fun x => ((Function.update map.buckets (hash key % map.count)
          (map.buckets (hash key % map.count) ++ [{ key := key, value := value }]) x).length : Int))
          = Function.update (fun x => ((map.buckets x).length : Int)) (hash key % map.count)
            (((map.buckets (hash key % map.count)).length : Int) + 1) := by
        funext x
        by_cases hx : x = hash key % map.count
        · subst hx; simp
        · simp [Function.update_noteq hx]
      rw [hfun, sum_range_update _ _ _ hidx]
      ring
    · have ht : (strmap_put map key value).total_value
          = map.total_value + atof value := by simp [strmap_put, hg]
      rw [ht, h.total_eq]
      unfold strmap_scan strmap_pairs
      rw [hcount, hb, flatMap_range_sum, flatMap_range_sum]
      have hfun : (fun x => ((Function.update map.buckets (hash key % map.count)
          (map.buckets (hash key % map.count) ++ [{ key := key, value := value }]) x).map
            (fun p => atof p.value)).sum)
          = Function.update (fun x => ((map.buckets x).map (fun p => atof p.value)).sum)
            (hash key % map.count)
            (((map.buckets (hash key % map.count)).map (fun p => atof p.value)).sum
              + atof value) := by
        funext x
        by_cases hx : x = hash key % map.count
        · subst hx; simp
        · simp [Function.update_noteq hx]
      rw [hfun, sum_range_update _ _ _ hidx]
      ring

theorem strmap_puts_inv (ops : List (CStr × CStr)) (map : StrMap) (h : StrMapInv map) :
    StrMapInv (strmap_puts map ops) := by
  induction ops generalizing map with
  | nil => exact h
  | cons kv rest ih => exact ih _ (strmap_put_inv map kv.1 kv.2 h)

theorem strmap_value_of_mem (map : StrMap) (h : StrMapInv map) (p : Pair)
    (hp : p ∈ strmap_pairs map) : strmap_value map p.key = some p.value := by
  unfold strmap_pairs at hp
  obtain ⟨i, _, hpi⟩ := List.mem_flatMap.1 hp
  have hi := h.hashed i p hpi
  unfold strmap_value
  rw [hi, get_pair_of_mem_nodup _ p hpi (h.nodup i)]
  rfl

theorem strmap_keys_nodup (map : StrMap) (h : StrMapInv map) : (strmap_keys map).Nodup := by
  unfold strmap_keys strmap_pairs
  rw [List.map_flatMap, List.nodup_flatMap]
  refine ⟨fun i _ => h.nodup i, ?_⟩
  refine List.Nodup.pairwise_of_forall_ne (List.nodup_range _) ?_
  intro a _ b _ hab k hka hkb
  obtain ⟨p, hp, hpk⟩ := List.mem_map.1 hka
  obtain ⟨q, hq, hqk⟩ := List.mem_map.1 hkb
  have h1 := h.hashed a p hp
  have h2 := h.hashed b q hq
  rw [hpk] at h1; rw [hqk] at h2
  exact hab (h1.symm.trans h2)

theorem strmap_total_by_keys (map : StrMap) (h : StrMapInv map) :
    sum_strmap map
      = ((strmap_keys map).map (fun k => atof ((strmap_value map k).getD []))).sum := by
  unfold sum_strmap strmap_keys
  rw [h.total_eq, List.map_map]
  unfold strmap_scan
  congr 1
  apply List.map_congr_left
  intro p hp
  simp [strmap_value_of_mem map h p hp]

/-! ## Formatting and parsing round trips -/

theorem digitChar_props : ∀ d, d < 10 →
    digitVal (digitChar d) = d ∧ isdigit (digitChar d) = true ∧ digitChar d ≠ '+'
      ∧ isspace (digitChar d) = false ∧ digitChar d ≠ '-' ∧ digitChar d ≠ '.' := by
  decide

theorem digitChar_mod (n : Nat) : digitChar n = digitChar (n % 10) := by
  simp [digitChar]

theorem digitVal_digitChar (n : Nat) : digitVal (digitChar n) = n % 10 := by
  rw [digitChar_mod]; exact (digitChar_props _ (Nat.mod_lt _ (by decide))).1

theorem isdigit_digitChar (n : Nat) : isdigit (digitChar n) = true := by
  rw [digitChar_mod]; exact (digitChar_props _ (Nat.mod_lt _ (by decide))).2.1

theorem natDigitsAux_fuel (f1 : Nat) : ∀ (f2 n : Nat) (acc : CStr), n < f1 → n < f2 →
    natDigitsAux f1 n acc = natDigitsAux f2 n acc := by
  induction f1 with
  | zero => intro f2 n acc h; omega
  | succ f1 ih =>
    intro f2 n acc h1 h2
    cases f2 with
    | zero => omega
    | succ f2 =>
      simp only [natDigitsAux]
      by_cases h : n / 10 = 0
      · simp [h]
      · simp only [h, if_false]
        apply ih <;> omega

theorem natDigitsAux_acc (fuel : Nat) : ∀ (n : Nat) (acc : CStr),
    natDigitsAux fuel n acc = natDigitsAux fuel n [] ++ acc := by
  induction fuel with
  | zero => intro n acc; simp [natDigitsAux]
  | succ fuel ih =>
    intro n acc
    simp only [natDigitsAux]
    by_cases h : n / 10 = 0
    · simp [h]
    · simp only [h, if_false]
      rw [ih (n / 10) (digitChar n :: acc), ih (n / 10) [digitChar n]]
      simp

theorem natDigits_small (n : Nat) (h : n < 10) : natDigits n = [digitChar n] := by
  have : n / 10 = 0 := by omega
  simp [natDigits, natDigitsAux, this]

theorem natDigits_step (n : Nat) (h : 10 ≤ n) :
    natDigits n = natDigits (n / 10) ++ [digitChar n] := by
  have h0 : ¬ n / 10 = 0 := by omega
  have h1 : natDigitsAux (n + 1) n [] = natDigitsAux n (n / 10) [digitChar n] := by
    simp only [natDigitsAux, h0, if_false]
  unfold natDigits
  rw [h1, natDigitsAux_acc, natDigitsAux_fuel n (n / 10 + 1) (n / 10) [] (by omega) (by omega)]

theorem natDigits_isDigits (n : Nat) : IsDigits (natDigits n) := by
  induction n using Nat.strong_induction_on with
  | _ n ih =>
    by_cases h : n < 10
    · rw [natDigits_small n h]
      exact ⟨by simp, by intro c hc; simp at hc; subst hc; exact isdigit_digitChar n⟩
    · rw [natDigits_step n (by omega)]
      have := ih (n / 10) (by omega)
      refine ⟨by simp, ?_⟩
      intro c hc
      rcases List.mem_append.1 hc with hc | hc
      · exact this.2 c hc
      · simp at hc; subst hc; exact isdigit_digitChar n

theorem decVal_natDigits (n : Nat) : decVal (natDigits n) 0 = n := by
  induction n using Nat.strong_induction_on with
  | _ n ih =>
    by_cases h : n < 10
    · rw [natDigits_small n h]
      simp [decVal, digitVal_digitChar]; omega
    · rw [natDigits_step n (by omega)]
      have := ih (n / 10) (by omega)
      unfold decVal at this ⊢
      rw [List.foldl_append, this]
      simp [digitVal_digitChar]; omega

theorem padDigits_acc (k : Nat) : ∀ (n : Nat) (acc : CStr),
    padDigits k n acc = padDigits k n [] ++ acc := by
  induction k with
  | zero => intro n acc; simp [padDigits]
  | succ k ih =>
    intro n acc
    simp only [padDigits]
    rw [ih (n / 10) (digitChar n :: acc), ih (n / 10) [digitChar n]]
    simp

theorem padDigits_length (k : Nat) : ∀ (n : Nat), (padDigits k n []).length = k := by
  induction k with
  | zero => intro n; simp [padDigits]
  | succ k ih =>
    intro n
    simp only [padDigits]
    rw [padDigits_acc, List.length_append, ih]
    simp

theorem padDigits_isdigit (k : Nat) : ∀ (n : Nat), ∀ c ∈ padDigits k n [], isdigit c = true := by
  induction k with
  | zero => intro n c hc; simp [padDigits] at hc
  | succ k ih =>
    intro n c hc
    simp only [padDigits] at hc
    rw [padDigits_acc] at hc
    rcases List.mem_append.1 hc with hc | hc
    · exact ih _ c hc
    · simp at hc; subst hc; exact isdigit_digitChar n

theorem decVal_padDigits (k : Nat) : ∀ (n : Nat), decVal (padDigits k n []) 0 = n % 10 ^ k := by
  induction k with
  | zero => intro n; simp [padDigits, decVal, Nat.mod_one]
  | succ k ih =>
    intro n
    simp only [padDigits]
    rw [padDigits_acc]
    have := ih (n / 10)
    unfold decVal at this ⊢
    rw [List.foldl_append, this]
    simp only [List.foldl_cons, List.foldl_nil, digitVal_digitChar]
    rw [pow_succ, Nat.mul_comm (10 ^ k) 10, Nat.mod_mul]
    omega

theorem readDigits_append (ds : CStr) : ∀ (rest : CStr) (acc k : Nat),
    (∀ c ∈ ds, isdigit c = true) → (∀ c, rest.head? = some c → isdigit c = false) →
    readDigits (ds ++ rest) acc k = (decVal ds acc, k + ds.length, rest) := by
  induction ds with
  | nil =>
    intro rest acc k _ hrest
    cases rest with
    | nil => simp [readDigits, decVal]
    | cons c cs =>
      have := hrest c rfl
      simp [readDigits, decVal, this]
  | cons d ds ih =>
    intro rest acc k hds hrest
    have hd : isdigit d = true := hds d (List.mem_cons_self _ _)
    have h1 : readDigits (d :: ds ++ rest) acc k
        = readDigits (ds ++ rest) (acc * 10 + digitVal d) (k + 1) := by
      simp only [List.cons_append, readDigits, hd, if_true]
      rfl
    rw [h1, ih rest _ _ (fun c hc => hds c (List.mem_cons_of_mem _ hc)) hrest]
    simp [decVal]; omega

theorem decVal_acc (ds : CStr) : ∀ acc, decVal ds acc = acc * 10 ^ ds.length + decVal ds 0 := by
  induction ds with
  | nil => intro acc; simp [decVal]
  | cons d ds ih =>
    intro acc
    have h1 := ih (acc * 10 + digitVal d)
    have h2 := ih (0 * 10 + digitVal d)
    simp only [decVal, List.foldl_cons] at h1 h2 ⊢
    rw [h1, h2]
    simp [pow_succ]; ring

theorem isdigit_not_special (c : Char) (h : isdigit c = true) :
    isspace c = false ∧ c ≠ '-' ∧ c ≠ '+' ∧ c ≠ '.' := by
  have hne : ∀ d : Char, isdigit d = false → c ≠ d := by
    intro d hd e; subst e; rw [h] at hd; exact absurd hd (by decide)
  refine ⟨?_, hne _ (by decide), hne _ (by decide), hne _ (by decide)⟩
  have h1 := hne ' ' (by decide)
  have h2 := hne '\t' (by decide)
  have h3 := hne '\n' (by decide)
  have h4 := hne '\x0b' (by decide)
  have h5 := hne '\x0c' (by decide)
  have h6 := hne '\r' (by decide)
  simp [isspace, h1, h2, h3, h4, h5, h6]

theorem skipSpace_of_head (c : Char) (cs : CStr) (h : isspace c = false) :
    skipSpace (c :: cs) = c :: cs := by
  simp [skipSpace, h]

theorem readSign_of_head (c : Char) (cs : CStr) (h1 : c ≠ '-') (h2 : c ≠ '+') :
    readSign (c :: cs) = (false, c :: cs) := by
  unfold readSign
  split
  · rename_i heq; simp at heq; exact absurd heq.1 h1
  · rename_i heq; simp at heq; exact absurd heq.1 h2
  · rfl

theorem readDigits_digits (ds : CStr) (h : ∀ c ∈ ds, isdigit c = true) :
    readDigits ds 0 0 = (decVal ds 0, ds.length, []) := by
  have := readDigits_append ds [] 0 0 h (by simp)
  simpa using this

theorem atoll_digits (ds : CStr) (h : IsDigits ds) : atoll ds = (decVal ds 0 : Int) := by
  obtain ⟨hne, hall⟩ := h
  cases ds with
  | nil => exact absurd rfl hne
  | cons c cs =>
    have hc := isdigit_not_special c (hall c (List.mem_cons_self _ _))
    simp [atoll, skipSpace_of_head c cs hc.1, readSign_of_head c cs hc.2.1 hc.2.2.1,
      readDigits_digits (c :: cs) hall]

theorem atoll_neg_digits (ds : CStr) (h : IsDigits ds) :
    atoll ('-' :: ds) = -(decVal ds 0 : Int) := by
  have h1 : skipSpace ('-' :: ds) = '-' :: ds := skipSpace_of_head _ _ (by decide)
  simp [atoll, h1, readSign, readDigits_digits ds h.2]

theorem atoll_fmt_lld (i : Int) : atoll (fmt_lld i) = i := by
  unfold fmt_lld
  by_cases h : i < 0
  · simp only [h, if_true]
    rw [atoll_neg_digits _ (natDigits_isDigits _), decVal_natDigits]
    omega
  · simp only [h, if_false]
    rw [atoll_digits _ (natDigits_isDigits _), decVal_natDigits]
    omega

theorem atoi_fmt_d (i : Int) : atoi (fmt_d i) = i := atoll_fmt_lld i

theorem atof_body (r : Nat) (neg : Bool) :
    atof (if neg then '-' :: fmt_f_body r else fmt_f_body r)
      = if neg then -((r : ℚ) / 1000000) else (r : ℚ) / 1000000 := by
  have hd := natDigits_isDigits (r / 1000000)
  have hread : readDigits (fmt_f_body r) 0 0
      = (r / 1000000, (natDigits (r / 1000000)).length, '.' :: padDigits 6 (r % 1000000) []) := by
    unfold fmt_f_body
    rw [readDigits_append _ _ 0 0 hd.2 (by intro c hc; simp at hc; subst hc; decide),
      decVal_natDigits]
    simp
  have hfrac : readDigits (padDigits 6 (r % 1000000) []) 0 0 = (r % 1000000, 6, []) := by
    rw [readDigits_digits _ (padDigits_isdigit 6 _), decVal_padDigits, padDigits_length]
    simp
  have hlen : (natDigits (r / 1000000)).length ≠ 0 := by
    intro h; exact hd.1 (List.length_eq_zero.1 h)
  have hval : ((r / 1000000 : Nat) : ℚ) + ((r % 1000000 : Nat) : ℚ) / 10 ^ 6
      = (r : ℚ) / 1000000 := by
    have := Nat.div_add_mod r 1000000
    have h2 : (r : ℚ) = 1000000 * ((r / 1000000 : Nat) : ℚ) + ((r % 1000000 : Nat) : ℚ) := by
      exact_mod_cast this.symm
    rw [h2]; norm_num; ring
  have hbody : fmt_f_body r ≠ [] := by
    unfold fmt_f_body; simp
  have hpos : atof (fmt_f_body r) = (r : ℚ) / 1000000 := by
    obtain ⟨c, cs, hcs⟩ : ∃ c cs, natDigits (r / 1000000) = c :: cs := by
      cases h : natDigits (r / 1000000) with
      | nil => exact absurd h hd.1
      | cons c cs => exact ⟨c, cs, rfl⟩
    have hc := isdigit_not_special c (hd.2 c (by rw [hcs]; exact List.mem_cons_self _ _))
    have hform : fmt_f_body r = c :: (cs ++ '.' :: padDigits 6 (r % 1000000) []) := by
      unfold fmt_f_body; rw [hcs]; rfl
    have hs : skipSpace (fmt_f_body r) = fmt_f_body r := by
      rw [hform]; exact skipSpace_of_head _ _ hc.1
    have hsg : readSign (fmt_f_body r) = (false, fmt_f_body r) := by
      rw [hform]; exact readSign_of_head _ _ hc.2.1 hc.2.2.1
    unfold atof
    simp only [hs, hsg, hread, hfrac]
    simp [hlen, readExponent, hval]
  cases neg with
  | false => simpa using hpos
  | true =>
    have hs : skipSpace ('-' :: fmt_f_body r) = '-' :: fmt_f_body r :=
      skipSpace_of_head _ _ (by decide)
    simp only [if_true]
    unfold atof
    simp only [hs, readSign, hread, hfrac]
    simp [hlen, readExponent, hval]

theorem roundHalfEven_nonneg (q : ℚ) (h : 0 ≤ q) : 0 ≤ roundHalfEven q := by
  have hf : 0 ≤ ⌊q⌋ := Int.floor_nonneg.2 h
  unfold roundHalfEven
  simp only
  split_ifs <;> omega

theorem roundHalfEven_nonpos (q : ℚ) (h : q < 0) : roundHalfEven q ≤ 0 := by
  have hf : ⌊q⌋ < 0 := Int.floor_lt.2 (by simpa using h)
  unfold roundHalfEven
  simp only
  split_ifs <;> omega

theorem atof_fmt_f (q : ℚ) : atof (fmt_f q) = round6 q := by
  have hform : fmt_f q = if decide (q < 0) then
      '-' :: fmt_f_body (roundHalfEven (q * 1000000)).natAbs
      else fmt_f_body (roundHalfEven (q * 1000000)).natAbs := by
    unfold fmt_f fmt_f_body
    by_cases h : q < 0 <;> simp [h]
  rw [hform, atof_body]
  unfold round6
  by_cases h : q < 0
  · have := roundHalfEven_nonpos (q * 1000000) (by linarith)
    simp only [h, decide_True, if_true]
    have h2 : ((roundHalfEven (q * 1000000)).natAbs : ℚ) = -(roundHalfEven (q * 1000000) : ℚ) := by
      rw [Nat.cast_natAbs, abs_of_nonpos this]; push_cast; rfl
    rw [h2]; ring
  · have := roundHalfEven_nonneg (q * 1000000) (by push_neg at h; linarith)
    simp only [h, decide_False, if_false, Bool.false_eq_true]
    have h2 : ((roundHalfEven (q * 1000000)).natAbs : ℚ) = (roundHalfEven (q * 1000000) : ℚ) := by
      rw [Nat.cast_natAbs, abs_of_nonneg this]
    rw [h2]

theorem takeWhile_append_stop {p : Char → Bool} (tok : CStr) (x : Char) (rest : CStr)
    (h : ∀ c ∈ tok, p c = true) (hx : p x = false) :
    (tok ++ x :: rest).takeWhile p = tok ∧ (tok ++ x :: rest).dropWhile p = x :: rest := by
  induction tok with
  | nil => simp [List.takeWhile, List.dropWhile, hx]
  | cons c cs ih =>
    have hc := h c (List.mem_cons_self _ _)
    have := ih (fun d hd => h d (List.mem_cons_of_mem _ hd))
    simp [List.takeWhile, List.dropWhile, hc, this]

theorem takeWhile_all {p : Char → Bool} (tok : CStr) (h : ∀ c ∈ tok, p c = true) :
    tok.takeWhile p = tok ∧ tok.dropWhile p = [] := by
  induction tok with
  | nil => simp
  | cons c cs ih =>
    have hc := h c (List.mem_cons_self _ _)
    have := ih (fun d hd => h d (List.mem_cons_of_mem _ hd))
    simp [List.takeWhile, List.dropWhile, hc, this]

theorem NoPlus.not_delim {tok : CStr} (h : NoPlus tok) :
    ∀ c ∈ tok, (!decide (c ∈ ['+'])) = true := by
  intro c hc
  have : c ≠ '+' := fun e => h.2 (e ▸ hc)
  simp [this]

theorem dropWhile_delim_of_NoPlus (tok rest : CStr) (h : NoPlus tok) :
    (tok ++ rest).dropWhile (fun c => decide (c ∈ ['+'])) = tok ++ rest := by
  obtain ⟨hne, hno⟩ := h
  cases tok with
  | nil => exact absurd rfl hne
  | cons c cs =>
    have : c ≠ '+' := fun e => hno (e ▸ List.mem_cons_self _ _)
    simp [List.dropWhile, this]

theorem strtok_r_sep (tok rest : CStr) (h : NoPlus tok) :
    strtok_r ['+'] (tok ++ '+' :: rest) = some (tok, rest) := by
  have h1 := dropWhile_delim_of_NoPlus tok ('+' :: rest) h
  have h2 := takeWhile_append_stop (p := fun c => !decide (c ∈ ['+'])) tok '+' rest
    h.not_delim (by simp)
  have hne : tok ++ '+' :: rest ≠ [] := by simp
  unfold strtok_r
  simp only [h1, hne, if_false, h2.1, h2.2]
  rfl

theorem strtok_r_last (tok : CStr) (h : NoPlus tok) :
    strtok_r ['+'] tok = some (tok, []) := by
  have h1 := dropWhile_delim_of_NoPlus tok [] h
  rw [List.append_nil] at h1
  have h2 := takeWhile_all (p := fun c => !decide (c ∈ ['+'])) tok h.not_delim
  unfold strtok_r
  simp only [h1, h.1, if_false, h2.1, h2.2]
  rfl

theorem strtok_r_plusJoin (t : CStr) (ts : List CStr) (h : NoPlus t) :
    strtok_r ['+'] (plusJoin (t :: ts)) = some (t, plusJoin ts) := by
  cases ts with
  | nil => exact strtok_r_last t h
  | cons t' ts => exact strtok_r_sep t _ h

theorem readTokens_plusJoin {α : Type} (conv : CStr → α) (toks : List CStr) :
    ∀ (more : List CStr), (∀ t ∈ toks, NoPlus t) →
      readTokens conv toks.length (plusJoin (toks ++ more))
        = some (toks.map conv, plusJoin more) := by
  induction toks with
  | nil => intro more _; rfl
  | cons t ts ih =>
    intro more h
    have ht := h t (List.mem_cons_self _ _)
    have hts := ih more (fun x hx => h x (List.mem_cons_of_mem _ hx))
    simp only [List.length_cons, List.cons_append, readTokens, strtok_r_plusJoin t _ ht, hts,
      List.map_cons]

theorem natDigits_noPlus (n : Nat) : NoPlus (natDigits n) := by
  have h := natDigits_isDigits n
  exact ⟨h.1, fun hm => (isdigit_not_special _ (h.2 _ hm)).2.2.1 rfl⟩

theorem fmt_lld_noPlus (i : Int) : NoPlus (fmt_lld i) := by
  have h := natDigits_noPlus i.natAbs
  unfold fmt_lld
  split_ifs
  · refine ⟨by simp, ?_⟩
    intro hm
    rcases List.mem_cons.1 hm with e | hm
    · exact absurd e (by decide)
    · exact h.2 hm
  · exact h

theorem fmt_f_noPlus (q : ℚ) : NoPlus (fmt_f q) := by
  have hbody : NoPlus (fmt_f_body (roundHalfEven (q * 1000000)).natAbs) := by
    unfold fmt_f_body
    refine ⟨by simp, ?_⟩
    intro hm
    rcases List.mem_append.1 hm with hm | hm
    · exact (natDigits_noPlus _).2 hm
    · rcases List.mem_cons.1 hm with e | hm
      · exact absurd e (by decide)
      · exact (isdigit_not_special _ (padDigits_isdigit 6 _ _ hm)).2.2.1 rfl
  have hform : fmt_f q = if q < 0 then
      '-' :: fmt_f_body (roundHalfEven (q * 1000000)).natAbs
      else fmt_f_body (roundHalfEven (q * 1000000)).natAbs := by
    unfold fmt_f fmt_f_body
    by_cases h : q < 0 <;> simp [h]
  rw [hform]
  split_ifs
  · refine ⟨by simp, ?_⟩
    intro hm
    rcases List.mem_cons.1 hm with e | hm
    · exact absurd e (by decide)
    · exact hbody.2 hm
  · exact hbody

theorem plusJoin_cons (t : CStr) (ts : List CStr) : plusJoin (t :: ts) = t ++ plusTail ts := by
  induction ts generalizing t with
  | nil => simp [plusJoin, plusTail]
  | cons t' ts ih => simp [plusJoin, plusTail, ih t']

theorem plusTail_append (xs ys : List CStr) : plusTail (xs ++ ys) = plusTail xs ++ plusTail ys := by
  induction xs with
  | nil => rfl
  | cons x xs ih => simp [plusTail, ih]

theorem sprintf_fold (n : Nat) {ι : Type} (f : ι → CStr) (l : List ι) :
    ∀ (start : Option CStr) (r : CStr),
      l.foldl (fun info i =>
          match info with
          | none => none
          | some info => sprintf_buf n (info ++ '+' :: f i)) start = some r →
      ∃ s0, start = some s0 ∧ r = s0 ++ plusTail (l.map f) := by
  induction l with
  | nil => intro start r h; exact ⟨r, h, by simp [plusTail]⟩
  | cons i l ih =>
    intro start r h
    rw [List.foldl_cons] at h
    obtain ⟨s1, hs1, hr⟩ := ih _ r h
    cases start with
    | none => simp at hs1
    | some s0 =>
      refine ⟨s0, rfl, ?_⟩
      simp only [sprintf_buf] at hs1
      split_ifs at hs1
      simp only [Option.some.injEq] at hs1
      rw [hr, ← hs1]
      simp [plusTail]

theorem storeToString_eq (si : Store_info) (n : Nat) (info : CStr)
    (h : storeToString si n = some info) : info = store_text si := by
  unfold storeToString at h
  obtain ⟨s0, hs0, hr⟩ := sprintf_fold n (fun i => fmt_lld (si.instr_num i)) _ _ _ h
  simp only [sprintf_buf] at hs0
  split_ifs at hs0
  simp only [Option.some.injEq] at hs0
  rw [hr, ← hs0]
  unfold store_text store_tokens
  rw [List.cons_append, plusJoin_cons]
  simp only [plusTail, List.nil_append, List.cons_append, plusTail_append, List.append_assoc,
    List.append_nil]

theorem store_tokens_noPlus (si : Store_info) : ∀ t ∈ store_tokens si, NoPlus t := by
  intro t ht
  unfold store_tokens at ht
  rcases List.mem_append.1 ht with ht | ht
  · simp only [List.mem_cons, List.mem_singleton, List.not_mem_nil, or_false] at ht
    rcases ht with h | h | h | h | h | h | h | h | h | h <;> subst h <;>
      first | exact fmt_lld_noPlus _ | exact fmt_f_noPlus _
  · obtain ⟨i, _, hi⟩ := List.mem_map.1 ht
    subst hi; exact fmt_lld_noPlus _

theorem stringToStore_store_text (si heap : Store_info) :
    stringToStore (store_text si) heap = some (store_reread si heap) := by
  have hall := store_tokens_noPlus si
  unfold store_text
  unfold store_tokens at hall ⊢
  have h0 : NoPlus (fmt_d si.thread_no) := hall _ (by simp)
  have hnine := readTokens_plusJoin atof
    [fmt_f si.alu_tvf, fmt_f si.reg_tvf, fmt_f si.mem_tvf,
      fmt_f si.alu_lvf, fmt_f si.reg_lvf, fmt_f si.mem_lvf,
      fmt_f si.alu_local_interval, fmt_f si.reg_local_interval, fmt_f si.mem_local_interval]
    ((List.finRange MAX_THREADS).map (fun i => fmt_lld (si.instr_num i)))
    (by intro t ht; exact hall t (by simp at ht ⊢; tauto))
  have hnums := readTokens_plusJoin atoll
    ((List.finRange MAX_THREADS).map (fun i => fmt_lld (si.instr_num i))) []
    (by intro t ht; exact hall t (List.mem_append_right _ ht))
  simp only [List.length_map, List.length_finRange, List.append_nil, List.map_map] at hnums
  simp only [List.length_cons, List.length_nil, List.map_cons, List.map_nil, atof_fmt_f] at hnine
  unfold stringToStore
  rw [List.cons_append, strtok_r_plusJoin _ _ h0]
  simp only [List.cons_append, List.nil_append] at hnine ⊢
  simp only [hnine, hnums, atoi_fmt_d]
  unfold store_reread
  congr 2
  funext i
  have hcomp : (atoll ∘ fun i => fmt_lld (si.instr_num i)) = si.instr_num := by
    funext j; simp [atoll_fmt_lld]
  rw [hcomp]
  simp [List.getD_eq_getElem?_getD]

theorem stringToStore_storeToString (si heap : Store_info) (n : Nat) (info : CStr)
    (h : storeToString si n = some info) :
    stringToStore info heap = some (store_reread si heap) := by
  rw [storeToString_eq si n info h]
  exact stringToStore_store_text si heap

/-! ## The register ledger -/

theorem natDigits_length_le (k : Nat) : ∀ n, n < 10 ^ (k + 1) → (natDigits n).length ≤ k + 1 := by
  induction k with
  | zero =>
    intro n hn
    rw [natDigits_small n (by simpa using hn)]
    simp
  | succ k ih =>
    intro n hn
    by_cases h : n < 10
    · rw [natDigits_small n h]; simp
    · rw [natDigits_step n (by omega), List.length_append]
      have : n / 10 < 10 ^ (k + 1) := by
        rw [Nat.div_lt_iff_lt_mul (by decide)]
        rw [pow_succ] at hn; exact hn
      have := ih (n / 10) this
      simp; omega

theorem fmt_lld_length_le (i : Int) (h : -2 ^ 63 ≤ i ∧ i < 2 ^ 63) : (fmt_lld i).length ≤ 20 := by
  have hn : i.natAbs < 10 ^ (18 + 1) := by
    have : (i.natAbs : Int) < 10 ^ 19 := by
      have h1 : (2 : Int) ^ 63 < 10 ^ 19 := by norm_num
      omega
    exact_mod_cast this
  have := natDigits_length_le 18 _ hn
  unfold fmt_lld
  split_ifs <;> simp <;> omega

theorem roundHalfEven_natAbs_le (x : ℚ) (B : Nat) (h : |x| ≤ B) :
    (roundHalfEven x).natAbs ≤ B + 1 := by
  have h1 : (x : ℚ) ≤ B := (abs_le.1 h).2
  have h2 : -(B : ℚ) ≤ x := (abs_le.1 h).1
  have hf1 : ⌊x⌋ ≤ (B : Int) := by
    have : ((⌊x⌋ : Int) : ℚ) ≤ x := Int.floor_le x
    have : ((⌊x⌋ : Int) : ℚ) ≤ ((B : Int) : ℚ) := by push_cast; linarith
    exact_mod_cast this
  have hf2 : -(B : Int) ≤ ⌊x⌋ := by
    rw [Int.le_floor]; push_cast; exact h2
  unfold roundHalfEven
  simp only
  split_ifs <;> omega

theorem fmt_f_length_le (q : ℚ) (B k : Nat) (h : |q| ≤ B) (hB : B + 1 < 10 ^ (k + 1)) :
    (fmt_f q).length ≤ k + 9 := by
  have hx : |q * 1000000| ≤ ((B * 1000000 : Nat) : ℚ) := by
    rw [abs_mul]; push_cast
    have : |(1000000 : ℚ)| = 1000000 := abs_of_pos (by norm_num)
    rw [this]
    exact mul_le_mul_of_nonneg_right h (by norm_num)
  have hr := roundHalfEven_natAbs_le (q * 1000000) (B * 1000000) hx
  have hdiv : (roundHalfEven (q * 1000000)).natAbs / 1000000 < 10 ^ (k + 1) := by
    have : (roundHalfEven (q * 1000000)).natAbs / 1000000 ≤ B := by
      rw [Nat.div_le_iff_le_mul_add_pred (by decide)]; omega
    omega
  have hlen := natDigits_length_le k _ hdiv
  unfold fmt_f
  simp only
  split_ifs <;> simp [padDigits_length] <;> omega

theorem round6_abs_le (q : ℚ) (B : Nat) (h : |q| ≤ B) : |round6 q| ≤ ((B + 1 : Nat) : ℚ) := by
  have hx : |q * 1000000| ≤ ((B * 1000000 : Nat) : ℚ) := by
    rw [abs_mul]; push_cast
    have : |(1000000 : ℚ)| = 1000000 := abs_of_pos (by norm_num)
    rw [this]
    exact mul_le_mul_of_nonneg_right h (by norm_num)
  have hr := roundHalfEven_natAbs_le (q * 1000000) (B * 1000000) hx
  unfold round6
  rw [abs_div, abs_of_pos (by norm_num : (0 : ℚ) < 1000000), ← Int.cast_abs,
    div_le_iff₀ (by norm_num)]
  have h1 : |roundHalfEven (q * 1000000)| ≤ ((B * 1000000 + 1 : Nat) : Int) := by
    rw [Int.abs_eq_natAbs]; exact_mod_cast hr
  have h2 : ((|roundHalfEven (q * 1000000)| : Int) : ℚ) ≤ ((B * 1000000 + 1 : Nat) : ℚ) := by
    exact_mod_cast h1
  push_cast at h2 ⊢
  linarith

theorem strmap_value_put (m : StrMap) (k v k' : CStr) :
    strmap_value (strmap_put m k v) k' = if k' = k then some v else strmap_value m k' := by
  unfold strmap_value
  cases hg : get_pair (m.buckets (hash k % m.count)) k with
  | some pair =>
    have hc : (strmap_put m k v).count = m.count := strmap_put_count m k v
    have hb : (strmap_put m k v).buckets
        = Function.update m.buckets (hash k % m.count)
            (set_pair_value (m.buckets (hash k % m.count)) k v) := by
      simp [strmap_put, hg]
    rw [hc, hb]
    by_cases hk : k' = k
    · subst hk
      simp [get_pair_set_pair_value, hg]
    · simp only [hk, if_false]
      by_cases hi : hash k' % m.count = hash k % m.count
      · rw [hi, Function.update_same, get_pair_set_pair_value]
        simp [hk]
      · rw [Function.update_noteq hi]
  | none =>
    have hc : (strmap_put m k v).count = m.count := strmap_put_count m k v
    have hb : (strmap_put m k v).buckets
        = Function.update m.buckets (hash k % m.count)
            (m.buckets (hash k % m.count) ++ [{ key := k, value := v }]) := by
      simp [strmap_put, hg]
    rw [hc, hb]
    by_cases hk : k' = k
    · subst hk
      simp [get_pair_append_new, hg]
    · simp only [hk, if_false]
      by_cases hi : hash k' % m.count = hash k % m.count
      · rw [hi, Function.update_same, get_pair_append_new]
        have hk2 : ¬ k = k' := fun e => hk e.symm
        cases get_pair (m.buckets (hash k % m.count)) k' <;> simp [hk2]
      · rw [Function.update_noteq hi]

theorem strmap_get_eq (m : StrMap) (k : CStr) (n : Nat) :
    strmap_get m k n = match strmap_value m k with
      | none => none
      | some v => if v.length ≥ n then none else some v := by
  unfold strmap_get strmap_value
  cases h : get_pair (m.buckets (hash k % m.count)) k <;> simp [h]

theorem strmap_value_new (cap : Nat) (k : CStr) : strmap_value (strmap_new cap) k = none := by
  simp [strmap_value, strmap_new, get_pair]

theorem ledger_record_parse (k : Int) (q : ℚ) :
    strtok_r ['+'] (fmt_lld k ++ '+' :: fmt_f q) = some (fmt_lld k, fmt_f q)
      ∧ strtok_r ['+'] (fmt_f q) = some (fmt_f q, []) :=
  ⟨strtok_r_sep _ _ (fmt_lld_noPlus k), strtok_r_last _ (fmt_f_noPlus q)⟩

theorem ledger_record_length (k : Int) (q : ℚ) (B : Nat)
    (hk : -2 ^ 63 ≤ k ∧ k < 2 ^ 63) (hq : |q| ≤ (B : ℚ)) (hB : B + 1 < 10 ^ 40) :
    (fmt_lld k ++ '+' :: fmt_f q).length < 1000 := by
  have h1 := fmt_lld_length_le k hk
  have h2 := fmt_f_length_le q B 39 hq hB
  simp only [List.length_append, List.length_cons]
  omega

/-- One call of `reg_vulnerability` on a well-formed ledger: it is defined, a
read returns the distance to the recorded instruction number (0 without a
record), a write returns 0, and the call records its own instruction number. -/
theorem reg_vulnerability_step (B : Nat) (m : StrMap) (cur : Int) (src : CStr) (rd : Int)
    (hm : LedgerOK B m) (hcur : -2 ^ 63 ≤ cur ∧ cur < 2 ^ 63)
    (hB : B + 2 ^ 64 + 2 < 10 ^ 40) :
    ∃ m', reg_vulnerability m cur src rd
        = some (if rd = 1 then
            (match ledger_instr m src with
              | some k => ((cur - k : Int) : ℚ)
              | none => 0)
            else 0, m')
      ∧ LedgerOK (B + 2 ^ 64 + 1) m'
      ∧ ∀ name, ledger_instr m' name = if name = src then some cur else ledger_instr m name := by
  have hfinish : ∀ (vul : ℚ), |vul| ≤ ((B + 2 ^ 64 + 1 : Nat) : ℚ) →
      sprintf_buf 1000 (fmt_lld cur ++ '+' :: fmt_f vul) = some (fmt_lld cur ++ '+' :: fmt_f vul)
      ∧ LedgerOK (B + 2 ^ 64 + 1) (strmap_put m src (fmt_lld cur ++ '+' :: fmt_f vul))
      ∧ ∀ name, ledger_instr (strmap_put m src (fmt_lld cur ++ '+' :: fmt_f vul)) name
          = if name = src then some cur else ledger_instr m name := by
    intro vul hv
    refine ⟨?_, ?_, ?_⟩
    · have := ledger_record_length cur vul (B + 2 ^ 64 + 1) hcur hv (by omega)
      unfold sprintf_buf
      rw [if_pos this]
    · intro name v hname
      rw [strmap_value_put] at hname
      by_cases hn : name = src
      · simp only [hn, if_true, Option.some.injEq] at hname
        exact ⟨cur, vul, hname.symm, hcur, hv⟩
      · simp only [hn, if_false] at hname
        obtain ⟨k, q, hv', hk, hq⟩ := hm name v hname
        refine ⟨k, q, hv', hk, le_trans hq ?_⟩
        exact_mod_cast (by omega : B ≤ B + 2 ^ 64 + 1)
    · intro name
      unfold ledger_instr
      rw [strmap_value_put]
      by_cases hn : name = src
      · simp [hn, (ledger_record_parse cur vul).1, atoll_fmt_lld]
      · simp [hn]
  cases hval : strmap_value m src with
  | none =>
    have hget : strmap_get m src 1000 = none := by rw [strmap_get_eq, hval]
    have hli : ledger_instr m src = none := by simp [ledger_instr, hval]
    obtain ⟨h1, h2, h3⟩ := hfinish 0 (by simp; positivity)
    refine ⟨strmap_put m src (fmt_lld cur ++ '+' :: fmt_f 0), ?_, h2, h3⟩
    unfold reg_vulnerability
    simp only [hget, h1, hli]
    split_ifs <;> rfl
  | some v =>
    obtain ⟨k, q, hv, hk, hq⟩ := hm src v hval
    have hlen := ledger_record_length k q B hk hq (by omega)
    have hget : strmap_get m src 1000 = some v := by
      rw [strmap_get_eq, hval]
      have : ¬ v.length ≥ 1000 := by rw [hv]; omega
      simp [this]
    have hli : ledger_instr m src = some k := by
      simp [ledger_instr, hval, hv, (ledger_record_parse k q).1, atoll_fmt_lld]
    have hr6 := round6_abs_le q B hq
    have hdiff : |((cur - k : Int) : ℚ)| ≤ ((2 ^ 64 : Nat) : ℚ) := by
      rw [← Int.cast_abs]
      have : |cur - k| ≤ ((2 ^ 64 : Nat) : Int) := by
        rw [abs_le]; constructor <;> push_cast <;> omega
      exact_mod_cast this
    by_cases hrd : rd = 1
    · have hb : |round6 q + ((cur - k : Int) : ℚ)| ≤ ((B + 2 ^ 64 + 1 : Nat) : ℚ) := by
        refine le_trans (abs_add _ _) ?_
        push_cast at hr6 hdiff ⊢
        linarith
      obtain ⟨h1, h2, h3⟩ := hfinish _ hb
      refine ⟨_, ?_, h2, h3⟩
      unfold reg_vulnerability
      simp only [hget, hv, (ledger_record_parse k q).1, (ledger_record_parse k q).2,
        atoll_fmt_lld, atof_fmt_f, hrd, if_true, h1, hli]
    · have hb : |round6 q| ≤ ((B + 2 ^ 64 + 1 : Nat) : ℚ) := by
        push_cast at hr6 ⊢
        have : (0 : ℚ) ≤ 2 ^ 64 := by positivity
        linarith
      obtain ⟨h1, h2, h3⟩ := hfinish _ hb
      refine ⟨_, ?_, h2, h3⟩
      unfold reg_vulnerability
      simp only [hget, hv, (ledger_record_parse k q).1, (ledger_record_parse k q).2,
        atoll_fmt_lld, atof_fmt_f, hrd, if_false, h1, hli]

theorem LedgerOK_new (cap : Nat) : LedgerOK 0 (strmap_new cap) := by
  intro name v h
  rw [strmap_value_new] at h
  exact absurd h (by simp)

theorem reg_run_spec (hist : List (Int × CStr × Int)) :
    ∀ (B : Nat) (m : StrMap), LedgerOK B m →
      (∀ a ∈ hist, -2 ^ 63 ≤ a.1 ∧ a.1 < 2 ^ 63) →
      B + hist.length * (2 ^ 64 + 1) + 2 ^ 64 + 2 < 10 ^ 40 →
      ∃ m', reg_run m hist = some m' ∧ LedgerOK (B + hist.length * (2 ^ 64 + 1)) m'
        ∧ ∀ name, ledger_instr m' name
            = match last_access hist name with
              | some k => some k
              | none => ledger_instr m name := by
  induction hist with
  | nil =>
    intro B m hm _ _
    exact ⟨m, rfl, by simpa using hm, fun name => rfl⟩
  | cons a rest ih =>
    intro B m hm hr hB
    simp only [List.length_cons] at hB
    obtain ⟨m1, h1, hok1, hli1⟩ := reg_vulnerability_step B m a.1 a.2.1 a.2.2 hm
      (hr a (List.mem_cons_self _ _)) (by omega)
    obtain ⟨m', h2, hok2, hli2⟩ := ih (B + 2 ^ 64 + 1) m1 hok1
      (fun x hx => hr x (List.mem_cons_of_mem _ hx)) (by omega)
    refine ⟨m', ?_, ?_, ?_⟩
    · simp only [reg_run, h1, h2]
    · have : B + (rest.length + 1) * (2 ^ 64 + 1) = B + 2 ^ 64 + 1 + rest.length * (2 ^ 64 + 1) := by
        ring
      simp only [List.length_cons]
      rw [this]; exact hok2
    · intro name
      rw [hli2 name, hli1 name]
      simp only [last_access]
      cases last_access rest name with
      | some k => rfl
      | none =>
        by_cases hn : name = a.2.1
        · simp [hn]
        · have hn' : ¬ a.2.1 = name := fun e => hn e.symm
          simp [hn, hn']

/-! ## Memory events: frame lemmas -/

theorem load_hit_record_remote_state (t t' : thread_t) (mem_a : CStr) (s s' : Int)
    (h : load_hit_record t mem_a s = some (t', s')) : remote_state t' = remote_state t := by
  unfold load_hit_record at h
  split at h
  · exact absurd h (by simp)
  · simp only [Option.some.injEq, Prod.mk.injEq] at h
    rw [← h.1]; rfl

theorem load_hit_remote_state (t t' : thread_t) (mem_a : CStr) (s s' : Int)
    (h : load_hit t mem_a s = some (t', s')) : remote_state t' = remote_state t := by
  unfold load_hit at h
  dsimp only at h
  repeat' split at h
  all_goals first
    | exact (load_hit_record_remote_state _ _ _ _ _ h).trans rfl
    | cases h

theorem remote_vulnerability_put_accumulators (t t' : thread_t) (st : Int) (a r m : ℚ) (c : Int)
    (h : remote_vulnerability_put t st a r m c = some t') :
    t'.rem_alu_vul = t.rem_alu_vul ∧ t'.rem_reg_vul = t.rem_reg_vul
      ∧ t'.rem_mem_vul = t.rem_mem_vul ∧ t'.remote_count = t.remote_count := by
  unfold remote_vulnerability_put at h
  split at h
  · simp only [Option.some.injEq] at h
    subst h
    exact ⟨rfl, rfl, rfl, rfl⟩
  · exact absurd h (by simp)

theorem remote_vulnerability_accumulators (t t' : thread_t) (st : Int) (a r m : ℚ)
    (h : remote_vulnerability t st a r m = some t') :
    t'.rem_alu_vul = t.rem_alu_vul ∧ t'.rem_reg_vul = t.rem_reg_vul
      ∧ t'.rem_mem_vul = t.rem_mem_vul ∧ t'.remote_count = t.remote_count := by
  unfold remote_vulnerability at h
  repeat' split at h
  all_goals first
    | exact remote_vulnerability_put_accumulators _ _ _ _ _ _ _ h
    | cases h

theorem text_trace_data_enter_threads (bt : base_trace) (cpu_no : Int) :
    (text_trace_data_enter bt cpu_no).threads = bt.threads
      ∧ (text_trace_data_enter bt cpu_no).memory_store = bt.memory_store
      ∧ (text_trace_data_enter bt cpu_no).cores = bt.cores := by
  unfold text_trace_data_enter
  dsimp only
  split_ifs <;> exact ⟨rfl, rfl, rfl⟩

theorem index?_eq_some (n : Nat) (i : Int) (t : Fin n) (h : index? n i = some t) :
    i = (t.val : Int) := by
  unfold index? at h
  split_ifs at h with hi
  simp only [Option.some.injEq] at h
  subst h
  simp only
  omega

theorem index?_val (n : Nat) (t : Fin n) : index? n (t.val : Int) = some t := by
  unfold index?
  have : 0 ≤ (t.val : Int) ∧ (t.val : Int).toNat < n := ⟨by omega, by simp⟩
  rw [dif_pos this]
  simp

/-- Effect of the remote-attribution part of a load on the reading thread. -/
theorem text_trace_data_remote_reader (bt bt' : base_trace) (t : Fin MAX_THREADS)
    (si : Store_info) (temp rr : thread_t)
    (h : text_trace_data_remote bt t (t.val : Int) si temp rr = some bt') :
    (si.thread_no = (t.val : Int) → bt'.threads t = temp)
    ∧ (si.thread_no ≠ (t.val : Int) →
        (bt'.threads t).rem_alu_vul = temp.rem_alu_vul + si.alu_tvf
        ∧ (bt'.threads t).rem_reg_vul = temp.rem_reg_vul + si.reg_tvf
        ∧ (bt'.threads t).rem_mem_vul = temp.rem_mem_vul + si.mem_tvf
        ∧ (bt'.threads t).remote_count = temp.remote_count + 1) := by
  unfold text_trace_data_remote at h
  dsimp only at h
  by_cases ho : si.thread_no = (t.val : Int)
  · rw [if_neg (by simpa using ho)] at h
    simp only [Option.some.injEq] at h
    subst h
    refine ⟨fun _ => by simp, fun hne => absurd ho hne⟩
  · rw [if_pos ho] at h
    refine ⟨fun he => absurd he ho, fun _ => ?_⟩
    split at h
    · rename_i temp' rt hrv hrt
      simp only [Option.some.injEq] at h
      subst h
      have hne : t ≠ rt := by
        intro e
        apply ho
        rw [index?_eq_some _ _ _ hrt, e]
      have := remote_vulnerability_accumulators _ _ _ _ _ _ hrv
      simp only [Function.update_noteq hne, Function.update_same]
      exact this
    · cases h

theorem index?_castLE (t : Fin MAX_THREADS) :
    index? 32 (t.val : Int) = some (Fin.castLE (by decide) t) := by
  unfold index?
  have ht : t.val < 8 := t.isLt
  have : 0 ≤ (t.val : Int) ∧ (t.val : Int).toNat < 32 := ⟨by omega, by simp; omega⟩
  rw [dif_pos this]
  simp [Fin.castLE]

theorem text_trace_data_active (bt : base_trace) (ent : trace_entry) (heap : Store_info)
    (t : Fin MAX_THREADS) (hcpu : ent.cpu_no = (t.val : Int))
    (hactive : (bt.cores (Fin.castLE (by decide) t)).active ≠ 0) :
    text_trace_data bt ent heap
      = if ent.read_or_write = 0 then
          text_trace_data_load (text_trace_data_enter bt ent.cpu_no) t (t.val : Int)
            (data_temp2 bt ent) (fmt_llx ent.pa) ent.L1_hit_or_miss heap
        else if ent.read_or_write = 1 then
          text_trace_data_store (text_trace_data_enter bt ent.cpu_no) t
            (data_temp2 bt ent) (fmt_llx ent.pa) heap
        else some (text_trace_data_enter bt ent.cpu_no) := by
  unfold text_trace_data
  simp only [hcpu, index?_castLE, index?_val, hactive, if_false, data_temp2, in_region,
    decide_eq_true_eq]

theorem text_trace_data_inactive (bt : base_trace) (ent : trace_entry) (heap : Store_info)
    (t : Fin MAX_THREADS) (hcpu : ent.cpu_no = (t.val : Int))
    (hactive : (bt.cores (Fin.castLE (by decide) t)).active = 0) :
    text_trace_data bt ent heap = some bt := by
  unfold text_trace_data
  simp only [hcpu, index?_castLE, hactive, if_true]

theorem text_trace_data_load_found (bt bt' : base_trace) (t : Fin MAX_THREADS) (reg : stack_ptr)
    (mem_a buf : CStr) (hit1 : Int) (heap si : Store_info)
    (hget : strmap_get bt.memory_store mem_a 50000 = some buf)
    (hsi : stringToStore buf heap = some si)
    (h : text_trace_data_load bt t (t.val : Int) reg mem_a hit1 heap = some bt') :
    ∃ temp rr, remote_state temp = remote_state (bt.threads t)
      ∧ text_trace_data_remote bt t (t.val : Int) si temp rr = some bt' := by
  unfold text_trace_data_load at h
  simp only [hget, hsi] at h
  by_cases hhit : hit1 = 1
  · rw [if_pos hhit] at h
    split at h
    · cases h
    · rename_i temp s1 hl
      have hrs := load_hit_remote_state _ _ _ _ _ hl
      cases reg with
      | rr_thread =>
        dsimp only at h
        split at h
        · cases h
        · exact ⟨temp, _, hrs, h⟩
      | null => exact ⟨temp, _, hrs, h⟩
      | other => cases h
  · rw [if_neg hhit] at h
    exact ⟨_, _, rfl, h⟩

theorem text_trace_data_load_absent (bt : base_trace) (t : Fin MAX_THREADS) (cpu : Int)
    (reg : stack_ptr) (mem_a : CStr) (hit1 : Int) (heap : Store_info)
    (hget : strmap_get bt.memory_store mem_a 50000 = none) :
    text_trace_data_load bt t cpu reg mem_a hit1 heap = some bt := by
  unfold text_trace_data_load
  simp only [hget]

theorem sprintf_fold_length (n : Nat) {ι : Type} (f : ι → CStr) (l : List ι) :
    ∀ (start : Option CStr) (r : CStr),
      (∀ s0, start = some s0 → s0.length < n) →
      l.foldl (fun info i =>
          match info with
          | none => none
          | some info => sprintf_buf n (info ++ '+' :: f i)) start = some r →
      r.length < n := by
  induction l with
  | nil => intro start r hs h; exact hs r h
  | cons i l ih =>
    intro start r hs h
    rw [List.foldl_cons] at h
    refine ih _ r ?_ h
    intro s0 hs0
    cases start with
    | none => simp at hs0
    | some s =>
      simp only [sprintf_buf] at hs0
      split_ifs at hs0 with hlt
      simp only [Option.some.injEq] at hs0
      rw [← hs0]; exact hlt

theorem storeToString_length (si : Store_info) (n : Nat) (info : CStr)
    (h : storeToString si n = some info) : info.length < n := by
  unfold storeToString at h
  refine sprintf_fold_length n _ _ _ info ?_ h
  intro s0 hs0
  simp only [sprintf_buf] at hs0
  split_ifs at hs0 with hlt
  simp only [Option.some.injEq] at hs0
  rw [← hs0]; exact hlt

theorem FanArray.set_apply (a : FanArray) (i j : Fin MAX_THREADS) (v : ℚ)
    (x y : Fin MAX_THREADS) :
    a.set i j v x y = if x = i ∧ y = j then v else a x y := by
  unfold FanArray.set
  by_cases hx : x = i
  · subst hx
    by_cases hy : y = j
    · subst hy; simp
    · simp [Function.update_noteq hy, hy]
  · simp [Function.update_noteq hx, hx]

theorem FanArray.raise_apply (a : FanArray) (i j : Fin MAX_THREADS) (v : ℚ)
    (x y : Fin MAX_THREADS) :
    a.raise i j v x y = if x = i ∧ y = j then max (a x y) v else a x y := by
  unfold FanArray.raise
  by_cases h : v > a i j
  · rw [if_pos h, FanArray.set_apply]
    by_cases hxy : x = i ∧ y = j
    · obtain ⟨hx, hy⟩ := hxy
      subst hx hy
      simp [max_eq_right (le_of_lt h)]
    · simp [hxy]
  · rw [if_neg h]
    by_cases hxy : x = i ∧ y = j
    · obtain ⟨hx, hy⟩ := hxy
      subst hx hy
      simp [max_eq_left (not_lt.1 h)]
    · simp [hxy]

/-- One iteration of the propagation loop: the direct matrices are untouched
and only the four indirect cells `[j][in]` may change, and only when the gate
of `j` holds. -/
theorem fan_indirect_step_spec (sinfo : Store_info) (out i : Fin MAX_THREADS) (finfo : Fan_info)
    (j : Fin MAX_THREADS) :
    (∀ a b, (fan_indirect_step sinfo out i finfo j).direct_cell a b = finfo.direct_cell a b)
    ∧ ∀ a b,
      (fan_indirect_step sinfo out i finfo j).indirect_cell a b
        = if a = j ∧ b = i ∧ fan_gate sinfo out j then
            fan_raised sinfo out (finfo.indirect_cell a b) j
          else finfo.indirect_cell a b := by
  by_cases hg : fan_gate sinfo out j
  · have hg' := hg
    unfold fan_gate at hg'
    unfold fan_indirect_step
    rw [if_pos hg']
    refine ⟨fun a b => rfl, ?_⟩
    intro a b
    simp only [Fan_info.indirect_cell, FanArray.raise_apply, hg, and_true, fan_raised,
      mul_comm PWEIGHT]
    by_cases hab : a = j ∧ b = i
    · simp only [hab, and_self, if_true]
    · simp only [hab, if_false]
  · have hg' := hg
    unfold fan_gate at hg'
    unfold fan_indirect_step
    rw [if_neg hg']
    refine ⟨fun a b => rfl, ?_⟩
    intro a b
    simp [hg]

theorem fan_indirect_fold_spec (sinfo : Store_info) (out i : Fin MAX_THREADS)
    (l : List (Fin MAX_THREADS)) (hl : l.Nodup) : ∀ (finfo : Fan_info),
    (∀ a b, (l.foldl (fan_indirect_step sinfo out i) finfo).direct_cell a b
        = finfo.direct_cell a b)
    ∧ ∀ a b,
      (l.foldl (fan_indirect_step sinfo out i) finfo).indirect_cell a b
        = if a ∈ l ∧ b = i ∧ fan_gate sinfo out a then
            fan_raised sinfo out (finfo.indirect_cell a b) a
          else finfo.indirect_cell a b := by
  induction l with
  | nil => intro finfo; exact ⟨fun a b => rfl, fun a b => by simp⟩
  | cons j l ih =>
    intro finfo
    rw [List.nodup_cons] at hl
    obtain ⟨hd, hi⟩ := ih hl.2 (fan_indirect_step sinfo out i finfo j)
    obtain ⟨sd, si⟩ := fan_indirect_step_spec sinfo out i finfo j
    rw [List.foldl_cons]
    refine ⟨fun a b => (hd a b).trans (sd a b), ?_⟩
    intro a b
    rw [hi a b, si a b]
    by_cases haj : a = j
    · subst haj
      have hnot : ¬ (a ∈ l ∧ b = i ∧ fan_gate sinfo out a) := fun h => hl.1 h.1
      simp [hnot]
    · by_cases hal : a ∈ l
      · simp [haj, hal]
      · simp [haj, hal]

/-- Closed form of `handle_fan_info` for indices in range. -/
theorem handle_fan_info_spec (sinfo : Store_info) (finfo : Fan_info) (in_ : Int)
    (out i : Fin MAX_THREADS) (hout : index? MAX_THREADS sinfo.thread_no = some out)
    (hin : index? MAX_THREADS in_ = some i) :
    ∃ f', handle_fan_info sinfo finfo in_ = some f'
      ∧ (∀ a b, f'.direct_cell a b
          = if a = out ∧ b = i then fan_direct_added sinfo (finfo.direct_cell a b)
            else finfo.direct_cell a b)
      ∧ (∀ a b, f'.indirect_cell a b
          = if finfo.direct_count out i + 1 > REMOTE_THRESHOLD ∧ b = i ∧ fan_gate sinfo out a then
              fan_raised sinfo out (finfo.indirect_cell a b) a
            else finfo.indirect_cell a b) := by
  have hdirect : ∀ a b,
      Fan_info.direct_cell
        { finfo with
          direct_alu_array :=
            finfo.direct_alu_array.set out i (finfo.direct_alu_array out i + sinfo.alu_lvf)
          direct_reg_array :=
            finfo.direct_reg_array.set out i (finfo.direct_reg_array out i + sinfo.reg_lvf)
          direct_mem_array :=
            finfo.direct_mem_array.set out i (finfo.direct_mem_array out i + sinfo.mem_lvf)
          direct_count := finfo.direct_count.set out i (finfo.direct_count out i + 1) } a b
        = if a = out ∧ b = i then fan_direct_added sinfo (finfo.direct_cell a b)
          else finfo.direct_cell a b := by
    intro a b
    simp only [Fan_info.direct_cell, FanArray.set_apply, fan_direct_added]
    by_cases hab : a = out ∧ b = i
    · obtain ⟨ha, hb⟩ := hab
      subst ha hb
      simp
    · simp [hab]
  have hcount : (finfo.direct_count.set out i (finfo.direct_count out i + 1)) out i
      = finfo.direct_count out i + 1 := by
    simp [FanArray.set_apply]
  unfold handle_fan_info
  simp only [hout, hin, hcount]
  by_cases hthr : finfo.direct_count out i + 1 > REMOTE_THRESHOLD
  · rw [if_pos hthr]
    obtain ⟨hd, hi⟩ := fan_indirect_fold_spec sinfo out i (List.finRange MAX_THREADS)
      (List.nodup_finRange _)
      { finfo with
        direct_alu_array :=
          finfo.direct_alu_array.set out i (finfo.direct_alu_array out i + sinfo.alu_lvf)
        direct_reg_array :=
          finfo.direct_reg_array.set out i (finfo.direct_reg_array out i + sinfo.reg_lvf)
        direct_mem_array :=
          finfo.direct_mem_array.set out i (finfo.direct_mem_array out i + sinfo.mem_lvf)
        direct_count := finfo.direct_count.set out i (finfo.direct_count out i + 1) }
    refine ⟨_, rfl, fun a b => (hd a b).trans (hdirect a b), ?_⟩
    intro a b
    rw [hi a b]
    simp only [List.mem_finRange, true_and, hthr]
    rfl
  · rw [if_neg hthr]
    refine ⟨_, rfl, hdirect, ?_⟩
    intro a b
    simp only [hthr, false_and, if_false]
    rfl

theorem fan_run_below_threshold (calls : List (Store_info × Int)) :
    ∀ (f : Fan_info) (c0 : Fin MAX_THREADS → Fin MAX_THREADS → Nat),
      (∀ o i, f.direct_count o i = (c0 o i : ℚ)) →
      (∀ c ∈ calls, (index? MAX_THREADS c.1.thread_no).isSome = true
          ∧ (index? MAX_THREADS c.2).isSome = true) →
      (∀ o i, c0 o i + edge_reads calls o i ≤ 100) →
      ∃ f', fan_run f calls = some f' ∧ ∀ a b, f'.indirect_cell a b = f.indirect_cell a b := by
  induction calls with
  | nil => intro f c0 _ _ _; exact ⟨f, rfl, fun a b => rfl⟩
  | cons c rest ih =>
    intro f c0 hc0 hvalid hle
    obtain ⟨ho, hi⟩ := hvalid c (List.mem_cons_self _ _)
    obtain ⟨out, hout⟩ := Option.isSome_iff_exists.1 ho
    obtain ⟨i, hin⟩ := Option.isSome_iff_exists.1 hi
    obtain ⟨f1, hf1, hd1, hi1⟩ := handle_fan_info_spec c.1 f c.2 out i hout hin
    have hedge : ∀ o j, edge_reads (c :: rest) o j
        = edge_reads rest o j + if o = out ∧ j = i then 1 else 0 := by
      intro o j
      unfold edge_reads
      rw [List.countP_cons]
      simp only [hout, hin, Option.some.injEq]
      by_cases h : o = out ∧ j = i
      · obtain ⟨h1, h2⟩ := h; subst h1 h2; simp
      · have h' : ¬ (out = o ∧ i = j) := fun e => h ⟨e.1.symm, e.2.symm⟩
        simp [h, h']
    have hno : ¬ f.direct_count out i + 1 > REMOTE_THRESHOLD := by
      have := hle out i
      rw [hedge] at this
      simp only [and_self, if_true] at this
      rw [hc0 out i]
      unfold REMOTE_THRESHOLD
      have h2 : ((c0 out i : ℚ) + 1) ≤ 100 := by
        have : c0 out i + 1 ≤ 100 := by omega
        exact_mod_cast this
      linarith
    have hind : ∀ a b, f1.indirect_cell a b = f.indirect_cell a b := by
      intro a b
      rw [hi1 a b]
      simp [hno]
    obtain ⟨f', hf', hind'⟩ := ih f1
      (fun o j => c0 o j + if o = out ∧ j = i then 1 else 0)
      (by
        intro o j
        have := hd1 o j
        simp only [Fan_info.direct_cell, fan_direct_added] at this
        by_cases h : o = out ∧ j = i
        · simp only [h, and_self, if_true, Prod.mk.injEq] at this ⊢
          rw [this.2.2.2, hc0]; push_cast; rfl
        · simp only [h, if_false, Prod.mk.injEq] at this ⊢
          rw [this.2.2.2, hc0]; simp)
      (fun x hx => hvalid x (List.mem_cons_of_mem _ hx))
      (by
        intro o j
        have := hle o j
        rw [hedge] at this
        show c0 o j + (if o = out ∧ j = i then 1 else 0) + edge_reads rest o j ≤ 100
        omega)
    refine ⟨f', ?_, fun a b => (hind' a b).trans (hind a b)⟩
    simp only [fan_run, hf1, hf']

/-! ## Total vulnerability factor of a write -/

theorem after_event_eq (bt : base_trace) (ent : trace_entry) (heap : Store_info)
    (h : (text_trace_data bt ent heap).isSome = true) :
    text_trace_data bt ent heap = some (after_event bt ent heap) := by
  unfold after_event
  obtain ⟨b, hb⟩ := Option.isSome_iff_exists.1 h
  rw [hb]; rfl

theorem write_tvf_none (temp : thread_t) :
    write_tvf temp none
      = if temp.instr_num ≠ 0 then
          (1 / 2 * (temp.alu_vul / ((temp.instr_num : ℚ) * 1))
              + 1 / 2 * (temp.rem_alu_vul
                / (((if temp.remote_count ≠ 0 then temp.remote_count else 1 : Int)) : ℚ)),
            1 / 2 * (temp.reg_vul / ((temp.instr_num : ℚ)
                * (((if strmap_get_count temp.register_vul = 0 then 1
                    else strmap_get_count temp.register_vul : Int)) : ℚ)))
              + 1 / 2 * (temp.rem_reg_vul
                / (((if temp.remote_count ≠ 0 then temp.remote_count else 1 : Int)) : ℚ)),
            1 / 2 * (temp.mem_vul / ((temp.instr_num : ℚ)
                * (((if strmap_get_count temp.memory_vul = 0 then 1
                    else strmap_get_count temp.memory_vul : Int)) : ℚ)))
              + 1 / 2 * (temp.rem_mem_vul
                / (((if temp.remote_count ≠ 0 then temp.remote_count else 1 : Int)) : ℚ)))
        else (0, 0, 0) := by
  unfold write_tvf
  by_cases h : temp.instr_num ≠ 0
  · have hrc : ¬ (if temp.remote_count ≠ 0 then temp.remote_count else (1 : Int)) = 0 := by
      split_ifs with h1
      · exact h1
      · decide
    simp only [h, if_true, hrc, if_false, Option.isSome_none, Bool.false_eq_true,
      calculate_lvf, calculate_rvf, calculate_tvf, Int.cast_one]
  · simp only [h, if_false]

theorem strmap_keys_length (m : StrMap) (h : StrMapInv m) :
    strmap_get_count m = ((strmap_keys m).length : Int) := by
  unfold strmap_get_count strmap_keys
  rw [h.size_eq, List.length_map]

/-! ## The claims -/

/-- C1: for every map created by `strmap_new` with a positive bucket count and
every sequence of `strmap_put` calls on it, `sum_strmap` (the incrementally
maintained `total_value`) equals the sum, over the keys currently stored, of
the `atof` value of each key's current value; every key is stored once. -/
theorem strmap_sum_invariant (capacity : Nat) (hcap : 0 < capacity)
    (ops : List (CStr × CStr)) :
    sum_strmap (strmap_puts (strmap_new capacity) ops)
        = ((strmap_keys (strmap_puts (strmap_new capacity) ops)).map
            (fun k => atof
              ((strmap_value (strmap_puts (strmap_new capacity) ops) k).getD []))).sum
      ∧ (strmap_keys (strmap_puts (strmap_new capacity) ops)).Nodup := by
  have hinv := strmap_puts_inv ops _ (strmap_new_inv capacity hcap)
  exact ⟨strmap_total_by_keys _ hinv, strmap_keys_nodup _ hinv⟩

/-- Witness of C1: three puts, one of them an overwrite, on a map of three
buckets. -/
theorem strmap_sum_invariant_witness :
    0 < 3 ∧
    sum_strmap (strmap_puts (strmap_new 3)
        [("a".toList, "1.5".toList), ("b".toList, "2".toList), ("a".toList, "4".toList)])
      = ((strmap_keys (strmap_puts (strmap_new 3)
          [("a".toList, "1.5".toList), ("b".toList, "2".toList), ("a".toList, "4".toList)])).map
          (fun k => atof
            ((strmap_value (strmap_puts (strmap_new 3)
              [("a".toList, "1.5".toList), ("b".toList, "2".toList),
                ("a".toList, "4".toList)]) k).getD []))).sum :=
  ⟨by decide, (strmap_sum_invariant 3 (by decide)
    [("a".toList, "1.5".toList), ("b".toList, "2".toList), ("a".toList, "4".toList)]).1⟩

/-- C2 fails as stated: after a write of `r1` at instruction 1 and a read at
instruction 4, a second read at instruction 6 returns 2, the distance to the
first read, not 5, the distance to the last write; and a read of a register
that was read before but never written returns 2, not 0. -/
theorem reg_vulnerability_second_read_counterexample :
    ((reg_run (strmap_new 500) [(1, "r1".toList, 0), (4, "r1".toList, 1)]).bind
        (fun m => (reg_vulnerability m 6 "r1".toList 1).map Prod.fst) = some 2
      ∧ last_write [(1, "r1".toList, 0), (4, "r1".toList, 1)] "r1".toList = some 1
      ∧ (2 : ℚ) ≠ ((6 - 1 : Int) : ℚ))
    ∧ ((reg_run (strmap_new 500) [(4, "r1".toList, 1)]).bind
        (fun m => (reg_vulnerability m 6 "r1".toList 1).map Prod.fst) = some 2
      ∧ last_write [(4, "r1".toList, 1)] "r1".toList = none
      ∧ (2 : ℚ) ≠ 0) := by
  decide!

/-- C2, amended: for every history of `reg_vulnerability` calls on a fresh
register ledger (instruction numbers in the range of `long long`, fewer than
`2 ^ 64` calls), every resource name and every read of it at instruction `n`,
the read is defined and the contribution it returns is `n` minus the instruction
number of the last access to the resource, read or write alike, and 0 if the
resource was never accessed. -/
theorem reg_vulnerability_read_last_access (capacity : Nat) (hcap : 0 < capacity)
    (hist : List (Int × CStr × Int)) (name : CStr) (n : Int)
    (hrange : ∀ a ∈ hist, -2 ^ 63 ≤ a.1 ∧ a.1 < 2 ^ 63)
    (hn : -2 ^ 63 ≤ n ∧ n < 2 ^ 63) (hlen : hist.length < 2 ^ 64) :
    ∃ m, reg_run (strmap_new capacity) hist = some m
      ∧ (reg_vulnerability m n name 1).map Prod.fst
        = some (match last_access hist name with
            | some k => ((n - k : Int) : ℚ)
            | none => 0) := by
  have _ := hcap
  obtain ⟨m, hm, hok, hli⟩ := reg_run_spec hist 0 (strmap_new capacity) (LedgerOK_new capacity)
    hrange (by omega)
  obtain ⟨m', hstep, -, -⟩ := reg_vulnerability_step (0 + hist.length * (2 ^ 64 + 1)) m n name 1
    hok hn (by omega)
  refine ⟨m, hm, ?_⟩
  rw [hstep, hli name]
  have hnew : ledger_instr (strmap_new capacity) name = none := by
    simp [ledger_instr, strmap_value_new]
  simp only [if_true, Option.map_some', hnew]
  cases last_access hist name <;> rfl

/-- Witness of C2, amended: write at 1, read at 4, then the read at 6. -/
theorem reg_vulnerability_read_last_access_witness :
    ∃ m, reg_run (strmap_new 500) [(1, "r1".toList, 0), (4, "r1".toList, 1)] = some m
      ∧ (reg_vulnerability m 6 "r1".toList 1).map Prod.fst
        = some (match last_access [(1, "r1".toList, 0), (4, "r1".toList, 1)] "r1".toList with
            | some k => ((6 - k : Int) : ℚ)
            | none => 0) :=
  reg_vulnerability_read_last_access 500 (by decide)
    [(1, "r1".toList, 0), (4, "r1".toList, 1)] "r1".toList 6
    (by decide) (by decide) (by decide)

/-- C3: for every memory-read event handled by `text_trace_data` whose resolved
store record has an owning thread equal to the reading thread, the reading
thread's remote accumulators, its `remote_count` and its four per-source remote
breakdown maps are unchanged. -/
theorem read_same_owner_keeps_remote (bt bt' : base_trace) (ent : trace_entry)
    (heap : Store_info) (t : Fin MAX_THREADS) (buf : CStr) (si : Store_info)
    (hcpu : ent.cpu_no = (t.val : Int)) (hread : ent.read_or_write = 0)
    (hstep : text_trace_data bt ent heap = some bt')
    (hget : strmap_get bt.memory_store (fmt_llx ent.pa) 50000 = some buf)
    (hsi : stringToStore buf heap = some si)
    (howner : si.thread_no = ent.cpu_no) :
    remote_state (bt'.threads t) = remote_state (bt.threads t) := by
  by_cases hactive : (bt.cores (Fin.castLE (by decide) t)).active = 0
  · rw [text_trace_data_inactive bt ent heap t hcpu hactive] at hstep
    simp only [Option.some.injEq] at hstep
    rw [← hstep]
  · rw [text_trace_data_active bt ent heap t hcpu hactive, if_pos hread] at hstep
    obtain ⟨hth, hms, -⟩ := text_trace_data_enter_threads bt ent.cpu_no
    obtain ⟨temp, rr, hrs, hrem⟩ := text_trace_data_load_found _ bt' t _ _ buf _ heap si
      (by rw [hms]; exact hget) hsi hstep
    have := (text_trace_data_remote_reader _ bt' t si temp rr hrem).1 (howner.trans hcpu)
    rw [this, hrs, hth]

/-- Witness of C3: thread 0 writes address `0x1000` and then reads it back
with a cache hit. -/
theorem read_same_owner_keeps_remote_witness :
    ∃ bt', text_trace_data (after_event engine_two_alu (mem_event 0 1 4096 0) heap_zero)
        (mem_event 0 0 4096 1) heap_zero = some bt'
      ∧ remote_state (bt'.threads 0)
        = remote_state ((after_event engine_two_alu (mem_event 0 1 4096 0) heap_zero).threads 0) :=
  ⟨_, after_event_eq _ _ _ (by decide!),
    read_same_owner_keeps_remote _ _ (mem_event 0 0 4096 1) heap_zero 0
      (store_text (written_store_info engine_two_alu (mem_event 0 1 4096 0) 0 heap_zero))
      (store_reread (written_store_info engine_two_alu (mem_event 0 1 4096 0) 0 heap_zero)
        heap_zero)
      rfl rfl (after_event_eq _ _ _ (by decide!)) (by decide!)
      (stringToStore_store_text _ _) rfl⟩

/-- C5: for every call `handle_fan_info(sinfo, finfo, in)` with owner
`out = sinfo->thread_no`, if `direct_count[out][in]` after its increment does
not exceed `REMOTE_THRESHOLD`, all four indirect matrices are unchanged;
consequently, starting from the all-zero matrices, every indirect entry is
still 0 after any sequence of remote reads in which no edge has been read more
than 100 times. -/
theorem indirect_unchanged_below_threshold :
    (∀ (sinfo : Store_info) (finfo : Fan_info) (in_ : Int) (out i : Fin MAX_THREADS),
      index? MAX_THREADS sinfo.thread_no = some out → index? MAX_THREADS in_ = some i →
      ∃ f', handle_fan_info sinfo finfo in_ = some f'
        ∧ (f'.direct_count out i ≤ REMOTE_THRESHOLD →
          f'.indirect_alu_array = finfo.indirect_alu_array
          ∧ f'.indirect_reg_array = finfo.indirect_reg_array
          ∧ f'.indirect_mem_array = finfo.indirect_mem_array
          ∧ f'.indirect_count = finfo.indirect_count))
    ∧ (∀ (calls : List (Store_info × Int)),
      (∀ c ∈ calls, (index? MAX_THREADS c.1.thread_no).isSome = true
        ∧ (index? MAX_THREADS c.2).isSome = true) →
      (∀ out i, edge_reads calls out i ≤ 100) →
      ∃ f', fan_run Fan_info.zero calls = some f'
        ∧ ∀ a b, f'.indirect_alu_array a b = 0 ∧ f'.indirect_reg_array a b = 0
          ∧ f'.indirect_mem_array a b = 0 ∧ f'.indirect_count a b = 0) := by
  constructor
  · intro sinfo finfo in_ out i hout hin
    obtain ⟨f', hf', hd, hi⟩ := handle_fan_info_spec sinfo finfo in_ out i hout hin
    refine ⟨f', hf', ?_⟩
    intro hle
    have hcount : f'.direct_count out i = finfo.direct_count out i + 1 := by
      have := hd out i
      simp only [Fan_info.direct_cell, fan_direct_added, and_self, if_true,
        Prod.mk.injEq] at this
      exact this.2.2.2
    have hno : ¬ finfo.direct_count out i + 1 > REMOTE_THRESHOLD := by
      rw [← hcount]; exact not_lt.2 hle
    have hcell : ∀ a b, f'.indirect_cell a b = finfo.indirect_cell a b := by
      intro a b
      rw [hi a b]
      simp [hno]
    simp only [Fan_info.indirect_cell, Prod.mk.injEq] at hcell
    refine ⟨?_, ?_, ?_, ?_⟩ <;> funext a b
    · exact (hcell a b).1
    · exact (hcell a b).2.1
    · exact (hcell a b).2.2.1
    · exact (hcell a b).2.2.2
  · intro calls hvalid hle
    obtain ⟨f', hf', hind⟩ := fan_run_below_threshold calls Fan_info.zero (fun _ _ => 0)
      (by intro o i; simp [Fan_info.zero, FanArray.zero]) hvalid
      (by intro o i; simpa using hle o i)
    refine ⟨f', hf', ?_⟩
    intro a b
    have := hind a b
    simp only [Fan_info.indirect_cell, Fan_info.zero, FanArray.zero, Prod.mk.injEq] at this
    exact this

/-- Witness of C5: one remote read of a record owned by thread 0, read by
thread 1, on the zero matrices. -/
theorem indirect_unchanged_below_threshold_witness :
    ∃ f', fan_run Fan_info.zero [(heap_zero, 1)] = some f'
      ∧ ∀ a b, f'.indirect_alu_array a b = 0 ∧ f'.indirect_reg_array a b = 0
        ∧ f'.indirect_mem_array a b = 0 ∧ f'.indirect_count a b = 0 :=
  indirect_unchanged_below_threshold.2 [(heap_zero, 1)] (by decide) (by decide)

/-- C6: for every call to `handle_fan_info` and every cell `[a][b]` of each of
the four indirect matrices, the value after the call is greater than or equal
to the value before the call. -/
theorem indirect_monotone (sinfo : Store_info) (finfo f' : Fan_info) (in_ : Int)
    (h : handle_fan_info sinfo finfo in_ = some f') (a b : Fin MAX_THREADS) :
    finfo.indirect_alu_array a b ≤ f'.indirect_alu_array a b
    ∧ finfo.indirect_reg_array a b ≤ f'.indirect_reg_array a b
    ∧ finfo.indirect_mem_array a b ≤ f'.indirect_mem_array a b
    ∧ finfo.indirect_count a b ≤ f'.indirect_count a b := by
  cases hout : index? MAX_THREADS sinfo.thread_no with
  | none => simp [handle_fan_info, hout] at h
  | some out =>
    cases hin : index? MAX_THREADS in_ with
    | none => simp [handle_fan_info, hout, hin] at h
    | some i =>
      obtain ⟨f'', hf'', -, hi⟩ := handle_fan_info_spec sinfo finfo in_ out i hout hin
      rw [h] at hf''
      simp only [Option.some.injEq] at hf''
      subst hf''
      have := hi a b
      simp only [Fan_info.indirect_cell] at this
      split_ifs at this
      · simp only [fan_raised, Prod.mk.injEq] at this
        obtain ⟨h1, h2, h3, h4⟩ := this
        rw [h1, h2, h3, h4]
        exact ⟨le_max_left _ _, le_max_left _ _, le_max_left _ _, le_max_left _ _⟩
      · simp only [Prod.mk.injEq] at this
        obtain ⟨h1, h2, h3, h4⟩ := this
        rw [h1, h2, h3, h4]
        exact ⟨le_refl _, le_refl _, le_refl _, le_refl _⟩

/-- Witness of C6: a remote read of a record of thread 0 by thread 1 on the
zero matrices. -/
theorem indirect_monotone_witness :
    ∃ f', handle_fan_info heap_zero Fan_info.zero 1 = some f'
      ∧ Fan_info.zero.indirect_count 0 1 ≤ f'.indirect_count 0 1 := by
  obtain ⟨f', hf', -⟩ := handle_fan_info_spec heap_zero Fan_info.zero 1 0 1 (by decide)
    (by decide)
  exact ⟨f', hf', (indirect_monotone heap_zero Fan_info.zero f' 1 hf' 0 1).2.2.2⟩

/-- C7: for every call `handle_fan_info(sinfo, finfo, in)` in which
`direct_count[out][in]` exceeds 100 after the increment, and every thread `j`:
if the snapshot's `direct_count[j][out]` or `indirect_count[j][out]` exceeds
100, each of the four indirect cells `[j][in]` becomes the maximum of its old
value and 0.8 times the sum of the snapshot's direct and indirect entries
`[j][out]` of the same matrix; otherwise the four cells `[j][in]` are
unchanged. -/
theorem indirect_raised_above_threshold (sinfo : Store_info) (finfo : Fan_info) (in_ : Int)
    (out i : Fin MAX_THREADS) (hout : index? MAX_THREADS sinfo.thread_no = some out)
    (hin : index? MAX_THREADS in_ = some i)
    (hthr : finfo.direct_count out i + 1 > REMOTE_THRESHOLD) :
    ∃ f', handle_fan_info sinfo finfo in_ = some f'
      ∧ f'.direct_count out i = finfo.direct_count out i + 1
      ∧ ∀ j : Fin MAX_THREADS,
        ((sinfo.fan_info.direct_count j out > 100 ∨ sinfo.fan_info.indirect_count j out > 100) →
          f'.indirect_alu_array j i = max (finfo.indirect_alu_array j i)
              (8 / 10 * (sinfo.fan_info.direct_alu_array j out
                + sinfo.fan_info.indirect_alu_array j out))
          ∧ f'.indirect_reg_array j i = max (finfo.indirect_reg_array j i)
              (8 / 10 * (sinfo.fan_info.direct_reg_array j out
                + sinfo.fan_info.indirect_reg_array j out))
          ∧ f'.indirect_mem_array j i = max (finfo.indirect_mem_array j i)
              (8 / 10 * (sinfo.fan_info.direct_mem_array j out
                + sinfo.fan_info.indirect_mem_array j out))
          ∧ f'.indirect_count j i = max (finfo.indirect_count j i)
              (8 / 10 * (sinfo.fan_info.direct_count j out
                + sinfo.fan_info.indirect_count j out)))
        ∧ (¬ (sinfo.fan_info.direct_count j out > 100
              ∨ sinfo.fan_info.indirect_count j out > 100) →
          f'.indirect_alu_array j i = finfo.indirect_alu_array j i
          ∧ f'.indirect_reg_array j i = finfo.indirect_reg_array j i
          ∧ f'.indirect_mem_array j i = finfo.indirect_mem_array j i
          ∧ f'.indirect_count j i = finfo.indirect_count j i) := by
  obtain ⟨f', hf', hd, hi⟩ := handle_fan_info_spec sinfo finfo in_ out i hout hin
  refine ⟨f', hf', ?_, ?_⟩
  · have := hd out i
    simp only [Fan_info.direct_cell, fan_direct_added, and_self, if_true, Prod.mk.injEq] at this
    exact this.2.2.2
  · intro j
    have hj := hi j i
    simp only [Fan_info.indirect_cell, hthr, true_and] at hj
    constructor
    · intro hg
      have hg' : fan_gate sinfo out j := hg
      simp only [hg', if_true, fan_raised, Prod.mk.injEq, PWEIGHT] at hj
      exact hj
    · intro hg
      have hg' : ¬ fan_gate sinfo out j := hg
      simp only [hg', if_false, Prod.mk.injEq] at hj
      exact hj

/-- Witness of C7: a record of thread 0 whose snapshot holds 101 in every cell,
read by thread 1 when every cell of the matrices holds 100. -/
theorem indirect_raised_above_threshold_witness :
    ∃ f', handle_fan_info { heap_zero with fan_info := Fan_info.const 101 }
        (Fan_info.const 100) 1 = some f'
      ∧ f'.indirect_count 2 1 = max 100 (8 / 10 * (101 + 101)) := by
  obtain ⟨f', hf', -, h⟩ := indirect_raised_above_threshold
    { heap_zero with fan_info := Fan_info.const 101 } (Fan_info.const 100) 1 0 1
    (by decide) (by decide) (by decide!)
  exact ⟨f', hf', ((h 2).1 (Or.inl (by decide!))).2.2.2⟩

/-- C8: for every call `handle_fan_info(sinfo, finfo, in)` with owner `out`,
the direct ALU/register/memory cells `[out][in]` increase by exactly the
store's `alu_lvf`/`reg_lvf`/`mem_lvf`, `direct_count[out][in]` increases by
exactly 1, and every other cell of the four direct matrices is unchanged. -/
theorem direct_cells_updated (sinfo : Store_info) (finfo : Fan_info) (in_ : Int)
    (out i : Fin MAX_THREADS) (hout : index? MAX_THREADS sinfo.thread_no = some out)
    (hin : index? MAX_THREADS in_ = some i) :
    ∃ f', handle_fan_info sinfo finfo in_ = some f'
      ∧ f'.direct_alu_array out i = finfo.direct_alu_array out i + sinfo.alu_lvf
      ∧ f'.direct_reg_array out i = finfo.direct_reg_array out i + sinfo.reg_lvf
      ∧ f'.direct_mem_array out i = finfo.direct_mem_array out i + sinfo.mem_lvf
      ∧ f'.direct_count out i = finfo.direct_count out i + 1
      ∧ ∀ a b, ¬ (a = out ∧ b = i) →
        f'.direct_alu_array a b = finfo.direct_alu_array a b
        ∧ f'.direct_reg_array a b = finfo.direct_reg_array a b
        ∧ f'.direct_mem_array a b = finfo.direct_mem_array a b
        ∧ f'.direct_count a b = finfo.direct_count a b := by
  obtain ⟨f', hf', hd, -⟩ := handle_fan_info_spec sinfo finfo in_ out i hout hin
  have h1 := hd out i
  simp only [Fan_info.direct_cell, fan_direct_added, and_self, if_true, Prod.mk.injEq] at h1
  refine ⟨f', hf', h1.1, h1.2.1, h1.2.2.1, h1.2.2.2, ?_⟩
  intro a b hab
  have h2 := hd a b
  simp only [Fan_info.direct_cell, hab, if_false, Prod.mk.injEq] at h2
  exact h2

/-- Witness of C8: a record of thread 0 read by thread 1 on the zero matrices. -/
theorem direct_cells_updated_witness :
    ∃ f', handle_fan_info heap_zero Fan_info.zero 1 = some f'
      ∧ f'.direct_count 0 1 = Fan_info.zero.direct_count 0 1 + 1 := by
  obtain ⟨f', hf', -, -, -, hc, -⟩ := direct_cells_updated heap_zero Fan_info.zero 1 0 1
    (by decide) (by decide)
  exact ⟨f', hf', hc⟩

/-- C9, the code at the failing input: thread 0 has no remote sample
(`remote_count = 0`), `instr_num = 2` and `alu_vul = 2`, so its ALU local
factor is 1; the write stores the ALU total factor 0.5, the local factor
weighted by 0.5, not by 1. -/
theorem write_without_remote_sample_halves_lvf :
    (engine_two_alu.threads 0).remote_count = 0
    ∧ (engine_two_alu.threads 0).instr_num = 2
    ∧ calculate_lvf (engine_two_alu.threads 0).alu_vul (engine_two_alu.threads 0).instr_num 1 = 1
    ∧ (written_store_info engine_two_alu (mem_event 0 1 4096 0) 0 heap_zero).alu_tvf = 1 / 2
    ∧ (text_trace_data engine_two_alu (mem_event 0 1 4096 0) heap_zero).map
        (fun b => strmap_value b.memory_store (fmt_llx 4096))
      = some (some ("0+0.500000+0.000000+0.000000+0.000000+0.000000+0.000000"
          ++ "+2.000000+0.000000+0.000000+2+0+0+0+0+0+0+0").toList) := by
  decide!

/-- The factors a write stores when the local `temp2` is `NULL` at the store
branch: the event stores the text of the record `written_store_info`; when
`instr_num ≠ 0` and `remote_count ≥ 1` its register factor is
`0.5 × reg_vul / (instr_num × max(1, keys of the register ledger))
+ 0.5 × rem_reg_vul / remote_count`, likewise the memory factor with `mem_vul`
and the memory ledger, and the ALU factor with `alu_vul` and resource count 1;
when `instr_num = 0` all three are 0. -/
theorem write_tvf_null_temp2 (bt : base_trace) (ent : trace_entry) (heap : Store_info)
    (w : Fin MAX_THREADS) (hcpu : ent.cpu_no = (w.val : Int))
    (hactive : (bt.cores (Fin.castLE (by decide) w)).active ≠ 0)
    (hkind : ent.read_or_write = 1) (htemp2 : data_temp2 bt ent = .null)
    (hreg : StrMapInv (bt.threads w).register_vul)
    (hmem : StrMapInv (bt.threads w).memory_vul) :
    text_trace_data bt ent heap
        = (storeToString (written_store_info bt ent w heap) 50000).map
          (fun info => { text_trace_data_enter bt ent.cpu_no with
            memory_store :=
              strmap_put (text_trace_data_enter bt ent.cpu_no).memory_store
                (fmt_llx ent.pa) info })
    ∧ ((bt.threads w).instr_num ≠ 0 → 1 ≤ (bt.threads w).remote_count →
        (written_store_info bt ent w heap).reg_tvf
          = 1 / 2 * ((bt.threads w).reg_vul / (((bt.threads w).instr_num : ℚ)
              * max 1 ((strmap_keys (bt.threads w).register_vul).length : ℚ)))
            + 1 / 2 * ((bt.threads w).rem_reg_vul / ((bt.threads w).remote_count : ℚ))
        ∧ (written_store_info bt ent w heap).mem_tvf
          = 1 / 2 * ((bt.threads w).mem_vul / (((bt.threads w).instr_num : ℚ)
              * max 1 ((strmap_keys (bt.threads w).memory_vul).length : ℚ)))
            + 1 / 2 * ((bt.threads w).rem_mem_vul / ((bt.threads w).remote_count : ℚ))
        ∧ (written_store_info bt ent w heap).alu_tvf
          = 1 / 2 * ((bt.threads w).alu_vul / (((bt.threads w).instr_num : ℚ) * 1))
            + 1 / 2 * ((bt.threads w).rem_alu_vul / ((bt.threads w).remote_count : ℚ)))
    ∧ ((bt.threads w).instr_num = 0 →
        (written_store_info bt ent w heap).reg_tvf = 0
        ∧ (written_store_info bt ent w heap).mem_tvf = 0
        ∧ (written_store_info bt ent w heap).alu_tvf = 0) := by
  have hsize : ∀ m : StrMap, StrMapInv m →
      (((if strmap_get_count m = 0 then 1 else strmap_get_count m : Int)) : ℚ)
        = max 1 ((strmap_keys m).length : ℚ) := by
    intro m hm
    rw [strmap_keys_length m hm]
    by_cases h0 : (strmap_keys m).length = 0
    · simp [h0]
    · have h1 : (1 : ℚ) ≤ ((strmap_keys m).length : ℚ) := by
        have : 1 ≤ (strmap_keys m).length := by omega
        exact_mod_cast this
      have h2 : ¬ (((strmap_keys m).length : Int) = 0) := by omega
      rw [if_neg h2, max_eq_right h1]
      simp
  have hth := (text_trace_data_enter_threads bt ent.cpu_no).1
  have hsi : written_store_info bt ent w heap
      = write_store_info (text_trace_data_enter bt ent.cpu_no) w none heap := by
    unfold written_store_info
    rw [htemp2]
    rfl
  have htvf : (written_store_info bt ent w heap).alu_tvf = (write_tvf (bt.threads w) none).1
      ∧ (written_store_info bt ent w heap).reg_tvf = (write_tvf (bt.threads w) none).2.1
      ∧ (written_store_info bt ent w heap).mem_tvf = (write_tvf (bt.threads w) none).2.2 := by
    rw [hsi]
    unfold write_store_info
    rw [hth]
    exact ⟨rfl, rfl, rfl⟩
  obtain ⟨ha, hr, hm⟩ := htvf
  refine ⟨?_, ?_, ?_⟩
  · rw [text_trace_data_active bt ent heap w hcpu hactive]
    have h0 : ¬ ent.read_or_write = 0 := by rw [hkind]; decide
    rw [if_neg h0, if_pos hkind]
    unfold text_trace_data_store
    have hno : ¬ (data_temp2 bt ent = stack_ptr.other
        ∧ ((text_trace_data_enter bt ent.cpu_no).threads w).instr_num ≠ 0) := by
      rw [htemp2]
      intro h
      cases h.1
    rw [if_neg hno]
    dsimp only
    unfold written_store_info
    cases storeToString
      (write_store_info (text_trace_data_enter bt ent.cpu_no) w
        (temp2_thread (text_trace_data_enter bt ent.cpu_no) (data_temp2 bt ent)) heap)
      50000 <;> rfl
  · intro hi hrc
    have hrc' : (bt.threads w).remote_count ≠ 0 := by omega
    rw [ha, hr, hm, write_tvf_none]
    simp only [hi, ne_eq, not_false_eq_true, if_true, hrc', hsize _ hreg, hsize _ hmem]
    exact ⟨trivial, trivial, trivial⟩
  · intro hi
    rw [ha, hr, hm, write_tvf_none]
    simp only [hi, ne_eq, not_true_eq_false, if_false]
    exact ⟨trivial, trivial, trivial⟩

/-- C10 fails in the code. From the fresh engine: thread 1 writes address
`0x1000` and thread 0 reads it (one remote sample, remote sums 0), thread 0
executes two `nop`; the redundant region is switched on for thread 0, which
executes `add 1, 2` twice and reads address `0x2000`; the region is switched
off. Thread 0 is then outside the region at instruction 4 with `alu_vul = 2`
and `remote_count = 1`, so the claimed ALU factor is
`0.5 × 2 / (4 × 1) + 0.5 × 0 / 1 = 1 / 4`, and the redundant-region thread is at
instruction 2 with `alu_vul = 2`. A write by thread 0 stores the factor `1 / 4`
only if the uninitialised local `temp2` happens to be `NULL`; if it holds the
address of `bt->rr_thread`, the value the guard stored in it during the read
inside the region, the factor is taken from `rr_thread` and squared:
`0.5 × (2 / (2 × 1))² + 0 = 1 / 2`, and this is the value read back from the
store ledger. -/
theorem write_reads_uninitialised_temp2 :
    (engine_run base_trace_new_instance
        [.set_cpu_active 0 1, .set_cpu_active 1 1,
          .trace (mem_event 1 1 4096 0) heap_zero, .trace (mem_event 0 0 4096 0) heap_zero,
          .trace (instr_event 0 "nop") heap_zero, .trace (instr_event 0 "nop") heap_zero,
          .set_redundant_thread 0, .set_redundant_region 1,
          .trace (instr_event 0 "add 1, 2") heap_zero,
          .trace (instr_event 0 "add 1, 2") heap_zero,
          .trace (mem_event 0 0 8192 0) heap_zero, .set_redundant_region 0]).map
      (fun b => (in_region b 0, (b.threads 0).instr_num, (b.threads 0).remote_count,
        (b.threads 0).alu_vul))
      = some (false, 4, 1, 2)
    ∧ (engine_run base_trace_new_instance
        [.set_cpu_active 0 1, .set_cpu_active 1 1,
          .trace (mem_event 1 1 4096 0) heap_zero, .trace (mem_event 0 0 4096 0) heap_zero,
          .trace (instr_event 0 "nop") heap_zero, .trace (instr_event 0 "nop") heap_zero,
          .set_redundant_thread 0, .set_redundant_region 1,
          .trace (instr_event 0 "add 1, 2") heap_zero,
          .trace (instr_event 0 "add 1, 2") heap_zero,
          .trace (mem_event 0 0 8192 0) heap_zero, .set_redundant_region 0]).map
      (fun b => ((b.threads 0).rem_alu_vul, b.rr_thread.instr_num, b.rr_thread.alu_vul))
      = some (0, 2, 2)
    ∧ (engine_run base_trace_new_instance
        [.set_cpu_active 0 1, .set_cpu_active 1 1,
          .trace (mem_event 1 1 4096 0) heap_zero, .trace (mem_event 0 0 4096 0) heap_zero,
          .trace (instr_event 0 "nop") heap_zero, .trace (instr_event 0 "nop") heap_zero,
          .set_redundant_thread 0, .set_redundant_region 1,
          .trace (instr_event 0 "add 1, 2") heap_zero,
          .trace (instr_event 0 "add 1, 2") heap_zero,
          .trace (mem_event 0 0 8192 0) heap_zero, .set_redundant_region 0]).map
      (fun b =>
        ((written_store_info b (mem_event 0 1 12288 0) 0 heap_zero).alu_tvf,
          (written_store_info b { mem_event 0 1 12288 0 with temp2 := .rr_thread } 0
            heap_zero).alu_tvf))
      = some (1 / 4, 1 / 2)
    ∧ ((engine_run base_trace_new_instance
        [.set_cpu_active 0 1, .set_cpu_active 1 1,
          .trace (mem_event 1 1 4096 0) heap_zero, .trace (mem_event 0 0 4096 0) heap_zero,
          .trace (instr_event 0 "nop") heap_zero, .trace (instr_event 0 "nop") heap_zero,
          .set_redundant_thread 0, .set_redundant_region 1,
          .trace (instr_event 0 "add 1, 2") heap_zero,
          .trace (instr_event 0 "add 1, 2") heap_zero,
          .trace (mem_event 0 0 8192 0) heap_zero, .set_redundant_region 0,
          .trace { mem_event 0 1 12288 0 with temp2 := .rr_thread } heap_zero]).bind
        (fun b => (strmap_get b.memory_store (fmt_llx 12288) 50000).bind
          (fun buf => stringToStore buf heap_zero))).map (fun si => si.alu_tvf)
      = some (1 / 2)
    ∧ (1 / 2 : ℚ) ≠ 1 / 2 * (2 / ((4 : ℚ) * 1)) + 1 / 2 * (0 / 1) := by
  decide!

/-! ## Lookup and key count after a sequence of puts -/

theorem strmap_value_puts (ops : List (CStr × CStr)) : ∀ (m : StrMap) (key : CStr),
    strmap_value (strmap_puts m ops) key
      = match last_put ops key with
        | some v => some v
        | none => strmap_value m key := by
  induction ops with
  | nil => intro m key; rfl
  | cons kv rest ih =>
    intro m key
    have h : strmap_puts m (kv :: rest) = strmap_puts (strmap_put m kv.1 kv.2) rest := rfl
    rw [h, ih, strmap_value_put]
    simp only [last_put]
    cases last_put rest key with
    | some v => rfl
    | none =>
      by_cases hk : key = kv.1
      · simp [hk]
      · have hk' : ¬ kv.1 = key := fun e => hk e.symm
        simp [hk, hk']

theorem last_put_eq_none_iff (ops : List (CStr × CStr)) (key : CStr) :
    last_put ops key = none ↔ key ∉ ops.map Prod.fst := by
  induction ops with
  | nil => simp [last_put]
  | cons kv rest ih =>
    simp only [last_put, List.map_cons, List.mem_cons, not_or]
    cases h : last_put rest key with
    | some v =>
      have hmem : key ∈ rest.map Prod.fst := by
        by_contra hn
        rw [← ih] at hn; rw [hn] at h; cases h
      constructor
      · intro e; cases e
      · intro hn; exact absurd hmem hn.2
    | none =>
      have hn : key ∉ rest.map Prod.fst := ih.1 h
      by_cases hk : kv.1 = key
      · simp [hk]
      · have hk' : ¬ key = kv.1 := fun e => hk e.symm
        simp [hk, hk', hn]

theorem strmap_put_size (m : StrMap) (k v : CStr) :
    strmap_get_count (strmap_put m k v)
      = strmap_get_count m + if strmap_value m k = none then 1 else 0 := by
  unfold strmap_get_count strmap_value strmap_put
  cases h : get_pair (m.buckets (hash k % m.count)) k <;> simp [h]

theorem strmap_puts_snoc (m : StrMap) (ops : List (CStr × CStr)) (kv : CStr × CStr) :
    strmap_puts m (ops ++ [kv]) = strmap_put (strmap_puts m ops) kv.1 kv.2 := by
  unfold strmap_puts
  rw [List.foldl_append]
  rfl

theorem strmap_count_distinct (cap : Nat) (ops : List (CStr × CStr)) :
    strmap_get_count (strmap_puts (strmap_new cap) ops)
      = (((ops.map Prod.fst).toFinset.card : Nat) : Int) := by
  induction ops using List.reverseRecOn with
  | nil => simp [strmap_puts, strmap_get_count, strmap_new]
  | append_singleton ops kv ih =>
    rw [strmap_puts_snoc, strmap_put_size, ih, strmap_value_puts, strmap_value_new]
    simp only [List.map_append, List.map_cons, List.map_nil, List.toFinset_append,
      List.toFinset_cons, List.toFinset_nil, insert_emptyc_eq]
    by_cases hk : kv.1 ∈ ops.map Prod.fst
    · have hl : last_put ops kv.1 ≠ none := fun e => (last_put_eq_none_iff ops kv.1).1 e hk
      have hsub : (ops.map Prod.fst).toFinset ∪ {kv.1} = (ops.map Prod.fst).toFinset := by
        apply Finset.union_eq_left.2
        intro x hx
        simp only [Finset.mem_singleton] at hx
        subst hx
        exact List.mem_toFinset.2 hk
      rw [hsub]
      cases hlp : last_put ops kv.1 with
      | none => exact absurd hlp hl
      | some v => simp
    · have hl : last_put ops kv.1 = none := (last_put_eq_none_iff ops kv.1).2 hk
      have hdisj : Disjoint (ops.map Prod.fst).toFinset {kv.1} := by
        rw [Finset.disjoint_singleton_right]
        exact fun h => hk (List.mem_toFinset.1 h)
      rw [hl, Finset.card_union_of_disjoint hdisj]
      simp

/-! ## Memory events: closed forms -/

theorem put_to_char_map_eq (m m' : StrMap) (k : CStr) (ty : ValType) (v : ty.carrier)
    (h : put_to_char_map m k ty v = some m') :
    m' = strmap_put m k (ty.format v) ∧ (ty.format v).length < 50 := by
  unfold put_to_char_map sprintf_buf at h
  split_ifs at h with hlen
  simp only [Option.some.injEq] at h
  exact ⟨h.symm, hlen⟩

theorem load_hit_record_spec (t t' : thread_t) (mem_a : CStr) (s s' : Int)
    (h : load_hit_record t mem_a s = some (t', s')) :
    s' = s ∧ t' = { t with memory_load := strmap_put t.memory_load mem_a (fmt_lld t.instr_num) } := by
  unfold load_hit_record at h
  split at h
  · cases h
  · rename_i load hput
    simp only [Option.some.injEq, Prod.mk.injEq] at h
    obtain ⟨hm, -⟩ := put_to_char_map_eq _ _ _ _ _ hput
    refine ⟨h.2.symm, ?_⟩
    rw [← h.1, hm]
    rfl

theorem load_hit_tail_spec (t t' : thread_t) (mem_a : CStr) (b s' : Int) (old : ℚ)
    (h : (if ((t.instr_num - b : Int) : ℚ) ≠ 0 then
          match put_to_char_map t.memory_vul mem_a .DOUBLE_TYPE
            (((t.instr_num - b : Int) : ℚ) + old) with
          | none => none
          | some vul =>
            load_hit_record
              { t with
                mem_live_area := t.mem_live_area + 1
                mem_vul := t.mem_vul + ((t.instr_num - b : Int) : ℚ)
                memory_vul := vul }
              mem_a b
        else load_hit_record t mem_a b) = some (t', s')) :
    s' = b
    ∧ t' = { t with
        mem_live_area := if t.instr_num - b ≠ 0 then t.mem_live_area + 1 else t.mem_live_area
        mem_vul := t.mem_vul + ((t.instr_num - b : Int) : ℚ)
        memory_vul :=
          if t.instr_num - b ≠ 0 then
            strmap_put t.memory_vul mem_a (fmt_f (((t.instr_num - b : Int) : ℚ) + old))
          else t.memory_vul
        memory_load := strmap_put t.memory_load mem_a (fmt_lld t.instr_num) } := by
  by_cases hz : ((t.instr_num - b : Int) : ℚ) ≠ 0
  · have hz' : t.instr_num - b ≠ 0 := by
      intro e; apply hz; rw [e]; simp
    rw [if_pos hz] at h
    split at h
    · cases h
    · rename_i vul hput
      obtain ⟨hs, ht⟩ := load_hit_record_spec _ _ _ _ _ h
      obtain ⟨hv, -⟩ := put_to_char_map_eq _ _ _ _ _ hput
      refine ⟨hs, ?_⟩
      rw [ht, hv, if_pos hz', if_pos hz']
      rfl
  · have hz' : ¬ (t.instr_num - b ≠ 0) := by
      intro e; apply hz
      exact_mod_cast e
    rw [if_neg hz] at h
    obtain ⟨hs, ht⟩ := load_hit_record_spec _ _ _ _ _ h
    refine ⟨hs, ?_⟩
    rw [ht, if_neg hz', if_neg hz']
    have h0 : ((t.instr_num - b : Int) : ℚ) = 0 := by
      push_neg at hz; exact hz
    rw [h0, add_zero]

/-- The cache-hit block: the window charged is the distance from the baseline
to the reader's instruction number, the load is recorded, and no other field
of the thread changes. -/
theorem load_hit_spec (t t' : thread_t) (mem_a : CStr) (s s' : Int)
    (h : load_hit t mem_a s = some (t', s')) :
    s' = load_baseline t mem_a s ∧ t' = load_hit_thread t mem_a s := by
  unfold load_hit_thread
  unfold load_hit at h
  cases h1 : get_from_char_map t.memory_load mem_a .LONG_LONG_TYPE with
  | none => simp [h1] at h
  | some result =>
    cases h2 : get_from_char_map t.memory_vul mem_a .DOUBLE_TYPE with
    | none => simp [h1, h2] at h
    | some old =>
      simp only [h1, h2] at h
      cases result with
      | none =>
        have hb : load_baseline t mem_a s = s := by simp [load_baseline, h1]
        cases old with
        | none =>
          have ho : load_old_value t mem_a = 0 := by simp [load_old_value, h2]
          rw [hb, ho]
          exact load_hit_tail_spec t t' mem_a s s' 0 h
        | some o =>
          have ho : load_old_value t mem_a = o := by simp [load_old_value, h2]
          rw [hb, ho]
          exact load_hit_tail_spec t t' mem_a s s' o h
      | some l =>
        have hb : load_baseline t mem_a s = if l > s then l else s := by
          simp [load_baseline, h1]
        cases old with
        | none =>
          have ho : load_old_value t mem_a = 0 := by simp [load_old_value, h2]
          rw [hb, ho]
          exact load_hit_tail_spec t t' mem_a _ s' 0 h
        | some o =>
          have ho : load_old_value t mem_a = o := by simp [load_old_value, h2]
          rw [hb, ho]
          exact load_hit_tail_spec t t' mem_a _ s' o h

theorem remote_vulnerability_put_spec (t t' : thread_t) (st : Int) (a r m : ℚ) (c : Int)
    (h : remote_vulnerability_put t st a r m c = some t') :
    ∃ m1 m2 m3 m4, t' = { t with
      remote_reg_vul := m1, remote_alu_vul := m2, remote_mem_vul := m3,
      remote_count_vul := m4 } := by
  unfold remote_vulnerability_put at h
  split at h
  · simp only [Option.some.injEq] at h
    exact ⟨_, _, _, _, h.symm⟩
  · cases h

theorem remote_vulnerability_spec (t t' : thread_t) (st : Int) (a r m : ℚ)
    (h : remote_vulnerability t st a r m = some t') :
    ∃ m1 m2 m3 m4, t' = { t with
      remote_reg_vul := m1, remote_alu_vul := m2, remote_mem_vul := m3,
      remote_count_vul := m4 } := by
  unfold remote_vulnerability at h
  repeat' split at h
  all_goals first
    | exact remote_vulnerability_put_spec _ _ _ _ _ _ _ h
    | cases h

theorem text_trace_data_remote_spec (bt bt' : base_trace) (t : Fin MAX_THREADS)
    (si : Store_info) (temp rr : thread_t)
    (h : text_trace_data_remote bt t (t.val : Int) si temp rr = some bt') :
    bt' = { bt with threads := bt'.threads, rr_thread := rr }
    ∧ (si.thread_no = (t.val : Int) → bt'.threads = Function.update bt.threads t temp)
    ∧ (si.thread_no ≠ (t.val : Int) →
        ∃ m1 m2 m3 m4 rt, index? MAX_THREADS si.thread_no = some rt ∧ rt ≠ t
          ∧ bt'.threads = Function.update
              (Function.update bt.threads t
                { remote_added temp si with
                  remote_reg_vul := m1, remote_alu_vul := m2, remote_mem_vul := m3,
                  remote_count_vul := m4 })
              rt (self_snapshot (bt.threads rt) si)) := by
  unfold text_trace_data_remote at h
  dsimp only at h
  by_cases ho : si.thread_no = (t.val : Int)
  · rw [if_neg (by simpa using ho)] at h
    simp only [Option.some.injEq] at h
    subst h
    exact ⟨rfl, fun _ => rfl, fun hne => absurd ho hne⟩
  · rw [if_pos ho] at h
    split at h
    · rename_i temp' rt hrv hrt
      simp only [Option.some.injEq] at h
      subst h
      have hne : rt ≠ t := by
        intro e
        apply ho
        rw [index?_eq_some _ _ _ hrt, e]
      obtain ⟨m1, m2, m3, m4, hm⟩ := remote_vulnerability_spec _ _ _ _ _ _ hrv
      refine ⟨rfl, fun he => absurd he ho, fun _ => ⟨m1, m2, m3, m4, rt, hrt, hne, ?_⟩⟩
      simp only [Function.update_noteq hne]
      rw [hm]
      rfl
    · cases h

/-- A load that resolves the record `si`: the reading thread first passes the
cache-hit block (when the hit flag is 1), then the remote attribution. -/
theorem text_trace_data_load_spec (bt bt' : base_trace) (t : Fin MAX_THREADS) (reg : stack_ptr)
    (mem_a buf : CStr) (hit1 : Int) (heap si : Store_info)
    (hget : strmap_get bt.memory_store mem_a 50000 = some buf)
    (hsi : stringToStore buf heap = some si)
    (h : text_trace_data_load bt t (t.val : Int) reg mem_a hit1 heap = some bt') :
    ∃ rr, text_trace_data_remote bt t (t.val : Int) si
        (if hit1 = 1 then load_hit_thread (bt.threads t) mem_a (si.instr_num t)
          else bt.threads t) rr = some bt' := by
  unfold text_trace_data_load at h
  simp only [hget, hsi] at h
  by_cases hhit : hit1 = 1
  · rw [if_pos hhit] at h
    rw [if_pos hhit]
    split at h
    · cases h
    · rename_i temp s1 hl
      obtain ⟨-, ht⟩ := load_hit_spec _ _ _ _ _ hl
      subst ht
      cases reg with
      | rr_thread =>
        dsimp only at h
        split at h
        · cases h
        · exact ⟨_, h⟩
      | null => exact ⟨_, h⟩
      | other => cases h
  · rw [if_neg hhit] at h
    rw [if_neg hhit]
    exact ⟨_, h⟩

theorem text_trace_data_enter_spec (bt : base_trace) (cpu_no : Int) :
    ∃ rr dc, text_trace_data_enter bt cpu_no = { bt with rr_thread := rr, data_count := dc } := by
  unfold text_trace_data_enter
  dsimp only
  split_ifs <;> exact ⟨_, _, rfl⟩

theorem after_events_eq (bt : base_trace) (events : List engine_event)
    (h : (engine_run bt events).isSome = true) :
    engine_run bt events = some (after_events bt events) := by
  unfold after_events
  obtain ⟨b, hb⟩ := Option.isSome_iff_exists.1 h
  rw [hb]; rfl

/-- A defined write event: the state after it is the entered state with the
text of the record put under the address. -/
theorem text_trace_data_write_spec (bt bt1 : base_trace) (wr : trace_entry)
    (heap : Store_info) (w : Fin MAX_THREADS) (hcpu : wr.cpu_no = (w.val : Int))
    (hactive : (bt.cores (Fin.castLE (by decide) w)).active ≠ 0)
    (hkind : wr.read_or_write = 1) (h : text_trace_data bt wr heap = some bt1) :
    bt1 = { text_trace_data_enter bt wr.cpu_no with
        memory_store := strmap_put bt.memory_store (fmt_llx wr.pa)
          (store_text (written_store_info bt wr w heap)) }
      ∧ (store_text (written_store_info bt wr w heap)).length < 50000 := by
  rw [text_trace_data_active bt wr heap w hcpu hactive] at h
  have h0 : ¬ wr.read_or_write = 0 := by rw [hkind]; decide
  rw [if_neg h0, if_pos hkind] at h
  unfold text_trace_data_store at h
  split_ifs at h
  dsimp only at h
  split at h
  · cases h
  · rename_i info hinfo
    simp only [Option.some.injEq] at h
    subst h
    have heq := storeToString_eq _ _ _ hinfo
    have hlen := storeToString_length _ _ _ hinfo
    have hsi : info = store_text (written_store_info bt wr w heap) := by rw [heq]; rfl
    refine ⟨?_, ?_⟩
    · rw [hsi, (text_trace_data_enter_threads bt wr.cpu_no).2.1]
    · rw [← hsi]; exact hlen

/-! ## Instruction events and engine invariants -/

theorem counters_le_refl (a : thread_t) : counters_le a a :=
  ⟨le_refl _, le_refl _, le_refl _, le_refl _, le_refl _⟩

theorem counters_le_trans {a b c : thread_t} (h1 : counters_le a b) (h2 : counters_le b c) :
    counters_le a c :=
  ⟨le_trans h1.1 h2.1, le_trans h1.2.1 h2.2.1, le_trans h1.2.2.1 h2.2.2.1,
    le_trans h1.2.2.2.1 h2.2.2.2.1, le_trans h1.2.2.2.2 h2.2.2.2.2⟩

theorem track_register_spec (t t' : thread_t) (name : CStr) (read : Int)
    (h : track_register t name read = some t') :
    ∃ v ledger, reg_vulnerability t.register_vul t.instr_num name read = some (v, ledger)
      ∧ t' = { t with
          register_vul := ledger
          reg_live_area := if read = 1 then t.reg_live_area + 1 else t.reg_live_area
          reg_vul := t.reg_vul + ((double_to_long v : Int) : ℚ) } := by
  unfold track_register at h
  split at h
  · cases h
  · rename_i v ledger hrv
    simp only [Option.some.injEq] at h
    exact ⟨v, ledger, hrv, h.symm⟩

/-- The relation between a thread before and after the tracking blocks that a
property `P` of threads is carried along every `track_register` call. -/
theorem track_registers_induct (P : thread_t → Prop) (t t' : thread_t) (d : decoded_instr)
    (hP : P t)
    (hstep : ∀ (a b : thread_t) (name : CStr) (read : Int), P a →
      track_register a name read = some b → P b)
    (h : track_registers t d = some t') : P t' := by
  unfold track_registers at h
  have h1 : ∀ (c : Prop) [Decidable c] (a b : thread_t) (name : CStr) (read : Int), P a →
      (if c then track_register a name read else some a) = some b → P b := by
    intro c _ a b name read ha hb
    split_ifs at hb
    · exact hstep a b name read ha hb
    · simp only [Option.some.injEq] at hb
      rw [← hb]; exact ha
  split at h
  · cases h
  · rename_i ta hta
    have hPa := h1 _ _ _ _ _ hP hta
    split at h
    · cases h
    · rename_i tb htb
      have hPb := h1 _ _ _ _ _ hPa htb
      exact h1 _ _ _ _ _ hPb h

theorem track_register_counters (a b : thread_t) (name : CStr) (read : Int)
    (h : track_register a name read = some b) : counters_le a b := by
  obtain ⟨v, ledger, -, hb⟩ := track_register_spec a b name read h
  subst hb
  refine ⟨le_refl _, le_refl _, ?_, le_refl _, le_refl _⟩
  by_cases hr : read = 1 <;> simp [hr]

theorem track_registers_counters (t t' : thread_t) (d : decoded_instr)
    (h : track_registers t d = some t') : counters_le t t' :=
  track_registers_induct (fun x => counters_le t x) t t' d (counters_le_refl t)
    (fun a b name read ha hb => counters_le_trans ha (track_register_counters a b name read hb)) h

theorem print_cpu_thread_counters (a : thread_t) : counters_le a (print_cpu_thread a) :=
  counters_le_refl a

theorem self_snapshot_counters (a : thread_t) (si : Store_info) :
    counters_le a (self_snapshot a si) := by
  unfold self_snapshot counters_le
  dsimp only
  split_ifs <;> exact ⟨le_refl _, le_refl _, le_refl _, le_refl _, le_refl _⟩

theorem load_hit_thread_counters (a : thread_t) (mem_a : CStr) (s : Int) :
    counters_le a (load_hit_thread a mem_a s) := by
  unfold load_hit_thread counters_le
  dsimp only
  refine ⟨le_refl _, le_refl _, le_refl _, ?_, le_refl _⟩
  split_ifs <;> omega

theorem core_state_print_cpu_thread (a : thread_t) :
    core_state (print_cpu_thread a) = core_state a := rfl

theorem core_state_self_snapshot (a : thread_t) (si : Store_info) :
    core_state (self_snapshot a si) = core_state a := by
  unfold self_snapshot core_state
  dsimp only
  split_ifs <;> rfl

theorem core_state_counters {a b : thread_t} (h : core_state b = core_state a) :
    counters_le a b := by
  unfold core_state at h
  simp only [Prod.mk.injEq] at h
  obtain ⟨h1, h2, h3, h4, h5, -⟩ := h
  exact ⟨h1.ge, h2.ge, h3.ge, h4.ge, h5.ge⟩

theorem text_trace_instruction_enter_spec (bt : base_trace) (t : Fin MAX_THREADS) (cpu : Int) :
    (text_trace_instruction_enter bt t cpu).memory_store = bt.memory_store
      ∧ core_state ((text_trace_instruction_enter bt t cpu).threads t)
          = core_state (instr_counted (bt.threads t))
      ∧ ∀ i, i ≠ t →
          core_state ((text_trace_instruction_enter bt t cpu).threads i)
            = core_state (bt.threads i) := by
  unfold text_trace_instruction_enter
  dsimp only
  by_cases hp : bt.partial_result = 1
  · rw [if_pos hp]
    refine ⟨rfl, ?_, ?_⟩
    · show core_state (print_cpu_thread (Function.update bt.threads t _ t)) = _
      rw [core_state_print_cpu_thread, Function.update_same]
      rfl
    · intro i hi
      show core_state (print_cpu_thread (Function.update bt.threads t _ i)) = _
      rw [core_state_print_cpu_thread, Function.update_noteq hi]
  · rw [if_neg hp]
    refine ⟨rfl, ?_, ?_⟩
    · show core_state (Function.update bt.threads t _ t) = _
      rw [Function.update_same]
      rfl
    · intro i hi
      show core_state (Function.update bt.threads t _ i) = _
      rw [Function.update_noteq hi]

theorem text_trace_instruction_track_spec (bt bt' : base_trace) (t : Fin MAX_THREADS)
    (region : Bool) (d : decoded_instr)
    (h : text_trace_instruction_track bt t region d = some bt') :
    bt'.memory_store = bt.memory_store
      ∧ (∀ i, i ≠ t → bt'.threads i = bt.threads i)
      ∧ track_registers
          (if d.alu then { bt.threads t with alu_vul := (bt.threads t).alu_vul + 1 }
            else bt.threads t) d = some (bt'.threads t) := by
  unfold text_trace_instruction_track at h
  dsimp only at h
  split at h
  · rename_i temp rr htemp hrr
    simp only [Option.some.injEq] at h
    subst h
    refine ⟨rfl, ?_, ?_⟩
    · intro i hi
      simp [hi]
    · simp [htemp]
  · cases h

/-- An instruction event: the store ledger is kept; either nothing changed, or
the thread of the core counted the instruction and then, when the mnemonic is
tracked, ran the tracking blocks, the other threads keeping their core state. -/
theorem text_trace_instruction_spec (bt bt' : base_trace) (ent : trace_entry)
    (h : text_trace_instruction bt ent = some bt') :
    bt'.memory_store = bt.memory_store
      ∧ (bt' = bt
        ∨ ∃ (t : Fin MAX_THREADS) (T1 : thread_t), ent.cpu_no = (t.val : Int)
            ∧ (∀ i, i ≠ t → core_state (bt'.threads i) = core_state (bt.threads i))
            ∧ core_state T1 = core_state (instr_counted (bt.threads t))
            ∧ (bt'.threads t = T1 ∨ ∃ d, track_registers T1 d = some (bt'.threads t))) := by
  unfold text_trace_instruction at h
  dsimp only at h
  split at h
  · cases h
  · rename_i core hcore
    split_ifs at h with hact
    · simp only [Option.some.injEq] at h
      subst h
      exact ⟨rfl, Or.inl rfl⟩
    · split at h
      · cases h
      · rename_i t ht
        have hcpu := index?_eq_some _ _ _ ht
        obtain ⟨hms, hct, hco⟩ := text_trace_instruction_enter_spec bt t ent.cpu_no
        split at h
        · simp only [Option.some.injEq] at h
          subst h
          exact ⟨hms, Or.inr ⟨t, _, hcpu, hco, hct, Or.inl rfl⟩⟩
        · split at h
          · cases h
          · split at h
            · simp only [Option.some.injEq] at h
              subst h
              exact ⟨hms, Or.inr ⟨t, _, hcpu, hco, hct, Or.inl rfl⟩⟩
            · rename_i d hd
              obtain ⟨h1, h2, h3⟩ := text_trace_instruction_track_spec _ _ _ _ _ h
              refine ⟨h1.trans hms, Or.inr ⟨t, _, hcpu, ?_, ?_, Or.inr ⟨d, h3⟩⟩⟩
              · intro i hi
                rw [h2 i hi]; exact hco i hi
              · rw [← hct]
                split_ifs <;> rfl

/-- A memory event: nothing the ledgers speak of changes (inactive core, load
without a record, other access kinds), or a store puts its record, or a load
resolves a record `si`. -/
theorem text_trace_data_spec (bt bt' : base_trace) (ent : trace_entry) (heap : Store_info)
    (h : text_trace_data bt ent heap = some bt') :
    (bt'.threads = bt.threads ∧ bt'.memory_store = bt.memory_store)
    ∨ (∃ w : Fin MAX_THREADS, ent.cpu_no = (w.val : Int) ∧ bt'.threads = bt.threads
        ∧ bt'.memory_store = strmap_put bt.memory_store (fmt_llx ent.pa)
            (store_text (written_store_info bt ent w heap)))
    ∨ (∃ (t : Fin MAX_THREADS) (buf : CStr) (si : Store_info), ent.cpu_no = (t.val : Int)
        ∧ strmap_get bt.memory_store (fmt_llx ent.pa) 50000 = some buf
        ∧ stringToStore buf heap = some si
        ∧ bt'.memory_store = bt.memory_store
        ∧ (si.thread_no = (t.val : Int) →
            bt'.threads = Function.update bt.threads t
              (load_thread (bt.threads t) (fmt_llx ent.pa) ent.L1_hit_or_miss (si.instr_num t)))
        ∧ (si.thread_no ≠ (t.val : Int) →
            ∃ m1 m2 m3 m4 rt, index? MAX_THREADS si.thread_no = some rt ∧ rt ≠ t
              ∧ bt'.threads = Function.update
                  (Function.update bt.threads t
                    { remote_added
                        (load_thread (bt.threads t) (fmt_llx ent.pa) ent.L1_hit_or_miss
                          (si.instr_num t)) si with
                      remote_reg_vul := m1, remote_alu_vul := m2, remote_mem_vul := m3,
                      remote_count_vul := m4 })
                  rt (self_snapshot (bt.threads rt) si))
        ∧ (ent.L1_hit_or_miss = 1 →
            ∃ r, load_hit (bt.threads t) (fmt_llx ent.pa) (si.instr_num t) = some r)) := by
  cases hcore : index? 32 ent.cpu_no with
  | none => simp [text_trace_data, hcore] at h
  | some core =>
    by_cases hact : (bt.cores core).active = 0
    · simp only [text_trace_data, hcore, hact, if_true, Option.some.injEq] at h
      subst h
      exact Or.inl ⟨rfl, rfl⟩
    · cases ht : index? MAX_THREADS ent.cpu_no with
      | none => simp [text_trace_data, hcore, hact, ht] at h
      | some t =>
        have hcpu := index?_eq_some _ _ _ ht
        have hc : core = Fin.castLE (by decide) t := by
          have := index?_castLE t
          rw [← hcpu, hcore] at this
          exact Option.some.inj this
        rw [hc] at hact
        obtain ⟨hth, hms, -⟩ := text_trace_data_enter_threads bt ent.cpu_no
        by_cases hk0 : ent.read_or_write = 0
        · rw [text_trace_data_active bt ent heap t hcpu hact, if_pos hk0] at h
          cases hget : strmap_get bt.memory_store (fmt_llx ent.pa) 50000 with
          | none =>
            rw [text_trace_data_load_absent _ _ _ _ _ _ _ (by rw [hms]; exact hget)] at h
            simp only [Option.some.injEq] at h
            subst h
            exact Or.inl ⟨hth, hms⟩
          | some buf =>
            have hget' : strmap_get (text_trace_data_enter bt ent.cpu_no).memory_store
                (fmt_llx ent.pa) 50000 = some buf := by rw [hms]; exact hget
            cases hsi : stringToStore buf heap with
            | none =>
              unfold text_trace_data_load at h
              simp [hget', hsi] at h
            | some si =>
              obtain ⟨rr, hrem⟩ := text_trace_data_load_spec _ _ _ _ _ _ _ _ _ hget' hsi h
              obtain ⟨hbt, hsame, hother⟩ := text_trace_data_remote_spec _ _ _ _ _ _ hrem
              rw [hth] at hsame hother
              refine Or.inr (Or.inr ⟨t, buf, si, hcpu, rfl, hsi, ?_, hsame, hother, ?_⟩)
              · rw [hbt]
                exact hms
              · intro hhit
                unfold text_trace_data_load at h
                simp only [hget', hsi, if_pos hhit, hth] at h
                cases hl : load_hit (bt.threads t) (fmt_llx ent.pa) (si.instr_num t) with
                | none => simp [hl] at h
                | some r => exact ⟨r, rfl⟩
        · by_cases hk1 : ent.read_or_write = 1
          · obtain ⟨hbt, -⟩ := text_trace_data_write_spec bt bt' ent heap t hcpu hact hk1 h
            refine Or.inr (Or.inl ⟨t, hcpu, ?_, ?_⟩)
            · rw [hbt]; exact hth
            · rw [hbt]
          · rw [text_trace_data_active bt ent heap t hcpu hact, if_neg hk0, if_neg hk1] at h
            simp only [Option.some.injEq] at h
            subst h
            exact Or.inl ⟨hth, hms⟩

theorem load_thread_counters (a : thread_t) (mem_a : CStr) (hit s : Int) :
    counters_le a (load_thread a mem_a hit s) := by
  unfold load_thread
  split_ifs
  · exact load_hit_thread_counters a mem_a s
  · exact counters_le_refl a

theorem text_trace_data_counters (bt bt' : base_trace) (ent : trace_entry) (heap : Store_info)
    (h : text_trace_data bt ent heap = some bt') (i : Fin MAX_THREADS) :
    counters_le (bt.threads i) (bt'.threads i) := by
  rcases text_trace_data_spec bt bt' ent heap h with ⟨hth, -⟩ | ⟨w, -, hth, -⟩ |
    ⟨t, buf, si, -, -, -, -, hsame, hother, -⟩
  · rw [hth]; exact counters_le_refl _
  · rw [hth]; exact counters_le_refl _
  · by_cases ho : si.thread_no = (t.val : Int)
    · rw [hsame ho]
      by_cases hi : i = t
      · subst hi
        rw [Function.update_same]
        exact load_thread_counters _ _ _ _
      · rw [Function.update_noteq hi]
        exact counters_le_refl _
    · obtain ⟨m1, m2, m3, m4, rt, -, hne, hth⟩ := hother ho
      rw [hth]
      by_cases hr : i = rt
      · subst hr
        rw [Function.update_same]
        exact self_snapshot_counters _ _
      · rw [Function.update_noteq hr]
        by_cases hi : i = t
        · subst hi
          rw [Function.update_same]
          refine counters_le_trans (load_thread_counters (bt.threads i) (fmt_llx ent.pa)
            ent.L1_hit_or_miss (si.instr_num i)) ?_
          refine ⟨le_refl _, le_refl _, le_refl _, le_refl _, ?_⟩
          show _ ≤ _ + 1
          omega
        · rw [Function.update_noteq hi]
          exact counters_le_refl _

theorem instr_counted_counters (a : thread_t) : counters_le a (instr_counted a) := by
  unfold instr_counted counters_le
  dsimp only
  refine ⟨?_, ?_, le_refl _, le_refl _, le_refl _⟩ <;> omega

theorem text_trace_instruction_counters (bt bt' : base_trace) (ent : trace_entry)
    (h : text_trace_instruction bt ent = some bt') (i : Fin MAX_THREADS) :
    counters_le (bt.threads i) (bt'.threads i) := by
  obtain ⟨-, hcase⟩ := text_trace_instruction_spec bt bt' ent h
  rcases hcase with hbt | ⟨t, T1, -, hother, hT1, hres⟩
  · rw [hbt]; exact counters_le_refl _
  · by_cases hi : i = t
    · subst hi
      have h1 : counters_le (bt.threads i) T1 :=
        counters_le_trans (instr_counted_counters _) (core_state_counters hT1)
      rcases hres with hT | ⟨d, hd⟩
      · rw [hT]; exact h1
      · exact counters_le_trans h1 (track_registers_counters _ _ _ hd)
    · exact core_state_counters (hother i hi)

theorem double_to_long_nonneg (q : ℚ) (h : 0 ≤ q) : 0 ≤ double_to_long q := by
  unfold double_to_long
  rw [if_pos h]
  exact Int.floor_nonneg.2 h

theorem reg_contribs_nonneg (hist : List (Int × CStr × Int)) :
    ∀ (B : Nat) (m : StrMap) (lo : Int), LedgerOK B m →
      (∀ name k, ledger_instr m name = some k → k ≤ lo) →
      (∀ a ∈ hist, lo ≤ a.1) →
      hist.Pairwise (fun x y => x.1 ≤ y.1) →
      (∀ a ∈ hist, -2 ^ 63 ≤ a.1 ∧ a.1 < 2 ^ 63) →
      B + hist.length * (2 ^ 64 + 1) + 2 ^ 64 + 2 < 10 ^ 40 →
      ∃ cs, reg_contribs m hist = some cs ∧ cs.length = hist.length
        ∧ ∀ c ∈ cs, 0 ≤ c := by
  induction hist with
  | nil =>
    intro B m lo _ _ _ _ _ _
    exact ⟨[], rfl, rfl, fun c hc => absurd hc (List.not_mem_nil c)⟩
  | cons a rest ih =>
    intro B m lo hm hlo hge hsort hr hB
    simp only [List.length_cons] at hB
    obtain ⟨m1, h1, hok1, hli1⟩ := reg_vulnerability_step B m a.1 a.2.1 a.2.2 hm
      (hr a (List.mem_cons_self _ _)) (by omega)
    have hsort' := List.pairwise_cons.1 hsort
    obtain ⟨cs, h2, hlen, hcs⟩ := ih (B + 2 ^ 64 + 1) m1 a.1 hok1
      (by
        intro name k hk
        rw [hli1 name] at hk
        by_cases hn : name = a.2.1
        · rw [if_pos hn] at hk
          exact (Option.some.inj hk).ge
        · rw [if_neg hn] at hk
          exact le_trans (hlo name k hk) (hge a (List.mem_cons_self _ _)))
      (fun x hx => hsort'.1 x hx) hsort'.2
      (fun x hx => hr x (List.mem_cons_of_mem _ hx)) (by omega)
    refine ⟨(if a.2.2 = 1 then
        (match ledger_instr m a.2.1 with
          | some k => ((a.1 - k : Int) : ℚ)
          | none => 0)
        else 0) :: cs, ?_, ?_, ?_⟩
    · simp only [reg_contribs, h1, h2]
    · simp only [List.length_cons, hlen]
    · intro c hc
      rcases List.mem_cons.1 hc with rfl | hc
      · split_ifs
        · cases hk : ledger_instr m a.2.1 with
          | none => exact le_refl _
          | some k =>
            have := le_trans (hlo _ k hk) (hge a (List.mem_cons_self _ _))
            show (0 : ℚ) ≤ ((a.1 - k : Int) : ℚ)
            exact_mod_cast (by omega : 0 ≤ a.1 - k)
        · exact le_refl _
      · exact hcs c hc

theorem strtok_r_nil (s : CStr) (h : s ≠ []) : strtok_r [] s = some (s, []) := by
  unfold strtok_r
  have h1 : s.dropWhile (fun c => decide (c ∈ ([] : CStr))) = s := by
    cases s with
    | nil => rfl
    | cons c cs => simp [List.dropWhile]
  have h2 : s.takeWhile (fun c => !decide (c ∈ ([] : CStr))) = s := by
    simp
  have h3 : s.dropWhile (fun c => !decide (c ∈ ([] : CStr))) = [] := by
    simp
  simp only [h1, h2, h3, h, if_false, List.drop_nil]

theorem load_baseline_le (t : thread_t) (mem_a : CStr) (s : Int) (hL : LoadLedgerInv t)
    (hs : s ≤ t.instr_num) : load_baseline t mem_a s ≤ t.instr_num := by
  unfold load_baseline
  split
  · rename_i last hget
    have hle : last ≤ t.instr_num := by
      unfold get_from_char_map at hget
      rw [strmap_get_eq] at hget
      cases hv : strmap_value t.memory_load mem_a with
      | none => simp [hv] at hget
      | some v =>
        obtain ⟨k, hk, hle⟩ := hL mem_a v hv
        simp only [hv] at hget
        split_ifs at hget
        · simp at hget
        · simp only [hk, strtok_r_nil _ (fmt_lld_noPlus k).1, Option.some.injEq] at hget
          rw [← hget]
          show atoll (fmt_lld k) ≤ _
          rw [atoll_fmt_lld]
          exact hle
    split_ifs
    · exact hle
    · exact hs
  · exact hs

theorem load_thread_inv (a : thread_t) (mem_a : CStr) (hit s : Int) (hL : LoadLedgerInv a)
    (hs : s ≤ a.instr_num) :
    (load_thread a mem_a hit s).instr_num = a.instr_num
      ∧ LoadLedgerInv (load_thread a mem_a hit s)
      ∧ a.mem_vul ≤ (load_thread a mem_a hit s).mem_vul := by
  unfold load_thread
  split_ifs
  · refine ⟨rfl, ?_, ?_⟩
    · intro key v hv
      change strmap_value (strmap_put a.memory_load mem_a (fmt_lld a.instr_num)) key = some v at hv
      rw [strmap_value_put] at hv
      split_ifs at hv
      · exact ⟨a.instr_num, (Option.some.inj hv).symm, le_refl _⟩
      · exact hL key v hv
    · show a.mem_vul ≤ a.mem_vul + ((a.instr_num - load_baseline a mem_a s : Int) : ℚ)
      have := load_baseline_le a mem_a s hL hs
      have h0 : (0 : ℚ) ≤ ((a.instr_num - load_baseline a mem_a s : Int) : ℚ) := by
        exact_mod_cast (by omega : 0 ≤ a.instr_num - load_baseline a mem_a s)
      linarith
  · exact ⟨rfl, hL, le_refl _⟩

theorem store_record_instr (bt : base_trace) (key buf : CStr) (heap si : Store_info)
    (hS : StoreLedgerInv bt) (hget : strmap_get bt.memory_store key 50000 = some buf)
    (hsi : stringToStore buf heap = some si) (i : Fin MAX_THREADS) :
    si.instr_num i ≤ (bt.threads i).instr_num := by
  rw [strmap_get_eq] at hget
  cases hv : strmap_value bt.memory_store key with
  | none => simp [hv] at hget
  | some v =>
    simp only [hv] at hget
    split_ifs at hget
    simp only [Option.some.injEq] at hget
    subst hget
    obtain ⟨si0, hv0, hle⟩ := hS key v hv
    rw [hv0, stringToStore_store_text] at hsi
    simp only [Option.some.injEq] at hsi
    rw [← hsi]
    exact hle i

theorem track_registers_memory (t t' : thread_t) (d : decoded_instr)
    (h : track_registers t d = some t') :
    t'.instr_num = t.instr_num ∧ t'.memory_load = t.memory_load ∧ t'.mem_vul = t.mem_vul := by
  refine track_registers_induct
    (fun x => x.instr_num = t.instr_num ∧ x.memory_load = t.memory_load ∧ x.mem_vul = t.mem_vul)
    t t' d ⟨rfl, rfl, rfl⟩ ?_ h
  intro a b name read ha hb
  obtain ⟨v, ledger, -, hb'⟩ := track_register_spec a b name read hb
  subst hb'
  exact ha

theorem LoadLedgerInv_mono (a b : thread_t) (hl : b.memory_load = a.memory_load)
    (hi : a.instr_num ≤ b.instr_num) (h : LoadLedgerInv a) : LoadLedgerInv b := by
  intro key v hv
  rw [hl] at hv
  obtain ⟨k, hk, hle⟩ := h key v hv
  exact ⟨k, hk, le_trans hle hi⟩

theorem core_state_fields {a b : thread_t} (h : core_state b = core_state a) :
    b.instr_num = a.instr_num ∧ b.memory_load = a.memory_load ∧ b.mem_vul = a.mem_vul := by
  unfold core_state at h
  simp only [Prod.mk.injEq] at h
  exact ⟨h.1, h.2.2.2.2.2.2.1, h.2.2.2.2.2.2.2.2.1⟩

theorem thread_step_ok_of_core {a b : thread_t} (h : core_state b = core_state a)
    (hL : LoadLedgerInv a) : thread_step_ok a b := by
  obtain ⟨h1, h2, h3⟩ := core_state_fields h
  exact ⟨h1.ge, LoadLedgerInv_mono a b h2 h1.ge hL, h3.ge⟩

theorem text_trace_instruction_step_ok (bt bt' : base_trace) (ent : trace_entry)
    (hinv : EngineInv bt) (h : text_trace_instruction bt ent = some bt') (i : Fin MAX_THREADS) :
    thread_step_ok (bt.threads i) (bt'.threads i) := by
  obtain ⟨-, hcase⟩ := text_trace_instruction_spec bt bt' ent h
  rcases hcase with hbt | ⟨t, T1, -, hother, hT1, hres⟩
  · rw [hbt]
    exact ⟨le_refl _, hinv.1 i, le_refl _⟩
  · by_cases hi : i = t
    · subst hi
      obtain ⟨h1, h2, h3⟩ := core_state_fields hT1
      have hT : thread_step_ok (bt.threads i) T1 := by
        refine ⟨?_, LoadLedgerInv_mono (bt.threads i) T1 h2 ?_ (hinv.1 i), ?_⟩
        · rw [h1]; show _ ≤ _ + 1; omega
        · rw [h1]; show _ ≤ _ + 1; omega
        · rw [h3]; exact le_refl _
      rcases hres with hT' | ⟨d, hd⟩
      · rw [hT']; exact hT
      · obtain ⟨g1, g2, g3⟩ := track_registers_memory _ _ _ hd
        refine ⟨?_, LoadLedgerInv_mono T1 _ g2 g1.ge hT.2.1, ?_⟩
        · rw [g1]; exact hT.1
        · rw [g3]; exact hT.2.2
    · exact thread_step_ok_of_core (hother i hi) (hinv.1 i)

theorem text_trace_data_step_ok (bt bt' : base_trace) (ent : trace_entry) (heap : Store_info)
    (hinv : EngineInv bt) (h : text_trace_data bt ent heap = some bt') (i : Fin MAX_THREADS) :
    thread_step_ok (bt.threads i) (bt'.threads i) := by
  have hrefl : thread_step_ok (bt.threads i) (bt.threads i) :=
    ⟨le_refl _, hinv.1 i, le_refl _⟩
  rcases text_trace_data_spec bt bt' ent heap h with ⟨hth, -⟩ | ⟨w, -, hth, -⟩ |
    ⟨t, buf, si, -, hget, hsi, -, hsame, hother, -⟩
  · rw [hth]; exact hrefl
  · rw [hth]; exact hrefl
  · have hload := load_thread_inv (bt.threads t) (fmt_llx ent.pa) ent.L1_hit_or_miss
      (si.instr_num t) (hinv.1 t) (store_record_instr bt _ buf heap si hinv.2 hget hsi t)
    by_cases ho : si.thread_no = (t.val : Int)
    · rw [hsame ho]
      by_cases hi : i = t
      · subst hi
        rw [Function.update_same]
        exact ⟨hload.1.ge, hload.2.1, hload.2.2⟩
      · rw [Function.update_noteq hi]
        exact hrefl
    · obtain ⟨m1, m2, m3, m4, rt, -, hne, hth⟩ := hother ho
      rw [hth]
      by_cases hr : i = rt
      · subst hr
        rw [Function.update_same]
        exact thread_step_ok_of_core (core_state_self_snapshot _ _) (hinv.1 i)
      · rw [Function.update_noteq hr]
        by_cases hi : i = t
        · subst hi
          rw [Function.update_same]
          exact ⟨hload.1.ge, hload.2.1, hload.2.2⟩
        · rw [Function.update_noteq hi]
          exact hrefl

theorem text_trace_data_store_inv (bt bt' : base_trace) (ent : trace_entry) (heap : Store_info)
    (hinv : EngineInv bt) (h : text_trace_data bt ent heap = some bt') :
    ∀ key v, strmap_value bt'.memory_store key = some v →
      ∃ si : Store_info, v = store_text si ∧ ∀ i, si.instr_num i ≤ (bt.threads i).instr_num := by
  rcases text_trace_data_spec bt bt' ent heap h with ⟨-, hms⟩ | ⟨w, -, -, hms⟩ |
    ⟨t, buf, si, -, -, -, hms, -, -, -⟩
  · rw [hms]; exact hinv.2
  · intro key v hv
    rw [hms, strmap_value_put] at hv
    split_ifs at hv
    · refine ⟨_, (Option.some.inj hv).symm, ?_⟩
      intro i
      show ((text_trace_data_enter bt ent.cpu_no).threads i).instr_num ≤ _
      rw [(text_trace_data_enter_threads bt ent.cpu_no).1]
    · exact hinv.2 key v hv
  · rw [hms]; exact hinv.2

theorem EngineInv_of_steps (bt bt' : base_trace)
    (hstore : ∀ key v, strmap_value bt'.memory_store key = some v →
      ∃ si : Store_info, v = store_text si ∧ ∀ i, si.instr_num i ≤ (bt.threads i).instr_num)
    (hth : ∀ i, thread_step_ok (bt.threads i) (bt'.threads i)) : EngineInv bt' := by
  refine ⟨fun i => (hth i).2.1, ?_⟩
  intro key v hv
  obtain ⟨si, hsi, hle⟩ := hstore key v hv
  exact ⟨si, hsi, fun i => le_trans (hle i) (hth i).1⟩

/-- Every event keeps the invariant and lowers no memory accumulator. -/
theorem engine_step_inv (bt bt' : base_trace) (ev : engine_event) (hinv : EngineInv bt)
    (h : engine_step bt ev = some bt') :
    EngineInv bt' ∧ ∀ i, (bt.threads i).mem_vul ≤ (bt'.threads i).mem_vul := by
  have hkeep : ∀ b : base_trace, b.threads = bt.threads → b.memory_store = bt.memory_store →
      EngineInv b ∧ ∀ i, (bt.threads i).mem_vul ≤ (b.threads i).mem_vul := by
    intro b h1 h2
    refine ⟨⟨?_, ?_⟩, ?_⟩
    · rw [h1]; exact hinv.1
    · unfold StoreLedgerInv
      rw [h1, h2]; exact hinv.2
    · rw [h1]; exact fun i => le_refl _
  cases ev with
  | trace ent heap =>
    simp only [engine_step] at h
    unfold text_tracer at h
    split at h
    · exact ⟨EngineInv_of_steps bt bt' (text_trace_data_store_inv bt bt' ent heap hinv h)
        (text_trace_data_step_ok bt bt' ent heap hinv h),
        fun i => (text_trace_data_step_ok bt bt' ent heap hinv h i).2.2⟩
    · simp only [text_trace_exception, Option.some.injEq] at h
      subst h
      exact hkeep _ rfl rfl
    · have hms := (text_trace_instruction_spec bt bt' ent h).1
      refine ⟨EngineInv_of_steps bt bt' ?_ (text_trace_instruction_step_ok bt bt' ent hinv h),
        fun i => (text_trace_instruction_step_ok bt bt' ent hinv h i).2.2⟩
      rw [hms]; exact hinv.2
    · simp only [Option.some.injEq] at h
      subst h
      exact hkeep _ rfl rfl
  | set_cpu_active core value =>
    simp only [engine_step, Option.some.injEq] at h
    subst h
    exact hkeep _ rfl rfl
  | set_partial_result value =>
    simp only [engine_step, Option.some.injEq] at h
    subst h
    exact hkeep _ rfl rfl
  | set_redundant_region value =>
    simp only [engine_step, Option.some.injEq] at h
    subst h
    exact hkeep _ rfl rfl
  | set_redundant_thread value =>
    simp only [engine_step, Option.some.injEq] at h
    subst h
    exact hkeep _ rfl rfl
  | set_redundant value =>
    simp only [engine_step, Option.some.injEq] at h
    subst h
    exact hkeep _ rfl rfl
  | report =>
    simp only [engine_step, Option.some.injEq] at h
    subst h
    have hcore : ∀ i, core_state ((print_results bt).threads i) = core_state (bt.threads i) :=
      fun i => rfl
    refine ⟨EngineInv_of_steps bt _ hinv.2
      (fun i => thread_step_ok_of_core (hcore i) (hinv.1 i)), fun i => le_refl _⟩

theorem EngineInv_new : EngineInv base_trace_new_instance := by
  refine ⟨?_, ?_⟩
  · intro i key v hv
    change strmap_value (strmap_new 10000) key = some v at hv
    rw [strmap_value_new] at hv
    cases hv
  · intro key v hv
    change strmap_value (strmap_new 10000) key = some v at hv
    rw [strmap_value_new] at hv
    cases hv

theorem engine_run_inv (events : List engine_event) :
    ∀ bt0 bt : base_trace, EngineInv bt0 → engine_run bt0 events = some bt → EngineInv bt := by
  induction events with
  | nil =>
    intro bt0 bt h0 h
    simp only [engine_run, Option.some.injEq] at h
    subst h
    exact h0
  | cons ev rest ih =>
    intro bt0 bt h0 h
    simp only [engine_run] at h
    split at h
    · cases h
    · rename_i bt1 h1
      exact ih bt1 bt (engine_step_inv bt0 bt1 ev h0 h1).1 h

/-! ## The claims, continued -/

/-- C16 fails as stated: the key `a` has been put with the value `hello`, yet
`strmap_get` with an output buffer of 3 bytes returns 0. -/
theorem strmap_get_small_buffer_counterexample :
    last_put [("a".toList, "hello".toList)] "a".toList = some "hello".toList
    ∧ strmap_get (strmap_puts (strmap_new 3) [("a".toList, "hello".toList)]) "a".toList 3
      = none := by
  decide

/-- C16, amended: for every map, key, sequence of `strmap_put` calls and output
buffer length `n`, `strmap_get` returns 1 and copies out the value of the most
recent `strmap_put` for the key whenever the key has been put and that value is
shorter than `n`; it returns 0 when the key was never put and also when the
value does not fit the buffer. -/
theorem strmap_get_last_put (capacity : Nat) (hcap : 0 < capacity)
    (ops : List (CStr × CStr)) (key : CStr) (n : Nat) :
    strmap_get (strmap_puts (strmap_new capacity) ops) key n
      = match last_put ops key with
        | none => none
        | some v => if v.length ≥ n then none else some v := by
  have _ := hcap
  rw [strmap_get_eq, strmap_value_puts, strmap_value_new]
  cases last_put ops key <;> rfl

/-- Witness of C16, amended: a put, an overwrite and a get with room. -/
theorem strmap_get_last_put_witness :
    strmap_get (strmap_puts (strmap_new 3)
        [("a".toList, "hello".toList), ("a".toList, "bye".toList)]) "a".toList 50
      = match last_put [("a".toList, "hello".toList), ("a".toList, "bye".toList)] "a".toList with
        | none => none
        | some v => if v.length ≥ 50 then none else some v :=
  strmap_get_last_put 3 (by decide) _ _ _

/-- C17: for every sequence of `strmap_put` calls on a fresh map,
`strmap_get_count` is the number of distinct keys put so far; a put of a new
key increases it by exactly 1 and a put of a key already present leaves it
unchanged. -/
theorem strmap_get_count_distinct (capacity : Nat) (hcap : 0 < capacity)
    (ops : List (CStr × CStr)) (key value : CStr) :
    strmap_get_count (strmap_puts (strmap_new capacity) ops)
        = (((ops.map Prod.fst).toFinset.card : Nat) : Int)
    ∧ (key ∉ ops.map Prod.fst →
        strmap_get_count (strmap_put (strmap_puts (strmap_new capacity) ops) key value)
          = strmap_get_count (strmap_puts (strmap_new capacity) ops) + 1)
    ∧ (key ∈ ops.map Prod.fst →
        strmap_get_count (strmap_put (strmap_puts (strmap_new capacity) ops) key value)
          = strmap_get_count (strmap_puts (strmap_new capacity) ops)) := by
  have _ := hcap
  refine ⟨strmap_count_distinct capacity ops, ?_, ?_⟩
  · intro hk
    rw [strmap_put_size, strmap_value_puts, strmap_value_new,
      (last_put_eq_none_iff ops key).2 hk]
    simp
  · intro hk
    rw [strmap_put_size, strmap_value_puts, strmap_value_new]
    cases h : last_put ops key with
    | none => exact absurd hk ((last_put_eq_none_iff ops key).1 h)
    | some v => simp

/-- Witness of C17: two keys, one of them put twice. -/
theorem strmap_get_count_distinct_witness :
    0 < 3 ∧
    strmap_get_count (strmap_puts (strmap_new 3)
        [("a".toList, "1".toList), ("b".toList, "2".toList), ("a".toList, "3".toList)])
      = ((([("a".toList, "1".toList), ("b".toList, "2".toList),
          ("a".toList, "3".toList)].map Prod.fst).toFinset.card : Nat) : Int) :=
  ⟨by decide, (strmap_get_count_distinct 3 (by decide)
    [("a".toList, "1".toList), ("b".toList, "2".toList), ("a".toList, "3".toList)]
    "c".toList "4".toList).1⟩

/-- C14: for every memory-read event on an address for which the store ledger
holds no record, `text_trace_data` is defined and leaves every thread (its
accumulators, counters and ledgers), the store ledger and the fan matrices
unchanged. -/
theorem read_without_record_is_noop (bt : base_trace) (ent : trace_entry) (heap : Store_info)
    (t : Fin MAX_THREADS) (hcpu : ent.cpu_no = (t.val : Int)) (hread : ent.read_or_write = 0)
    (hnone : strmap_value bt.memory_store (fmt_llx ent.pa) = none) :
    ∃ bt', text_trace_data bt ent heap = some bt'
      ∧ bt'.threads = bt.threads ∧ bt'.memory_store = bt.memory_store ∧ bt'.fan = bt.fan := by
  by_cases hactive : (bt.cores (Fin.castLE (by decide) t)).active = 0
  · exact ⟨bt, text_trace_data_inactive bt ent heap t hcpu hactive, rfl, rfl, rfl⟩
  · obtain ⟨rr, dc, henter⟩ := text_trace_data_enter_spec bt ent.cpu_no
    refine ⟨text_trace_data_enter bt ent.cpu_no, ?_, ?_, ?_, ?_⟩
    · rw [text_trace_data_active bt ent heap t hcpu hactive, if_pos hread]
      apply text_trace_data_load_absent
      rw [strmap_get_eq, henter]
      simp only [hnone]
    · rw [henter]
    · rw [henter]
    · rw [henter]

/-- Witness of C14: thread 1 reads address `0x1000` of the fresh engine. -/
theorem read_without_record_is_noop_witness :
    ∃ bt', text_trace_data engine_scenario1 (mem_event 1 0 4096 1) heap_zero = some bt'
      ∧ bt'.threads = engine_scenario1.threads
      ∧ bt'.memory_store = engine_scenario1.memory_store ∧ bt'.fan = engine_scenario1.fan :=
  read_without_record_is_noop engine_scenario1 (mem_event 1 0 4096 1) heap_zero 1 rfl rfl
    (by decide)

/-- C15 fails as stated: thread 0 writes address `0x1000` while thread 1 is at
instruction 5; thread 1 executes one more instruction and reads the address
with the cache-hit flag 0. Before the read its `mem_vul` is 0 and the window is
6 - 5 = 1; after the read `mem_vul` is still 0 and `memory_load` holds no record
of the load. -/
theorem read_miss_counterexample :
    (engine_run engine_scenario1
        [.trace (mem_event 0 1 4096 0) heap_zero, .trace (instr_event 1 "nop") heap_zero]).map
      (fun b => ((b.threads 1).mem_vul, (b.threads 1).instr_num,
        ((strmap_get b.memory_store (fmt_llx 4096) 50000).bind
          (fun buf => stringToStore buf heap_zero)).map (fun si => si.instr_num 1),
        load_baseline (b.threads 1) (fmt_llx 4096) 5))
      = some (0, 6, some 5, 5)
    ∧ (engine_run engine_scenario1
        [.trace (mem_event 0 1 4096 0) heap_zero, .trace (instr_event 1 "nop") heap_zero,
          .trace (mem_event 1 0 4096 0) heap_zero]).map
      (fun b => ((b.threads 1).mem_vul, strmap_value (b.threads 1).memory_load (fmt_llx 4096)))
      = some (0, none)
    ∧ (0 : ℚ) ≠ 0 + ((6 - 5 : Int) : ℚ) := by
  decide!

/-- C15, amended: for every memory-read event of an active thread whose address
has a store record, when the cache-hit flag is 1 the reading thread's `mem_vul`
increases by `instr_num` minus the later of the reader's instruction number at
store time and its last recorded load of the address, and the instruction
number of the load is recorded in `memory_load`; when the flag is not 1,
`mem_vul`, `mem_live_area`, `memory_vul` and `memory_load` are unchanged. -/
theorem read_closes_window_on_hit (bt bt' : base_trace) (ent : trace_entry)
    (heap : Store_info) (t : Fin MAX_THREADS) (buf : CStr) (si : Store_info)
    (hcpu : ent.cpu_no = (t.val : Int))
    (hactive : (bt.cores (Fin.castLE (by decide) t)).active ≠ 0)
    (hread : ent.read_or_write = 0)
    (hstep : text_trace_data bt ent heap = some bt')
    (hget : strmap_get bt.memory_store (fmt_llx ent.pa) 50000 = some buf)
    (hsi : stringToStore buf heap = some si) :
    (ent.L1_hit_or_miss = 1 →
      (bt'.threads t).mem_vul
          = (bt.threads t).mem_vul
            + (((bt.threads t).instr_num
                - load_baseline (bt.threads t) (fmt_llx ent.pa) (si.instr_num t) : Int) : ℚ)
      ∧ strmap_value (bt'.threads t).memory_load (fmt_llx ent.pa)
          = some (fmt_lld (bt.threads t).instr_num))
    ∧ (ent.L1_hit_or_miss ≠ 1 →
      (bt'.threads t).mem_vul = (bt.threads t).mem_vul
      ∧ (bt'.threads t).mem_live_area = (bt.threads t).mem_live_area
      ∧ (bt'.threads t).memory_vul = (bt.threads t).memory_vul
      ∧ (bt'.threads t).memory_load = (bt.threads t).memory_load) := by
  rw [text_trace_data_active bt ent heap t hcpu hactive, if_pos hread] at hstep
  obtain ⟨rr0, dc, henter⟩ := text_trace_data_enter_spec bt ent.cpu_no
  have hth : (text_trace_data_enter bt ent.cpu_no).threads = bt.threads := by rw [henter]
  have hms : (text_trace_data_enter bt ent.cpu_no).memory_store = bt.memory_store := by
    rw [henter]
  obtain ⟨rr, hrem⟩ := text_trace_data_load_spec _ bt' t _ _ buf _ heap si
    (by rw [hms]; exact hget) hsi hstep
  obtain ⟨-, hsame, hdiff⟩ := text_trace_data_remote_spec _ bt' t si _ rr hrem
  have hthread : ∃ m1 m2 m3 m4 a b c d,
      bt'.threads t = { (if ent.L1_hit_or_miss = 1 then
          load_hit_thread (bt.threads t) (fmt_llx ent.pa) (si.instr_num t)
          else bt.threads t) with
        rem_alu_vul := a, rem_reg_vul := b, rem_mem_vul := c, remote_count := d,
        remote_reg_vul := m1, remote_alu_vul := m2, remote_mem_vul := m3,
        remote_count_vul := m4 } := by
    by_cases ho : si.thread_no = (t.val : Int)
    · rw [hsame ho, Function.update_same, hth]
      exact ⟨_, _, _, _, _, _, _, _, rfl⟩
    · obtain ⟨m1, m2, m3, m4, rt, -, hne, hthr⟩ := hdiff ho
      rw [hthr, Function.update_noteq hne.symm, Function.update_same, hth]
      exact ⟨m1, m2, m3, m4, _, _, _, _, rfl⟩
  obtain ⟨m1, m2, m3, m4, a, b, c, d, ht⟩ := hthread
  constructor
  · intro hhit
    rw [ht, if_pos hhit]
    refine ⟨rfl, ?_⟩
    show strmap_value (strmap_put _ _ _) _ = _
    rw [strmap_value_put, if_pos rfl]
  · intro hhit
    rw [ht, if_neg hhit]
    exact ⟨rfl, rfl, rfl, rfl⟩

/-- Witness of C15, amended: the read of the counterexample with the cache-hit
flag 1 charges the window 6 - 5 = 1. -/
theorem read_closes_window_on_hit_witness :
    ∃ bt', text_trace_data
        (after_events engine_scenario1
          [.trace (mem_event 0 1 4096 0) heap_zero, .trace (instr_event 1 "nop") heap_zero])
        (mem_event 1 0 4096 1) heap_zero = some bt'
      ∧ (bt'.threads 1).mem_vul = 0 + 1 := by
  have h := read_closes_window_on_hit
    (after_events engine_scenario1
      [.trace (mem_event 0 1 4096 0) heap_zero, .trace (instr_event 1 "nop") heap_zero])
    (after_event (after_events engine_scenario1
      [.trace (mem_event 0 1 4096 0) heap_zero, .trace (instr_event 1 "nop") heap_zero])
      (mem_event 1 0 4096 1) heap_zero)
    (mem_event 1 0 4096 1) heap_zero 1
    (store_text (written_store_info engine_scenario1 (mem_event 0 1 4096 0) 0 heap_zero))
    (store_reread (written_store_info engine_scenario1 (mem_event 0 1 4096 0) 0 heap_zero)
      heap_zero)
    rfl (by decide!) rfl (after_event_eq _ _ _ (by decide!)) (by decide!)
    (stringToStore_store_text _ _)
  exact ⟨_, after_event_eq _ _ _ (by decide!), (h.1 rfl).1.trans (by decide!)⟩

/-- C19: for every event processed by `text_tracer` (instruction, memory read,
memory write, or any other entry) and every primary thread, each of the
counters `instr_num`, `instr_count`, `reg_live_area`, `mem_live_area` and
`remote_count` after the event is at least its value before the event. -/
theorem counters_never_decrease (bt bt' : base_trace) (ent : trace_entry) (heap : Store_info)
    (h : text_tracer bt ent heap = some bt') (i : Fin MAX_THREADS) :
    (bt.threads i).instr_num ≤ (bt'.threads i).instr_num
      ∧ (bt.threads i).instr_count ≤ (bt'.threads i).instr_count
      ∧ (bt.threads i).reg_live_area ≤ (bt'.threads i).reg_live_area
      ∧ (bt.threads i).mem_live_area ≤ (bt'.threads i).mem_live_area
      ∧ (bt.threads i).remote_count ≤ (bt'.threads i).remote_count := by
  unfold text_tracer at h
  split at h
  · exact text_trace_data_counters bt bt' ent heap h i
  · simp only [text_trace_exception, Option.some.injEq] at h
    subst h
    exact counters_le_refl _
  · exact text_trace_instruction_counters bt bt' ent h i
  · simp only [Option.some.injEq] at h
    subst h
    exact counters_le_refl _

/-- Witness of C19: thread 1 reads, with a cache hit, the address thread 0
wrote; its counters do not decrease. -/
theorem counters_never_decrease_witness :
    ((after_events engine_scenario1
        [.trace (mem_event 0 1 4096 0) heap_zero, .trace (instr_event 1 "nop") heap_zero]).threads
          1).mem_live_area
      ≤ ((after_event (after_events engine_scenario1
        [.trace (mem_event 0 1 4096 0) heap_zero, .trace (instr_event 1 "nop") heap_zero])
        (mem_event 1 0 4096 1) heap_zero).threads 1).mem_live_area :=
  (counters_never_decrease
    (after_events engine_scenario1
      [.trace (mem_event 0 1 4096 0) heap_zero, .trace (instr_event 1 "nop") heap_zero])
    (after_event (after_events engine_scenario1
      [.trace (mem_event 0 1 4096 0) heap_zero, .trace (instr_event 1 "nop") heap_zero])
      (mem_event 1 0 4096 1) heap_zero)
    (mem_event 1 0 4096 1) heap_zero
    (after_event_eq (after_events engine_scenario1
      [.trace (mem_event 0 1 4096 0) heap_zero, .trace (instr_event 1 "nop") heap_zero])
      (mem_event 1 0 4096 1) heap_zero (by decide!)) 1).2.2.2.1

/-- C20 fails in the code: from the fresh engine, core 0 is switched on and
executes one `nop`. Thread 0 is then at instruction 1 with empty register and
memory ledgers, so the divisors `xr` and `xm` of `print_cpu` are 0 and the
report divides `reg_vul` and `mem_vul` by zero, while the store-time path
floors the same key counts at 1. -/
theorem print_cpu_divides_by_zero :
    (engine_run base_trace_new_instance
        [.set_cpu_active 0 1, .trace (instr_event 0 "nop") heap_zero]).map
      (fun b => ((b.threads 0).instr_num, strmap_get_count (b.threads 0).register_vul,
        strmap_get_count (b.threads 0).memory_vul))
      = some (1, 0, 0)
    ∧ (engine_run base_trace_new_instance
        [.set_cpu_active 0 1, .trace (instr_event 0 "nop") heap_zero]).map
      (fun b => (print_cpu_xr (b.threads 0), print_cpu_xm (b.threads 0)))
      = some (0, 0)
    ∧ (engine_run base_trace_new_instance
        [.set_cpu_active 0 1, .trace (instr_event 0 "nop") heap_zero]).map
      (fun b => ((print_cpu (b.threads 0)).2.regg, (print_cpu (b.threads 0)).2.memm,
        (print_cpu (b.threads 0)).2.alu))
      = some (none, none, some 0) := by
  decide!

/-- C12: for every history of `reg_vulnerability` calls on the register ledger
of a fresh thread with non-decreasing instruction numbers (within the range of
`long long`, the history short enough for the records to fit their buffer),
every call is defined and the contribution it returns is at least 0, and so is
its conversion to `long`, which is what `text_trace_instruction` adds to
`reg_vul`. -/
theorem read_contributions_nonneg (thread_id : Int) (hist : List (Int × CStr × Int))
    (hsorted : hist.Pairwise (fun x y => x.1 ≤ y.1))
    (hrange : ∀ a ∈ hist, -2 ^ 63 ≤ a.1 ∧ a.1 < 2 ^ 63)
    (hlen : hist.length * (2 ^ 64 + 1) + 2 ^ 64 + 2 < 10 ^ 40) :
    ∃ cs, reg_contribs (initialize_thread_data thread_id).register_vul hist = some cs
      ∧ cs.length = hist.length
      ∧ ∀ c ∈ cs, 0 ≤ c ∧ 0 ≤ double_to_long c := by
  obtain ⟨cs, h1, h2, h3⟩ := reg_contribs_nonneg hist 0 (strmap_new 500) (-2 ^ 63)
    (LedgerOK_new 500)
    (by
      intro name k hk
      simp [ledger_instr, strmap_value_new] at hk)
    (fun a ha => (hrange a ha).1) hsorted hrange (by omega)
  exact ⟨cs, h1, h2, fun c hc => ⟨h3 c hc, double_to_long_nonneg c (h3 c hc)⟩⟩

/-- Witness of C12: a write of `r1` at instruction 1, a read and a write at
instruction 4 and a read at instruction 9. -/
theorem read_contributions_nonneg_witness :
    ∃ cs, reg_contribs (initialize_thread_data 0).register_vul
        [(1, "r1".toList, 0), (4, "r1".toList, 1), (4, "r1".toList, 0), (9, "r1".toList, 1)]
        = some cs
      ∧ cs.length = 4
      ∧ ∀ c ∈ cs, 0 ≤ c ∧ 0 ≤ double_to_long c :=
  read_contributions_nonneg 0
    [(1, "r1".toList, 0), (4, "r1".toList, 1), (4, "r1".toList, 0), (9, "r1".toList, 1)]
    (by decide) (by decide) (by decide)

/-- C13: in every state the engine reaches from its initial state by a
sequence of events, a load that resolves a store record and passes the
cache-hit block charges `mem_value = instr_num - s`, where `s` is the later of
the reader's instruction number in the record and its last recorded load of
the address, and `mem_value` is at least 0; and no event lowers the `mem_vul`
of any thread. -/
theorem load_contribution_nonneg (events : List engine_event) (bt : base_trace)
    (hrun : engine_run base_trace_new_instance events = some bt) :
    (∀ (t : Fin MAX_THREADS) (mem_a buf : CStr) (heap si : Store_info) (t' : thread_t)
        (s' : Int),
        strmap_get bt.memory_store mem_a 50000 = some buf →
        stringToStore buf heap = some si →
        load_hit (bt.threads t) mem_a (si.instr_num t) = some (t', s') →
        s' = load_baseline (bt.threads t) mem_a (si.instr_num t)
          ∧ 0 ≤ (bt.threads t).instr_num - s'
          ∧ t'.mem_vul = (bt.threads t).mem_vul + (((bt.threads t).instr_num - s' : Int) : ℚ))
    ∧ (∀ (ev : engine_event) (bt' : base_trace), engine_step bt ev = some bt' →
        ∀ i, (bt.threads i).mem_vul ≤ (bt'.threads i).mem_vul) := by
  have hinv := engine_run_inv events _ bt EngineInv_new hrun
  refine ⟨?_, fun ev bt' hstep => (engine_step_inv bt bt' ev hinv hstep).2⟩
  intro t mem_a buf heap si t' s' hget hsi hload
  obtain ⟨hs, ht⟩ := load_hit_spec _ _ _ _ _ hload
  have hle := load_baseline_le (bt.threads t) mem_a (si.instr_num t) (hinv.1 t)
    (store_record_instr bt mem_a buf heap si hinv.2 hget hsi t)
  refine ⟨hs, ?_, ?_⟩
  · rw [hs]; omega
  · rw [ht, hs]; rfl

/-- Witness of C13: cores 0 and 1 are switched on, thread 0 writes address
`0x1000`, thread 1 executes an instruction and then reads the address with a
cache hit; its `mem_vul` does not decrease. -/
theorem load_contribution_nonneg_witness :
    ((after_events base_trace_new_instance
        [.set_cpu_active 0 1, .set_cpu_active 1 1, .trace (mem_event 0 1 4096 0) heap_zero,
          .trace (instr_event 1 "nop") heap_zero]).threads 1).mem_vul
      ≤ ((after_event (after_events base_trace_new_instance
        [.set_cpu_active 0 1, .set_cpu_active 1 1, .trace (mem_event 0 1 4096 0) heap_zero,
          .trace (instr_event 1 "nop") heap_zero])
        (mem_event 1 0 4096 1) heap_zero).threads 1).mem_vul :=
  (load_contribution_nonneg
    [.set_cpu_active 0 1, .set_cpu_active 1 1, .trace (mem_event 0 1 4096 0) heap_zero,
      .trace (instr_event 1 "nop") heap_zero]
    (after_events base_trace_new_instance
      [.set_cpu_active 0 1, .set_cpu_active 1 1, .trace (mem_event 0 1 4096 0) heap_zero,
        .trace (instr_event 1 "nop") heap_zero])
    (after_events_eq _ _ (by decide!))).2
    (.trace (mem_event 1 0 4096 1) heap_zero)
    (after_event (after_events base_trace_new_instance
      [.set_cpu_active 0 1, .set_cpu_active 1 1, .trace (mem_event 0 1 4096 0) heap_zero,
        .trace (instr_event 1 "nop") heap_zero])
      (mem_event 1 0 4096 1) heap_zero)
    (after_event_eq (after_events base_trace_new_instance
      [.set_cpu_active 0 1, .set_cpu_active 1 1, .trace (mem_event 0 1 4096 0) heap_zero,
        .trace (instr_event 1 "nop") heap_zero])
      (mem_event 1 0 4096 1) heap_zero (by decide!)) 1

/-! ## The fan report, instruction decoding and the memory ledger -/

theorem fan_row_fold (direct indirect : FanArray) (i : Fin MAX_THREADS)
    (l : List (Fin MAX_THREADS)) :
    ∀ acc : ℚ × ℚ × ℚ, acc.2.2 = acc.1 + acc.2.1 →
      l.foldl
        (fun acc j =>
          (acc.1 + direct i j, acc.2.1 + indirect i j,
            (acc.1 + direct i j) + (acc.2.1 + indirect i j)))
        acc
        = (acc.1 + (l.map (direct i)).sum, acc.2.1 + (l.map (indirect i)).sum,
            (acc.1 + (l.map (direct i)).sum) + (acc.2.1 + (l.map (indirect i)).sum)) := by
  induction l with
  | nil =>
    intro acc h
    simp only [List.foldl_nil, List.map_nil, List.sum_nil, add_zero]
    rw [← h]
  | cons j l ih =>
    intro acc _
    rw [List.foldl_cons, ih _ rfl]
    simp only [List.map_cons, List.sum_cons, add_assoc]

theorem fan_row_eq (direct indirect : FanArray) (i : Fin MAX_THREADS) :
    fan_row direct indirect i
      = (∑ j, direct i j, ∑ j, indirect i j, (∑ j, direct i j) + ∑ j, indirect i j) := by
  unfold fan_row
  rw [fan_row_fold direct indirect i _ (0, 0, 0) (by norm_num)]
  simp only [zero_add, Fin.sum_univ_def]

theorem track_inv_step (rows : Fin MAX_THREADS → ℚ) (P : List (Fin MAX_THREADS))
    (c i : Fin MAX_THREADS) (m : ℚ) (h : track_inv rows P c m) (hlt : ∀ p ∈ P, p < i) :
    track_inv rows (P ++ [i]) (if rows i > m then i else c) (if rows i > m then rows i else m) := by
  obtain ⟨hb, hc⟩ := h
  by_cases hgt : rows i > m
  · rw [if_pos hgt, if_pos hgt]
    refine ⟨?_, Or.inl ⟨by simp, rfl, ?_⟩⟩
    · intro j hj
      rcases List.mem_append.1 hj with hj | hj
      · exact le_of_lt (lt_of_le_of_lt (hb j hj) hgt)
      · simp only [List.mem_singleton] at hj
        rw [hj]
    · intro j hj hjm
      rcases List.mem_append.1 hj with hj | hj
      · have := hb j hj
        rw [hjm] at this
        exact absurd hgt (not_lt.2 this)
      · simp only [List.mem_singleton] at hj
        rw [hj]
  · rw [if_neg hgt, if_neg hgt]
    have hle : rows i ≤ m := not_lt.1 hgt
    refine ⟨?_, ?_⟩
    · intro j hj
      rcases List.mem_append.1 hj with hj | hj
      · exact hb j hj
      · simp only [List.mem_singleton] at hj
        rw [hj]; exact hle
    · rcases hc with ⟨hcP, hm, hfirst⟩ | hzero
      · refine Or.inl ⟨List.mem_append_left _ hcP, hm, ?_⟩
        intro j hj hjm
        rcases List.mem_append.1 hj with hj | hj
        · exact hfirst j hj hjm
        · simp only [List.mem_singleton] at hj
          rw [hj]; exact le_of_lt (hlt c hcP)
      · exact Or.inr hzero

theorem print_fan_info_step_inv (direct indirect : FanArray) (P : List (Fin MAX_THREADS))
    (st : fan_critical) (i : Fin MAX_THREADS) (h : class_inv direct indirect P st)
    (hlt : ∀ p ∈ P, p < i) :
    class_inv direct indirect (P ++ [i]) (print_fan_info_step direct indirect st i) := by
  obtain ⟨h1, h2, h3⟩ := h
  have g1 := track_inv_step _ P st.critical i st.max h1 hlt
  have g2 := track_inv_step _ P st.critical_direct i st.max_direct h2 hlt
  have g3 := track_inv_step _ P st.critical_indirect i st.max_indirect h3 hlt
  unfold class_inv print_fan_info_step
  dsimp only at g1 g2 g3 ⊢
  refine ⟨?_, ?_, ?_⟩
  · convert g1 using 1 <;> split_ifs <;> rfl
  · convert g2 using 1 <;> split_ifs <;> rfl
  · convert g3 using 1 <;> split_ifs <;> rfl

theorem print_fan_info_fold_inv (direct indirect : FanArray) (l : List (Fin MAX_THREADS)) :
    ∀ (P : List (Fin MAX_THREADS)) (st : fan_critical), class_inv direct indirect P st →
      (∀ p ∈ P, ∀ i ∈ l, p < i) → l.Pairwise (fun a b => a < b) →
      class_inv direct indirect (P ++ l) (l.foldl (print_fan_info_step direct indirect) st) := by
  induction l with
  | nil =>
    intro P st h _ _
    simpa using h
  | cons i l ih =>
    intro P st h hlt hsort
    rw [List.foldl_cons]
    have hstep := print_fan_info_step_inv direct indirect P st i h
      (fun p hp => hlt p hp i (List.mem_cons_self _ _))
    have hsort' := List.pairwise_cons.1 hsort
    have := ih (P ++ [i]) _ hstep
      (by
        intro p hp j hj
        rcases List.mem_append.1 hp with hp | hp
        · exact hlt p hp j (List.mem_cons_of_mem _ hj)
        · simp only [List.mem_singleton] at hp
          rw [hp]; exact hsort'.1 j hj)
      hsort'.2
    simpa using this

theorem first_max_of_track_inv (rows : Fin MAX_THREADS → ℚ) (c : Fin MAX_THREADS) (m : ℚ)
    (hnonneg : ∀ i, 0 ≤ rows i) (h : track_inv rows (List.finRange MAX_THREADS) c m) :
    first_max rows c := by
  obtain ⟨hb, hc⟩ := h
  rcases hc with ⟨-, hm, hfirst⟩ | ⟨hc0, hm0⟩
  · refine ⟨?_, ?_⟩
    · intro i
      rw [← hm]; exact hb i (List.mem_finRange i)
    · intro i hi
      exact hfirst i (List.mem_finRange i) (by rw [hi, hm])
  · have hall : ∀ i, rows i = 0 := by
      intro i
      have := hb i (List.mem_finRange i)
      rw [hm0] at this
      exact le_antisymm this (hnonneg i)
    refine ⟨?_, ?_⟩
    · intro i
      rw [hall i, hall c]
    · intro i _
      rw [hc0]
      exact Fin.zero_le i

/-- One block of `print_fan_info` on matrices without negative entries: each
of the three indices is the lowest row whose sum is maximal. -/
theorem print_fan_info_class_spec (direct indirect : FanArray) (hd : fan_nonneg direct)
    (hi : fan_nonneg indirect) :
    first_max (fun i => (∑ j, direct i j) + ∑ j, indirect i j)
        (print_fan_info_class direct indirect).critical
      ∧ first_max (fun i => ∑ j, direct i j) (print_fan_info_class direct indirect).critical_direct
      ∧ first_max (fun i => ∑ j, indirect i j)
          (print_fan_info_class direct indirect).critical_indirect := by
  have hinit : class_inv direct indirect []
      { critical := 0, critical_direct := 0, critical_indirect := 0,
        max := 0, max_direct := 0, max_indirect := 0 } := by
    refine ⟨⟨?_, Or.inr ⟨rfl, rfl⟩⟩, ⟨?_, Or.inr ⟨rfl, rfl⟩⟩, ⟨?_, Or.inr ⟨rfl, rfl⟩⟩⟩ <;>
      exact fun i hi => absurd hi (List.not_mem_nil i)
  have h := print_fan_info_fold_inv direct indirect (List.finRange MAX_THREADS) [] _ hinit
    (fun p hp => absurd hp (List.not_mem_nil p)) (List.pairwise_lt_finRange MAX_THREADS)
  rw [List.nil_append] at h
  have hsd : ∀ i, 0 ≤ ∑ j, direct i j := fun i => Finset.sum_nonneg (fun j _ => hd i j)
  have hsi : ∀ i, 0 ≤ ∑ j, indirect i j := fun i => Finset.sum_nonneg (fun j _ => hi i j)
  obtain ⟨h1, h2, h3⟩ := h
  simp only [fan_row_eq] at h1 h2 h3
  exact ⟨first_max_of_track_inv _ _ _ (fun i => add_nonneg (hsd i) (hsi i)) h1,
    first_max_of_track_inv _ _ _ hsd h2, first_max_of_track_inv _ _ _ hsi h3⟩

theorem text_trace_instruction_eval (bt : base_trace) (ent : trace_entry)
    (t : Fin MAX_THREADS) (str instr rest : CStr)
    (hcpu : ent.cpu_no = (t.val : Int))
    (hactive : (bt.cores (Fin.castLE (by decide) t)).active ≠ 0)
    (htext : ent.text = some str) (htok : strtok_r [' '] str = some (instr, rest)) :
    text_trace_instruction bt ent
      = match decode_instruction instr rest with
        | none => some (text_trace_instruction_enter bt t ent.cpu_no)
        | some d =>
          text_trace_instruction_track (text_trace_instruction_enter bt t ent.cpu_no) t
            (in_region bt ent.cpu_no) d := by
  unfold text_trace_instruction
  dsimp only
  have h32 : index? 32 ent.cpu_no = some (Fin.castLE (by decide) t) := by
    rw [hcpu]; exact index?_castLE t
  have h8 : index? MAX_THREADS ent.cpu_no = some t := by
    rw [hcpu]; exact index?_val _ t
  simp only [h32, h8, if_neg hactive, htext, htok]

theorem text_trace_instruction_enter_alu (bt : base_trace) (t : Fin MAX_THREADS) (cpu : Int) :
    ((text_trace_instruction_enter bt t cpu).threads t).alu_vul = (bt.threads t).alu_vul := by
  unfold text_trace_instruction_enter
  dsimp only
  by_cases hp : bt.partial_result = 1
  · rw [if_pos hp]
    show (print_cpu_thread (Function.update bt.threads t _ t)).alu_vul = _
    rw [Function.update_same]
    rfl
  · rw [if_neg hp]
    show (Function.update bt.threads t _ t).alu_vul = _
    rw [Function.update_same]

theorem track_registers_alu (t t' : thread_t) (d : decoded_instr)
    (h : track_registers t d = some t') :
    t'.alu_vul = t.alu_vul ∧ t'.memory_vul = t.memory_vul := by
  refine track_registers_induct
    (fun x => x.alu_vul = t.alu_vul ∧ x.memory_vul = t.memory_vul) t t' d ⟨rfl, rfl⟩ ?_ h
  intro a b name read ha hb
  obtain ⟨v, ledger, -, hb'⟩ := track_register_spec a b name read hb
  subst hb'
  exact ha

theorem decode_instruction_none (instr rest : CStr) (ha : is_alu_mnemonic instr = false)
    (hm : is_mov_mnemonic instr = false) (hu : is_unary_mnemonic instr = false) :
    decode_instruction instr rest = none := by
  unfold decode_instruction
  simp [ha, hm, hu]

theorem strmap_put_total (m : StrMap) (k v : CStr) :
    sum_strmap (strmap_put m k v)
      = sum_strmap m - ((strmap_value m k).map atof).getD 0 + atof v := by
  unfold sum_strmap strmap_put strmap_value
  cases h : get_pair (m.buckets (hash k % m.count)) k with
  | none => simp [h]
  | some pair => simp [h]

theorem roundHalfEven_intCast (z : Int) : roundHalfEven ((z : Int) : ℚ) = z := by
  unfold roundHalfEven
  simp only [Int.floor_intCast, sub_self]
  norm_num

theorem round6_intCast (k : Int) : round6 ((k : Int) : ℚ) = ((k : Int) : ℚ) := by
  unfold round6
  have h : ((k : Int) : ℚ) * 1000000 = (((k * 1000000 : Int)) : ℚ) := by push_cast; ring
  rw [h, roundHalfEven_intCast]
  push_cast
  field_simp

theorem fmt_f_ne_nil (q : ℚ) : fmt_f q ≠ [] := (fmt_f_noPlus q).1

theorem load_old_value_of_record (t : thread_t) (mem_a : CStr) (hinv : MemVulInv t) :
    load_old_value t mem_a = ((strmap_value t.memory_vul mem_a).map atof).getD 0
      ∧ ∃ n : Int, ((strmap_value t.memory_vul mem_a).map atof).getD 0 = ((n : Int) : ℚ) := by
  unfold load_old_value get_from_char_map
  rw [strmap_get_eq]
  cases hv : strmap_value t.memory_vul mem_a with
  | none => exact ⟨rfl, 0, by simp⟩
  | some v =>
    obtain ⟨n, hn, hlen⟩ := hinv.2 mem_a v hv
    have hlen' : ¬ v.length ≥ 50 := by omega
    have hv0 : v ≠ [] := by rw [hn]; exact fmt_f_ne_nil _
    simp only [hlen', if_false, strtok_r_nil v hv0, Option.map_some', Option.getD_some]
    refine ⟨rfl, n, ?_⟩
    rw [hn, atof_fmt_f, round6_intCast]

theorem load_hit_tail_fits (t : thread_t) (r : thread_t × Int) (mem_a : CStr) (b : Int)
    (old : ℚ)
    (h : (if ((t.instr_num - b : Int) : ℚ) ≠ 0 then
          match put_to_char_map t.memory_vul mem_a .DOUBLE_TYPE
            (((t.instr_num - b : Int) : ℚ) + old) with
          | none => none
          | some vul =>
            load_hit_record
              { t with
                mem_live_area := t.mem_live_area + 1
                mem_vul := t.mem_vul + ((t.instr_num - b : Int) : ℚ)
                memory_vul := vul }
              mem_a b
        else load_hit_record t mem_a b) = some r)
    (hd : t.instr_num - b ≠ 0) :
    (fmt_f (((t.instr_num - b : Int) : ℚ) + old)).length < 50 := by
  have hz : ((t.instr_num - b : Int) : ℚ) ≠ 0 := by exact_mod_cast hd
  rw [if_pos hz] at h
  split at h
  · cases h
  · rename_i vul hput
    exact (put_to_char_map_eq _ _ _ _ _ hput).2

/-- When the cache-hit block is defined and charges a non-empty window, the
record it puts in the memory ledger fits the 50-byte buffer. -/
theorem load_hit_record_fits (t : thread_t) (r : thread_t × Int) (mem_a : CStr) (s : Int)
    (h : load_hit t mem_a s = some r) (hd : t.instr_num - load_baseline t mem_a s ≠ 0) :
    (fmt_f (((t.instr_num - load_baseline t mem_a s : Int) : ℚ)
      + load_old_value t mem_a)).length < 50 := by
  unfold load_hit at h
  cases h1 : get_from_char_map t.memory_load mem_a .LONG_LONG_TYPE with
  | none => simp [h1] at h
  | some result =>
    cases h2 : get_from_char_map t.memory_vul mem_a .DOUBLE_TYPE with
    | none => simp [h1, h2] at h
    | some old =>
      simp only [h1, h2] at h
      cases result with
      | none =>
        have hb : load_baseline t mem_a s = s := by simp [load_baseline, h1]
        cases old with
        | none =>
          have ho : load_old_value t mem_a = 0 := by simp [load_old_value, h2]
          rw [hb] at hd ⊢
          rw [ho]
          exact load_hit_tail_fits t r mem_a s 0 h hd
        | some o =>
          have ho : load_old_value t mem_a = o := by simp [load_old_value, h2]
          rw [hb] at hd ⊢
          rw [ho]
          exact load_hit_tail_fits t r mem_a s o h hd
      | some l =>
        have hb : load_baseline t mem_a s = if l > s then l else s := by
          simp [load_baseline, h1]
        cases old with
        | none =>
          have ho : load_old_value t mem_a = 0 := by simp [load_old_value, h2]
          rw [hb] at hd ⊢
          rw [ho]
          exact load_hit_tail_fits t r mem_a _ 0 h hd
        | some o =>
          have ho : load_old_value t mem_a = o := by simp [load_old_value, h2]
          rw [hb] at hd ⊢
          rw [ho]
          exact load_hit_tail_fits t r mem_a _ o h hd

theorem load_thread_memvul (a : thread_t) (mem_a : CStr) (hit s : Int) (hinv : MemVulInv a)
    (hdef : hit = 1 → ∃ r, load_hit a mem_a s = some r) :
    MemVulInv (load_thread a mem_a hit s) := by
  unfold load_thread
  by_cases hhit : hit = 1
  · rw [if_pos hhit]
    obtain ⟨r, hr⟩ := hdef hhit
    obtain ⟨hold, n, hn⟩ := load_old_value_of_record a mem_a hinv
    by_cases hd : a.instr_num - load_baseline a mem_a s ≠ 0
    · have hfit := load_hit_record_fits a r mem_a s hr hd
      have hsum : ((a.instr_num - load_baseline a mem_a s : Int) : ℚ) + load_old_value a mem_a
          = (((a.instr_num - load_baseline a mem_a s + n : Int)) : ℚ) := by
        rw [hold, hn]; push_cast; ring
      refine ⟨?_, ?_⟩
      · show sum_strmap (if a.instr_num - load_baseline a mem_a s ≠ 0 then
            strmap_put a.memory_vul mem_a
              (fmt_f (((a.instr_num - load_baseline a mem_a s : Int) : ℚ)
                + load_old_value a mem_a))
            else a.memory_vul)
          = a.mem_vul + ((a.instr_num - load_baseline a mem_a s : Int) : ℚ)
        rw [if_pos hd, strmap_put_total, hsum, atof_fmt_f, round6_intCast, hn, hinv.1]
        push_cast
        ring
      · intro key v hv
        change strmap_value (if a.instr_num - load_baseline a mem_a s ≠ 0 then
            strmap_put a.memory_vul mem_a
              (fmt_f (((a.instr_num - load_baseline a mem_a s : Int) : ℚ)
                + load_old_value a mem_a))
            else a.memory_vul) key = some v at hv
        rw [if_pos hd, strmap_value_put] at hv
        split_ifs at hv
        · simp only [Option.some.injEq] at hv
          rw [← hv]
          refine ⟨a.instr_num - load_baseline a mem_a s + n, ?_, hfit⟩
          rw [hsum]
        · exact hinv.2 key v hv
    · refine ⟨?_, ?_⟩
      · show sum_strmap (if a.instr_num - load_baseline a mem_a s ≠ 0 then _ else a.memory_vul)
          = a.mem_vul + ((a.instr_num - load_baseline a mem_a s : Int) : ℚ)
        rw [if_neg hd, hinv.1]
        have h0 : a.instr_num - load_baseline a mem_a s = 0 := by
          by_contra hne; exact hd hne
        rw [h0]
        simp
      · intro key v hv
        change strmap_value (if a.instr_num - load_baseline a mem_a s ≠ 0 then _
          else a.memory_vul) key = some v at hv
        rw [if_neg hd] at hv
        exact hinv.2 key v hv
  · rw [if_neg hhit]
    exact hinv

theorem MemVulInv_of_core {a b : thread_t} (h : core_state b = core_state a)
    (hinv : MemVulInv a) : MemVulInv b := by
  unfold core_state at h
  simp only [Prod.mk.injEq] at h
  obtain ⟨-, -, -, -, -, -, -, -, h9, h10⟩ := h
  unfold MemVulInv
  rw [h9, h10]
  exact hinv

theorem text_trace_instruction_memvul (bt bt' : base_trace) (ent : trace_entry)
    (hinv : ∀ i, MemVulInv (bt.threads i)) (h : text_trace_instruction bt ent = some bt')
    (i : Fin MAX_THREADS) : MemVulInv (bt'.threads i) := by
  obtain ⟨-, hcase⟩ := text_trace_instruction_spec bt bt' ent h
  rcases hcase with hbt | ⟨t, T1, -, hother, hT1, hres⟩
  · rw [hbt]; exact hinv i
  · by_cases hi : i = t
    · subst hi
      have hT : MemVulInv T1 := by
        unfold core_state at hT1
        simp only [Prod.mk.injEq] at hT1
        obtain ⟨-, -, -, -, -, -, -, -, h9, h10⟩ := hT1
        unfold MemVulInv
        rw [h9, h10]
        exact hinv i
      rcases hres with hT' | ⟨d, hd⟩
      · rw [hT']; exact hT
      · obtain ⟨-, -, g3⟩ := track_registers_memory _ _ _ hd
        obtain ⟨-, g4⟩ := track_registers_alu _ _ _ hd
        unfold MemVulInv
        rw [g3, g4]
        exact hT
    · exact MemVulInv_of_core (hother i hi) (hinv i)

theorem text_trace_data_memvul (bt bt' : base_trace) (ent : trace_entry) (heap : Store_info)
    (hinv : ∀ i, MemVulInv (bt.threads i)) (h : text_trace_data bt ent heap = some bt')
    (i : Fin MAX_THREADS) : MemVulInv (bt'.threads i) := by
  rcases text_trace_data_spec bt bt' ent heap h with ⟨hth, -⟩ | ⟨w, -, hth, -⟩ |
    ⟨t, buf, si, -, -, -, -, hsame, hother, hdef⟩
  · rw [hth]; exact hinv i
  · rw [hth]; exact hinv i
  · have hload := load_thread_memvul (bt.threads t) (fmt_llx ent.pa) ent.L1_hit_or_miss
      (si.instr_num t) (hinv t) hdef
    by_cases ho : si.thread_no = (t.val : Int)
    · rw [hsame ho]
      by_cases hi : i = t
      · subst hi
        rw [Function.update_same]
        exact hload
      · rw [Function.update_noteq hi]
        exact hinv i
    · obtain ⟨m1, m2, m3, m4, rt, -, hne, hth⟩ := hother ho
      rw [hth]
      by_cases hr : i = rt
      · subst hr
        rw [Function.update_same]
        exact MemVulInv_of_core (core_state_self_snapshot _ _) (hinv i)
      · rw [Function.update_noteq hr]
        by_cases hi : i = t
        · subst hi
          rw [Function.update_same]
          exact hload
        · rw [Function.update_noteq hi]
          exact hinv i

theorem engine_step_memvul (bt bt' : base_trace) (ev : engine_event)
    (hinv : ∀ i, MemVulInv (bt.threads i)) (h : engine_step bt ev = some bt') :
    ∀ i, MemVulInv (bt'.threads i) := by
  cases ev with
  | trace ent heap =>
    simp only [engine_step] at h
    unfold text_tracer at h
    split at h
    · exact text_trace_data_memvul bt bt' ent heap hinv h
    · simp only [text_trace_exception, Option.some.injEq] at h
      subst h
      exact hinv
    · exact text_trace_instruction_memvul bt bt' ent hinv h
    · simp only [Option.some.injEq] at h
      subst h
      exact hinv
  | set_cpu_active core value =>
    simp only [engine_step, Option.some.injEq] at h
    subst h
    exact hinv
  | set_partial_result value =>
    simp only [engine_step, Option.some.injEq] at h
    subst h
    exact hinv
  | set_redundant_region value =>
    simp only [engine_step, Option.some.injEq] at h
    subst h
    exact hinv
  | set_redundant_thread value =>
    simp only [engine_step, Option.some.injEq] at h
    subst h
    exact hinv
  | set_redundant value =>
    simp only [engine_step, Option.some.injEq] at h
    subst h
    exact hinv
  | report =>
    simp only [engine_step, Option.some.injEq] at h
    subst h
    intro i
    have hcore : core_state ((print_results bt).threads i) = core_state (bt.threads i) := rfl
    exact MemVulInv_of_core hcore (hinv i)

theorem engine_run_memvul (events : List engine_event) :
    ∀ bt0 bt : base_trace, (∀ i, MemVulInv (bt0.threads i)) →
      engine_run bt0 events = some bt → ∀ i, MemVulInv (bt.threads i) := by
  induction events with
  | nil =>
    intro bt0 bt h0 h
    simp only [engine_run, Option.some.injEq] at h
    subst h
    exact h0
  | cons ev rest ih =>
    intro bt0 bt h0 h
    simp only [engine_run] at h
    split at h
    · cases h
    · rename_i bt1 h1
      exact ih bt1 bt (engine_step_memvul bt0 bt1 ev h0 h1) h

theorem MemVulInv_new (i : Fin MAX_THREADS) : MemVulInv (base_trace_new_instance.threads i) := by
  refine ⟨rfl, ?_⟩
  intro key v hv
  change strmap_value (strmap_new 10000) key = some v at hv
  rw [strmap_value_new] at hv
  cases hv

theorem get_operand_scan_spec : ∀ (s : CStr) (found : Bool) (acc acc' : CStr)
    (r : Option Bool), get_operand_scan s found acc = (acc', r) →
    (' ' ∉ acc → ' ' ∉ acc') ∧ (r = some true → found = true ∨ '[' ∈ s)
      ∧ (r = some false → acc' = acc ∧ found = false) := by
  intro s
  induction s with
  | nil =>
    intro found acc acc' r h
    simp only [get_operand_scan, Prod.mk.injEq] at h
    obtain ⟨h1, h2⟩ := h
    subst h1 h2
    refine ⟨fun h => h, ?_, ?_⟩
    · intro hr
      exact Or.inl (Option.some.inj hr)
    · intro hr
      exact ⟨rfl, Option.some.inj hr⟩
  | cons c cs ih =>
    intro found acc acc' r h
    cases found with
    | true =>
      simp only [get_operand_scan, if_true] at h
      split_ifs at h with h1 h2 h3
      · simp only [Prod.mk.injEq] at h
        rw [← h.1, ← h.2]
        exact ⟨fun x => x, fun _ => Or.inl rfl, fun hr => by cases hr⟩
      · simp only [Prod.mk.injEq] at h
        rw [← h.1, ← h.2]
        exact ⟨fun x => x, fun _ => Or.inl rfl, fun hr => by cases hr⟩
      · obtain ⟨g1, -, g3⟩ := ih true acc acc' r h
        exact ⟨g1, fun _ => Or.inl rfl, fun hr => absurd (g3 hr).2 (by decide)⟩
      · obtain ⟨g1, -, g3⟩ := ih true (acc ++ [c]) acc' r h
        refine ⟨?_, fun _ => Or.inl rfl, fun hr => absurd (g3 hr).2 (by decide)⟩
        intro hacc
        refine g1 ?_
        intro hmem
        rcases List.mem_append.1 hmem with hm | hm
        · exact hacc hm
        · simp only [List.mem_singleton] at hm
          exact h3 hm.symm
    | false =>
      simp only [get_operand_scan, Bool.false_eq_true, if_false] at h
      obtain ⟨h1, h2, h3⟩ := ih (c == '[') acc acc' r h
      refine ⟨h1, ?_, fun hr => ⟨(h3 hr).1, rfl⟩⟩
      intro hr
      right
      rcases h2 hr with hc | hc
      · have : c = '[' := by simpa using hc
        rw [this]; exact List.mem_cons_self _ _
      · exact List.mem_cons_of_mem _ hc

/-- C24: for every operand text and write flag, `get_operand` returns 0, 1 or
2; whenever it returns a tracked classification (0 or 2) the name it leaves in
the operand buffer contains no blank and has between 2 and 4 characters, so a
name whose length falls outside 2..4 is returned as immediate (1); and 2 is
returned only when the write flag is 1 and the text contains `[`. -/
theorem get_operand_tracked_name (operand : CStr) (write : Int) :
    ((get_operand operand write).1 = 0 ∨ (get_operand operand write).1 = 1
      ∨ (get_operand operand write).1 = 2)
    ∧ ((get_operand operand write).1 ≠ 1 →
        ' ' ∉ (get_operand operand write).2
          ∧ 2 ≤ (get_operand operand write).2.length
          ∧ (get_operand operand write).2.length ≤ 4)
    ∧ (((get_operand operand write).2.length < 2 ∨ 4 < (get_operand operand write).2.length) →
        (get_operand operand write).1 = 1)
    ∧ ((get_operand operand write).1 = 2 → write = 1 ∧ '[' ∈ operand) := by
  have key : ((get_operand operand write).1 = 0 ∨ (get_operand operand write).1 = 1
      ∨ (get_operand operand write).1 = 2)
    ∧ ((get_operand operand write).1 ≠ 1 →
        ' ' ∉ (get_operand operand write).2
          ∧ 2 ≤ (get_operand operand write).2.length
          ∧ (get_operand operand write).2.length ≤ 4)
    ∧ ((get_operand operand write).1 = 2 → write = 1 ∧ '[' ∈ operand) := by
    unfold get_operand
    split_ifs with hd
    · exact ⟨Or.inr (Or.inl rfl), fun h => absurd rfl h, fun h => by cases h⟩
    · cases hscan : get_operand_scan operand false [] with
      | mk acc r =>
        obtain ⟨hblank, hfound, hnot⟩ := get_operand_scan_spec operand false [] acc r hscan
        have hacc : ' ' ∉ acc := hblank (List.not_mem_nil _)
        cases r with
        | none =>
          exact ⟨Or.inr (Or.inl rfl), fun h => absurd rfl h, fun h => by cases h⟩
        | some found =>
          cases found with
          | true =>
            have hbr : '[' ∈ operand := by
              rcases hfound rfl with h | h
              · cases h
              · exact h
            dsimp only
            by_cases hk : acc.length > 4 ∨ acc.length < 2
            · rw [if_pos ⟨rfl, hk⟩]
              exact ⟨Or.inr (Or.inl rfl), fun h => absurd rfl h, fun h => by cases h⟩
            · have hk0 : acc.length ≠ 0 := by omega
              have hne : ¬ ((true : Bool) = true ∧ (acc.length > 4 ∨ acc.length < 2)) :=
                fun h => hk h.2
              rw [if_neg hne]
              simp only [if_true, hk0, ne_eq, not_false_eq_true, not_true_eq_false, false_and,
                if_false, true_and]
              by_cases hw : write = 1
              · rw [if_pos hw]
                exact ⟨Or.inr (Or.inr rfl),
                  fun _ => ⟨hacc, by dsimp only; omega, by dsimp only; omega⟩,
                  fun _ => ⟨hw, hbr⟩⟩
              · rw [if_neg hw]
                split_ifs
                · exact ⟨Or.inr (Or.inl rfl), fun h => absurd rfl h, fun h => by cases h⟩
                · exact ⟨Or.inl rfl,
                    fun _ => ⟨hacc, by dsimp only; omega, by dsimp only; omega⟩,
                    fun h => by cases h⟩
          | false =>
            have hnil : acc = [] := (hnot rfl).1
            subst hnil
            dsimp only
            simp only [Bool.false_eq_true, false_and, if_false, not_false_eq_true, true_and,
              List.length_nil, ne_eq, not_true_eq_false]
            split_ifs with hk h0
            · exact ⟨Or.inr (Or.inl rfl), fun h => absurd rfl h, fun h => by cases h⟩
            · exact ⟨Or.inr (Or.inl rfl), fun h => absurd rfl h, fun h => by cases h⟩
            · refine ⟨Or.inl rfl,
                fun _ => ⟨?_, by dsimp only; omega, by dsimp only; omega⟩,
                fun h => by cases h⟩
              intro hmem
              have := (List.mem_filter.1 hmem).2
              simp at this
  refine ⟨key.1, key.2.1, ?_, key.2.2⟩
  intro hlen
  by_contra hne
  have := key.2.1 hne
  omega

/-- C23 fails in the code: the operand ` 10`, a decimal immediate after the
blank that follows the comma, is classified as a register (0) for both values
of the write flag and left in the buffer as the name `10`; `add eax, 10` then
records `10` in the register ledger of the thread as a register read. -/
theorem get_operand_blank_before_digit :
    get_operand " 10".toList 0 = (0, "10".toList)
    ∧ get_operand " 10".toList 1 = (0, "10".toList)
    ∧ (decode_instruction "add".toList "eax, 10".toList).map
        (fun d => (d.isRead, d.read1)) = some (0, "10".toList)
    ∧ (engine_run base_trace_new_instance
        [.set_cpu_active 0 1, .trace (instr_event 0 "add eax, 10") heap_zero]).map
      (fun b => ((b.threads 0).reg_live_area,
        ledger_instr (b.threads 0).register_vul "10".toList))
      = some (1, some 1) := by
  decide!

/-- C25 fails as stated: thread 1 reads a record owned by thread 0. In the
snapshot of the record the only non-zero cells are `direct_count[1][0] = 101`
and `direct_alu_array[1][0] = 10` (thread 0 has read thread 1 101 times), and
before the call `direct_count[0][1] = 100`. The loop reaches `j = 1`, the
reader itself, and raises the diagonal cells `indirect_alu_array[1][1]` from 0
to 8 and `indirect_count[1][1]` from 0 to 80.8. -/
theorem indirect_diagonal_counterexample :
    (handle_fan_info
        { heap_zero with
          thread_no := 0
          fan_info :=
            { Fan_info.zero with
              direct_count := FanArray.zero.set 1 0 101
              direct_alu_array := FanArray.zero.set 1 0 10 } }
        { Fan_info.zero with direct_count := FanArray.zero.set 0 1 100 } 1).map
      (fun f => (f.indirect_alu_array 1 1, f.indirect_count 1 1))
      = some (8, 404 / 5)
    ∧ Fan_info.zero.indirect_alu_array 1 1 = 0 ∧ Fan_info.zero.indirect_count 1 1 = 0 := by
  decide!

/-- C25, amended: for every call `handle_fan_info(sinfo, finfo, in)` with owner
`out`, indirect propagation modifies only cells of the column `in`, and a cell
`[j][in]` only when the edge `out -> in` is over the threshold after its
increment and the snapshot's `direct_count[j][out]` or `indirect_count[j][out]`
exceeds the threshold; `j` may be the reader `in` or the owner `out` itself.
Every other indirect cell is unchanged. -/
theorem indirect_touches_gated_rows_only (sinfo : Store_info) (finfo : Fan_info) (in_ : Int)
    (out i : Fin MAX_THREADS) (hout : index? MAX_THREADS sinfo.thread_no = some out)
    (hin : index? MAX_THREADS in_ = some i) :
    ∃ f', handle_fan_info sinfo finfo in_ = some f'
      ∧ ∀ j k : Fin MAX_THREADS,
        (k ≠ i ∨ ¬ (finfo.direct_count out i + 1 > REMOTE_THRESHOLD)
          ∨ ¬ (sinfo.fan_info.direct_count j out > REMOTE_THRESHOLD
              ∨ sinfo.fan_info.indirect_count j out > REMOTE_THRESHOLD)) →
        f'.indirect_alu_array j k = finfo.indirect_alu_array j k
          ∧ f'.indirect_reg_array j k = finfo.indirect_reg_array j k
          ∧ f'.indirect_mem_array j k = finfo.indirect_mem_array j k
          ∧ f'.indirect_count j k = finfo.indirect_count j k := by
  obtain ⟨f', hf', -, hi⟩ := handle_fan_info_spec sinfo finfo in_ out i hout hin
  refine ⟨f', hf', ?_⟩
  intro j k hjk
  have hcell := hi j k
  have hcond : ¬ (finfo.direct_count out i + 1 > REMOTE_THRESHOLD ∧ k = i
      ∧ fan_gate sinfo out j) := by
    rintro ⟨h1, h2, h3⟩
    rcases hjk with h | h | h
    · exact h h2
    · exact h h1
    · exact h h3
  rw [if_neg hcond] at hcell
  simp only [Fan_info.indirect_cell, Prod.mk.injEq] at hcell
  exact hcell

/-- Witness of C25, amended: in the call of the counterexample the cells of
row 2, which fails the gate, are unchanged. -/
theorem indirect_touches_gated_rows_only_witness :
    ∃ f', handle_fan_info
        { heap_zero with
          thread_no := 0
          fan_info :=
            { Fan_info.zero with
              direct_count := FanArray.zero.set 1 0 101
              direct_alu_array := FanArray.zero.set 1 0 10 } }
        { Fan_info.zero with direct_count := FanArray.zero.set 0 1 100 } 1 = some f'
      ∧ f'.indirect_alu_array 2 1 = 0 := by
  obtain ⟨f', hf', h⟩ := indirect_touches_gated_rows_only
    { heap_zero with
      thread_no := 0
      fan_info :=
        { Fan_info.zero with
          direct_count := FanArray.zero.set 1 0 101
          direct_alu_array := FanArray.zero.set 1 0 10 } }
    { Fan_info.zero with direct_count := FanArray.zero.set 0 1 100 } 1 0 1
    (by decide) (by decide)
  exact ⟨f', hf', (h 2 1 (Or.inr (Or.inr (by decide!)))).1⟩

/-- C27: for every `Store_info` `s` whose text fits the buffer, `stringToStore`
applied to the string `storeToString` produced is defined and yields a record
with the same `thread_no` and the same `MAX_THREADS` instruction numbers, and
with each of the nine floating fields equal to the original rounded to six
decimals; rounding leaves integer values as they are, so integer-valued fields
are read back exactly. -/
theorem store_record_round_trip (s heap : Store_info) (n : Nat) (info : CStr)
    (h : storeToString s n = some info) :
    ∃ r, stringToStore info heap = some r
      ∧ r.thread_no = s.thread_no
      ∧ (∀ i, r.instr_num i = s.instr_num i)
      ∧ r.alu_tvf = round6 s.alu_tvf ∧ r.reg_tvf = round6 s.reg_tvf
      ∧ r.mem_tvf = round6 s.mem_tvf
      ∧ r.alu_lvf = round6 s.alu_lvf ∧ r.reg_lvf = round6 s.reg_lvf
      ∧ r.mem_lvf = round6 s.mem_lvf
      ∧ r.alu_local_interval = round6 s.alu_local_interval
      ∧ r.reg_local_interval = round6 s.reg_local_interval
      ∧ r.mem_local_interval = round6 s.mem_local_interval
      ∧ ∀ (q : ℚ) (k : Int), q = (k : ℚ) → round6 q = q := by
  refine ⟨store_reread s heap, stringToStore_storeToString s heap n info h, rfl,
    fun _ => rfl, rfl, rfl, rfl, rfl, rfl, rfl, rfl, rfl, rfl, ?_⟩
  intro q k hq
  rw [hq]
  exact round6_intCast k

/-- Witness of C27: the record thread 0 of the first scenario writes. -/
theorem store_record_round_trip_witness :
    ∃ r, stringToStore
        (store_text (written_store_info engine_scenario1 (mem_event 0 1 4096 0) 0 heap_zero))
        heap_zero = some r
      ∧ r.thread_no = 0 ∧ r.instr_num 1 = 5 := by
  obtain ⟨r, h1, h2, h3, -⟩ := store_record_round_trip
    (written_store_info engine_scenario1 (mem_event 0 1 4096 0) 0 heap_zero) heap_zero 50000
    (store_text (written_store_info engine_scenario1 (mem_event 0 1 4096 0) 0 heap_zero))
    (by decide!)
  exact ⟨r, h1, h2.trans (by decide), (h3 1).trans (by decide)⟩

/-- C29 fails in the code: thread 0 executes an ALU instruction and writes
address `0x1000`, thread 1 reads the address (so thread 0 takes the snapshot
`alu_self_vul = 1`), and thread 0 executes two more ALU instructions. In this
state `alu_vul = 3` and `alu_self_vul = 1`; `print_cpu` overwrites
`alu_self_vul` with 2, and a second report with no event in between overwrites
it with 1: the two reports show different `Self ALU` values. -/
theorem print_cpu_overwrites_self_values :
    (engine_run base_trace_new_instance
        [.set_cpu_active 0 1, .set_cpu_active 1 1,
          .trace (instr_event 0 "add 1, 2") heap_zero,
          .trace (mem_event 0 1 4096 0) heap_zero, .trace (mem_event 1 0 4096 0) heap_zero,
          .trace (instr_event 0 "add 1, 2") heap_zero,
          .trace (instr_event 0 "add 1, 2") heap_zero]).map
      (fun b => ((b.threads 0).alu_vul, (b.threads 0).alu_self_vul,
        (print_cpu (b.threads 0)).1.alu_self_vul,
        (print_cpu (print_cpu (b.threads 0)).1).1.alu_self_vul))
      = some (3, 1, 2, 1)
    ∧ (engine_run base_trace_new_instance
        [.set_cpu_active 0 1, .set_cpu_active 1 1,
          .trace (instr_event 0 "add 1, 2") heap_zero,
          .trace (mem_event 0 1 4096 0) heap_zero, .trace (mem_event 1 0 4096 0) heap_zero,
          .trace (instr_event 0 "add 1, 2") heap_zero,
          .trace (instr_event 0 "add 1, 2") heap_zero,
          .set_partial_result 1, .trace (instr_event 1 "nop") heap_zero, .report]).map
      (fun b => (b.threads 0).alu_self_vul)
      = some 1 := by
  decide!

/-- C30 fails in the code: on the fresh engine eight calls with the pids 101
to 108 return the indices 0 to 7; the call for a ninth pid finds eight keys in
`thread_no_map` and returns the address of `threads[8]`, outside the array of
`MAX_THREADS = 8` threads, after writing its three fields there. -/
theorem get_current_thread_ninth_pid :
    (get_current_thread_run base_trace_new_instance
        [(101, 0), (102, 0), (103, 0), (104, 0), (105, 0), (106, 0), (107, 0), (108, 0)]).map
      (fun r => (r.1, get_current_thread_slot r.2 109, get_current_thread_slot r.2 103,
        (get_current_thread r.2 109 0).isNone))
      = some ([0, 1, 2, 3, 4, 5, 6, 7], some 8, some 2, true) := by
  decide!

/-- C22 fails as stated: `movsx` is not one of the recognized mnemonics, yet
the instruction `movsx eax, bx` passes the test `strncmp(instr, "mov", 3)` and
is tracked as a move: from the fresh engine the register ledger of thread 0
gets the two records `eax` and `bx` and `reg_live_area` becomes 1. -/
theorem prefix_mnemonic_counterexample :
    "movsx".toList ∉ ["add".toList, "fadd".toList, "sub".toList, "fsub".toList, "mul".toList,
        "fmul".toList, "imul".toList, "lea".toList, "cmp".toList, "and".toList,
        "or".toList, "xor".toList, "shl".toList, "shr".toList, "test".toList,
        "mov".toList, "movzx".toList, "inc".toList, "neg".toList]
    ∧ (engine_run base_trace_new_instance [.set_cpu_active 0 1]).map
        (fun b => (strmap_get_count (b.threads 0).register_vul, (b.threads 0).reg_live_area))
      = some (0, 0)
    ∧ (engine_run base_trace_new_instance
        [.set_cpu_active 0 1, .trace (instr_event 0 "movsx eax, bx") heap_zero]).map
      (fun b => (strmap_get_count (b.threads 0).register_vul, (b.threads 0).reg_live_area,
        ledger_instr (b.threads 0).register_vul "eax".toList,
        ledger_instr (b.threads 0).register_vul "bx".toList))
      = some (2, 1, some 1, some 1) := by
  decide!

/-- C22, amended: for every instruction event on an active core whose mnemonic
token does not begin with any of the recognized mnemonics (the first
`strlen(m)` characters of the token differ from `m` for each of the nineteen
names `m`), `text_trace_instruction` is defined and leaves the register ledger,
`reg_vul`, `reg_live_area` and `alu_vul` of the thread unchanged, while
`instr_count` and `instr_num` each increase by exactly 1. -/
theorem unrecognized_mnemonic_not_tracked (bt : base_trace) (ent : trace_entry)
    (t : Fin MAX_THREADS) (str instr rest : CStr) (hcpu : ent.cpu_no = (t.val : Int))
    (hactive : (bt.cores (Fin.castLE (by decide) t)).active ≠ 0)
    (htext : ent.text = some str) (htok : strtok_r [' '] str = some (instr, rest))
    (hnot : ∀ m ∈ ["add".toList, "fadd".toList, "sub".toList, "fsub".toList, "mul".toList,
        "fmul".toList, "imul".toList, "lea".toList, "cmp".toList, "and".toList,
        "or".toList, "xor".toList, "shl".toList, "shr".toList, "test".toList,
        "mov".toList, "movzx".toList, "inc".toList, "neg".toList],
      instr.take m.length ≠ m) :
    ∃ bt', text_trace_instruction bt ent = some bt'
      ∧ (bt'.threads t).register_vul = (bt.threads t).register_vul
      ∧ (bt'.threads t).reg_vul = (bt.threads t).reg_vul
      ∧ (bt'.threads t).reg_live_area = (bt.threads t).reg_live_area
      ∧ (bt'.threads t).alu_vul = (bt.threads t).alu_vul
      ∧ (bt'.threads t).instr_count = (bt.threads t).instr_count + 1
      ∧ (bt'.threads t).instr_num = (bt.threads t).instr_num + 1 := by
  have hs : ∀ m ∈ ["add".toList, "fadd".toList, "sub".toList, "fsub".toList, "mul".toList,
      "fmul".toList, "imul".toList, "lea".toList, "cmp".toList, "and".toList,
      "or".toList, "xor".toList, "shl".toList, "shr".toList, "test".toList,
      "mov".toList, "movzx".toList, "inc".toList, "neg".toList],
      strncmp_eq instr m = false := by
    intro m hm
    unfold strncmp_eq
    exact decide_eq_false (hnot m hm)
  have ha : is_alu_mnemonic instr = false := by
    unfold is_alu_mnemonic
    rw [hs _ (by decide), hs _ (by decide), hs _ (by decide), hs _ (by decide),
      hs _ (by decide), hs _ (by decide), hs _ (by decide), hs _ (by decide),
      hs _ (by decide), hs _ (by decide), hs _ (by decide), hs _ (by decide),
      hs _ (by decide), hs _ (by decide), hs _ (by decide)]
    rfl
  have hm : is_mov_mnemonic instr = false := by
    unfold is_mov_mnemonic
    rw [hs _ (by decide), hs _ (by decide)]
    rfl
  have hu : is_unary_mnemonic instr = false := by
    unfold is_unary_mnemonic
    rw [hs _ (by decide), hs _ (by decide)]
    rfl
  refine ⟨text_trace_instruction_enter bt t ent.cpu_no, ?_, ?_⟩
  · rw [text_trace_instruction_eval bt ent t str instr rest hcpu hactive htext htok,
      decode_instruction_none instr rest ha hm hu]
  · obtain ⟨-, hcore, -⟩ := text_trace_instruction_enter_spec bt t ent.cpu_no
    unfold core_state instr_counted at hcore
    simp only [Prod.mk.injEq] at hcore
    obtain ⟨h1, h2, h3, -, -, h6, -, h8, -⟩ := hcore
    exact ⟨h6, h8, h3, text_trace_instruction_enter_alu bt t ent.cpu_no, h2, h1⟩

/-- Witness of C22, amended: `nop` on thread 0 of the engine with every core
on. -/
theorem unrecognized_mnemonic_not_tracked_witness :
    ∃ bt', text_trace_instruction engine_active (instr_event 0 "nop") = some bt'
      ∧ (bt'.threads 0).instr_num = 0 + 1 := by
  obtain ⟨bt', h1, -, -, -, -, -, h7⟩ := unrecognized_mnemonic_not_tracked engine_active
    (instr_event 0 "nop") 0 "nop".toList "nop".toList [] rfl (by decide) rfl (by decide)
    (by decide)
  exact ⟨bt', h1, h7.trans (by decide)⟩

/-- C26: for every `Fan_info` whose matrices have no negative entry and for
each resource class (register, memory, ALU, count), the three indices
`print_fan_info` reports as most critical (total, direct, indirect) are each
the lowest thread index whose row sum over all `MAX_THREADS` columns is
maximal in that category, the total being direct plus indirect. -/
theorem print_fan_info_most_critical (fan : Fan_info)
    (h1 : fan_nonneg fan.direct_reg_array) (h2 : fan_nonneg fan.indirect_reg_array)
    (h3 : fan_nonneg fan.direct_mem_array) (h4 : fan_nonneg fan.indirect_mem_array)
    (h5 : fan_nonneg fan.direct_alu_array) (h6 : fan_nonneg fan.indirect_alu_array)
    (h7 : fan_nonneg fan.direct_count) (h8 : fan_nonneg fan.indirect_count) :
    (first_max (fun i => (∑ j, fan.direct_reg_array i j) + ∑ j, fan.indirect_reg_array i j)
        (print_fan_info fan).1.critical
      ∧ first_max (fun i => ∑ j, fan.direct_reg_array i j)
        (print_fan_info fan).1.critical_direct
      ∧ first_max (fun i => ∑ j, fan.indirect_reg_array i j)
        (print_fan_info fan).1.critical_indirect)
    ∧ (first_max (fun i => (∑ j, fan.direct_mem_array i j) + ∑ j, fan.indirect_mem_array i j)
        (print_fan_info fan).2.1.critical
      ∧ first_max (fun i => ∑ j, fan.direct_mem_array i j)
        (print_fan_info fan).2.1.critical_direct
      ∧ first_max (fun i => ∑ j, fan.indirect_mem_array i j)
        (print_fan_info fan).2.1.critical_indirect)
    ∧ (first_max (fun i => (∑ j, fan.direct_alu_array i j) + ∑ j, fan.indirect_alu_array i j)
        (print_fan_info fan).2.2.1.critical
      ∧ first_max (fun i => ∑ j, fan.direct_alu_array i j)
        (print_fan_info fan).2.2.1.critical_direct
      ∧ first_max (fun i => ∑ j, fan.indirect_alu_array i j)
        (print_fan_info fan).2.2.1.critical_indirect)
    ∧ (first_max (fun i => (∑ j, fan.direct_count i j) + ∑ j, fan.indirect_count i j)
        (print_fan_info fan).2.2.2.critical
      ∧ first_max (fun i => ∑ j, fan.direct_count i j)
        (print_fan_info fan).2.2.2.critical_direct
      ∧ first_max (fun i => ∑ j, fan.indirect_count i j)
        (print_fan_info fan).2.2.2.critical_indirect) :=
  ⟨print_fan_info_class_spec _ _ h1 h2, print_fan_info_class_spec _ _ h3 h4,
    print_fan_info_class_spec _ _ h5 h6, print_fan_info_class_spec _ _ h7 h8⟩

/-- Witness of C26: the only non-zero entry is `direct_reg_array[2][3] = 5`;
the thread reported for direct register influence is the lowest index with
the maximal row sum. -/
theorem print_fan_info_most_critical_witness :
    first_max (fun i => ∑ j, (FanArray.zero.set 2 3 5) i j)
      (print_fan_info { Fan_info.zero with direct_reg_array := FanArray.zero.set 2 3 5 }).1.critical_direct :=
  (print_fan_info_most_critical { Fan_info.zero with direct_reg_array := FanArray.zero.set 2 3 5 }
    (by unfold fan_nonneg; decide!) (fun _ _ => le_refl _) (fun _ _ => le_refl _)
    (fun _ _ => le_refl _) (fun _ _ => le_refl _) (fun _ _ => le_refl _)
    (fun _ _ => le_refl _) (fun _ _ => le_refl _)).1.2.1

/-- C28: in every state the engine reaches from its initial state by a
sequence of events, and for every primary thread, `sum_strmap` of the memory
ledger `memory_vul` equals the memory accumulator `mem_vul`. -/
theorem memory_ledger_sum_is_mem_vul (events : List engine_event) (bt : base_trace)
    (hrun : engine_run base_trace_new_instance events = some bt) (i : Fin MAX_THREADS) :
    sum_strmap (bt.threads i).memory_vul = (bt.threads i).mem_vul :=
  (engine_run_memvul events base_trace_new_instance bt MemVulInv_new hrun i).1

/-- Witness of C28: thread 0 writes address `0x1000`, thread 1 executes an
instruction and reads the address with a cache hit, which charges 1. -/
theorem memory_ledger_sum_is_mem_vul_witness :
    sum_strmap ((after_events base_trace_new_instance
        [.set_cpu_active 0 1, .set_cpu_active 1 1, .trace (mem_event 0 1 4096 0) heap_zero,
          .trace (instr_event 1 "nop") heap_zero,
          .trace (mem_event 1 0 4096 1) heap_zero]).threads 1).memory_vul
      = ((after_events base_trace_new_instance
        [.set_cpu_active 0 1, .set_cpu_active 1 1, .trace (mem_event 0 1 4096 0) heap_zero,
          .trace (instr_event 1 "nop") heap_zero,
          .trace (mem_event 1 0 4096 1) heap_zero]).threads 1).mem_vul :=
  memory_ledger_sum_is_mem_vul
    [.set_cpu_active 0 1, .set_cpu_active 1 1, .trace (mem_event 0 1 4096 0) heap_zero,
      .trace (instr_event 1 "nop") heap_zero, .trace (mem_event 1 0 4096 1) heap_zero]
    _ (after_events_eq _ _ (by decide!)) 1

end CriticalT
